import Mathlib

/-!
# NightDriverStrip matrix effects: PatternBoxes, PatternFireworks, PatternWarp

A shallow embedding of `include/effects/matrix/PatternBoxes.h`,
`include/effects/matrix/PatternFireworks.h` and
`include/effects/matrix/PatternWarp.h`, and theorems about it.

Conventions of the embedding.

* `int` values that the code only ever holds non-negative (tile counts, tile
  indices, loop counters) are `Nat`; the build constants `MATRIX_WIDTH` and
  `MATRIX_HEIGHT` are positive and small, so no `int` product of them
  overflows.  Where the code subtracts (`_cols - 1`, `col - 1`) the guards of
  the code keep truncated subtraction equal to the `int` one.
* `uint8_t` and `uint32_t` arithmetic is `Nat` arithmetic with an explicit
  `% 256` or `% 4294967296`.
* A `float` is the rational number it holds.  Where a statement depends on
  the rounding of the arithmetic (the step on which a rocket explodes, the
  pixels of a line, the bytes of a colour) every operation is rounded to
  binary32 by `f32`; elsewhere (positions and velocities, of which the
  theorems use the order and the structure only) the arithmetic is exact.
* The collaborators outside the repository (palette lookup, pseudo-random
  source, clock, pixel sink, `cos`/`sin`/`pow`) are parameters: the clock is an
  argument `now`, the random source is the sequence of raw values its next
  calls return, the pixel sink is the list of operations sent to it.
-/

namespace NightDriver

/-! ## Collaborators -/

/-- FastLED `CRGB`: three 8-bit channels. -/
structure CRGB where
  r : Fin 256
  g : Fin 256
  b : Fin 256
deriving DecidableEq, Repr

/-- The colour `CRGB::Black`. -/
def CRGB.Black : CRGB := ⟨0, 0, 0⟩

/-- The colour `CRGB::White`. -/
def CRGB.White : CRGB := ⟨255, 255, 255⟩

/-- FastLED `CRGBPalette16`: its entries; `memcmp` on two palettes is equality. -/
structure CRGBPalette16 where
  entries : List CRGB
deriving DecidableEq, Repr

/-- The pseudo-random source: the raw values its successive calls will return. -/
abbrev RandomSource := Nat → Nat

/-- Arduino `random(howbig)`: a value in `[0, howbig)` (0 when `howbig = 0`),
and the source advanced by one draw. -/
def random (howbig : Nat) (rng : RandomSource) : Nat × RandomSource :=
  (if howbig = 0 then 0 else rng 0 % howbig, fun k => rng (k + 1))

/-- Arduino `random(howsmall, howbig)`: `howsmall` when the range is empty,
otherwise `howsmall + random(howbig - howsmall)`. -/
def randomRange (howsmall howbig : Int) (rng : RandomSource) : Int × RandomSource :=
  if howsmall ≥ howbig then (howsmall, rng)
  else ((random (howbig - howsmall).toNat rng).1 + howsmall, (random (howbig - howsmall).toNat rng).2)

/-- Colour handed to the pixel sink: a `CRGB`, a `CHSV` triple the sink
converts, or the FastLED call `blend(p1, p2, amountOfP2)`, which is `p1` at
amount 0 and `p2` at amount 255. -/
inductive PixelColor where
  | rgb (c : CRGB)
  | hsv (h s v : Nat)
  | blend (p1 p2 : PixelColor) (amountOfP2 : Nat)
deriving DecidableEq, Repr

/-- Operations sent to the pixel sink (`g()`). -/
inductive SinkOp where
  | DimAll (factor : Nat)
  | fillRectangle (x0 y0 x1 y1 : Int) (c : PixelColor)
deriving DecidableEq, Repr

/-- Build constants and the graphics collaborator used by the effects. -/
structure Gfx where
  MATRIX_WIDTH : Nat
  MATRIX_HEIGHT : Nat
  /-- The call `ColorFromPalette(palette, hue, 255, NOBLEND)`. -/
  ColorFromPalette : CRGBPalette16 → Nat → CRGB
  /-- The palette current after `CyclePalette(step)`, from the one current before. -/
  CyclePalette : Int → CRGBPalette16 → CRGBPalette16
  /-- The call `RandomRainbowColor()`. -/
  RandomRainbowColor : RandomSource → CRGB × RandomSource

/-- Conversion of an `int` to `uint32_t`. -/
def toU32 (x : Int) : Nat := (x % 4294967296).toNat

/-- Subtraction of two `uint32_t` values. -/
def subU32 (a b : Nat) : Nat := (a + 4294967296 - b % 4294967296) % 4294967296

/-! ## PatternBoxes -/

/-- The constant `UINT32_MAX`. -/
def UINT32_MAX : Nat := 4294967295

/-- The constant `PatternBoxes::BOX_SIZE`. -/
def BOX_SIZE : Nat := 8

/-- Fields of `class PatternBoxes`. -/
structure PatternBoxes where
  _cols : Nat
  _rows : Nat
  _lastChangeMs : Nat
  _changeIntervalMs : Int
  _colorBuckets : Int
  _allowedColors : List CRGB
  _boxColors : List CRGB
  _cachedPalette : CRGBPalette16

namespace PatternBoxes

/-- The freshly constructed effect (the in-class initialisers); `pal0` is
whatever the default-constructed `_cachedPalette` holds. -/
def new (pal0 : CRGBPalette16) : PatternBoxes :=
  { _cols := 0, _rows := 0, _lastChangeMs := 0, _changeIntervalMs := 200,
    _colorBuckets := 8, _allowedColors := [], _boxColors := [], _cachedPalette := pal0 }

/-- The value `dist` of the loop body of `NearestAllowed`:
`uint32_t(dr*dr + dg*dg + db*db)` with `int` differences. -/
def nearestDist (src c : CRGB) : Nat :=
  let dr : Int := (src.r.val : Int) - (c.r.val : Int)
  let dg : Int := (src.g.val : Int) - (c.g.val : Int)
  let db : Int := (src.b.val : Int) - (c.b.val : Int)
  toU32 (dr * dr + dg * dg + db * db)

/-- One iteration of the loop of `NearestAllowed` on `(bestDist, best)`. -/
def nearestStep (src : CRGB) (acc : Nat × CRGB) (c : CRGB) : Nat × CRGB :=
  if nearestDist src c < acc.1 then (nearestDist src c, c) else acc

/-- The method `PatternBoxes::NearestAllowed`, over the allowed colours. -/
def NearestAllowed (allowed : List CRGB) (src : CRGB) : CRGB :=
  match allowed with
  | [] => src
  | front :: _ => (allowed.foldl (nearestStep src) (UINT32_MAX, front)).2

/-- The call `v.resize(n, x)` of `std::vector`: keeps the first `n` elements
and pads with `x` up to length `n`. -/
def vectorResize (v : List CRGB) (n : Nat) (x : CRGB) : List CRGB :=
  v.take n ++ List.replicate (n - v.length) x

/-- The allowed colours built by the first loop of `RecomputeGrid`. -/
def buildAllowed (gfx : Gfx) (pal : CRGBPalette16) (colorBuckets : Int) : List CRGB :=
  let buckets : Nat := (max 1 colorBuckets).toNat
  (List.range buckets).map (fun b => gfx.ColorFromPalette pal ((b * 256 / buckets) % 256))

/-- The method `PatternBoxes::RecomputeGrid`; `pal` is `CurrentPalette()`. -/
def RecomputeGrid (gfx : Gfx) (pal : CRGBPalette16) (s : PatternBoxes) : PatternBoxes :=
  let cols := gfx.MATRIX_WIDTH / BOX_SIZE
  let rows := gfx.MATRIX_HEIGHT / BOX_SIZE
  let allowed := buildAllowed gfx pal s._colorBuckets
  let total := cols * rows
  { s with
    _cols := cols
    _rows := rows
    _allowedColors := allowed
    _cachedPalette := pal
    _boxColors := (vectorResize s._boxColors total CRGB.Black).map (NearestAllowed allowed) }

/-- The neighbour colours collected by `PickNonMatching` into `neighbors[0..ncount)`. -/
def pickNeighbors (s : PatternBoxes) (idx : Nat) : List CRGB :=
  let row := idx / s._cols
  let col := idx % s._cols
  (if col > 0 then [s._boxColors.getD (row * s._cols + (col - 1)) CRGB.Black] else [])
  ++ (if col < s._cols - 1 then [s._boxColors.getD (row * s._cols + (col + 1)) CRGB.Black] else [])
  ++ (if row > 0 then [s._boxColors.getD ((row - 1) * s._cols + col) CRGB.Black] else [])
  ++ (if row < s._rows - 1 then [s._boxColors.getD ((row + 1) * s._cols + col) CRGB.Black] else [])

/-- The attempt loop of `PickNonMatching` with `attempts` iterations left,
followed by the final fallback draw. -/
def pickLoop (allowed neighbors : List CRGB) : Nat → RandomSource → CRGB × RandomSource
  | 0, rng => (allowed.getD (random allowed.length rng).1 CRGB.Black, (random allowed.length rng).2)
  | attempts + 1, rng =>
    let cand := allowed.getD (random allowed.length rng).1 CRGB.Black
    if cand ∈ neighbors then pickLoop allowed neighbors attempts (random allowed.length rng).2
    else (cand, (random allowed.length rng).2)

/-- The method `PatternBoxes::PickNonMatching`. -/
def PickNonMatching (gfx : Gfx) (s : PatternBoxes) (idx : Nat) (rng : RandomSource) :
    CRGB × RandomSource :=
  if s._allowedColors.isEmpty then gfx.RandomRainbowColor rng
  else pickLoop s._allowedColors (pickNeighbors s idx) s._allowedColors.length rng

/-- The method `PatternBoxes::Start`; `now` is `millis()`. -/
def Start (gfx : Gfx) (pal : CRGBPalette16) (now : Nat) (s : PatternBoxes) : PatternBoxes :=
  RecomputeGrid gfx pal { s with _lastChangeMs := now % 4294967296 }

/-- The method `PatternBoxes::NextPalette`; `pal` is the palette current before the call. -/
def NextPalette (gfx : Gfx) (pal : CRGBPalette16) (s : PatternBoxes) : PatternBoxes :=
  RecomputeGrid gfx (gfx.CyclePalette 1 pal) s

/-- The method `PatternBoxes::PrevPalette`; `pal` is the palette current before the call. -/
def PrevPalette (gfx : Gfx) (pal : CRGBPalette16) (s : PatternBoxes) : PatternBoxes :=
  RecomputeGrid gfx (gfx.CyclePalette (-1) pal) s

/-- What one call of `Draw` leaves behind: the fields, the random source, the
operations sent to the pixel sink in order, and the recolour operations
`_boxColors[idx] = PickNonMatching(idx)` performed, in order. -/
structure BoxesDraw where
  state : PatternBoxes
  rng : RandomSource
  ops : List SinkOp
  recolours : List (Nat × CRGB)

/-- The recolour loop of `Draw` with `changes` iterations left. -/
def recolourLoop (gfx : Gfx) (total : Nat) :
    Nat → PatternBoxes → RandomSource → List (Nat × CRGB) → PatternBoxes × RandomSource × List (Nat × CRGB)
  | 0, s, rng, done => (s, rng, done)
  | changes + 1, s, rng, done =>
    let idx := (random total rng).1
    let pick := PickNonMatching gfx s idx (random total rng).2
    recolourLoop gfx total changes { s with _boxColors := s._boxColors.set idx pick.1 } pick.2
      (done ++ [(idx, pick.1)])

/-- The timer block of `Draw`: the new `_lastChangeMs` and the number of
recolour iterations to run (0 when the interval has not elapsed). -/
def timerStep (s : PatternBoxes) (now : Nat) : Nat × Nat :=
  let interval := toU32 s._changeIntervalMs
  let elapsed := subU32 (now % 4294967296) s._lastChangeMs
  if elapsed ≥ interval then
    ((s._lastChangeMs + (interval * (elapsed / interval)) % 4294967296) % 4294967296,
      max 1 ((s._cols * s._rows) / 6))
  else (s._lastChangeMs, 0)

/-- The paint loops of `Draw`: one rectangle per tile, row by row. -/
def paintOps (gfx : Gfx) (s : PatternBoxes) : List SinkOp :=
  (List.range s._rows).flatMap fun r =>
    (List.range s._cols).map fun c =>
      SinkOp.fillRectangle (c * BOX_SIZE : Nat) (r * BOX_SIZE : Nat)
        (min (c * BOX_SIZE + BOX_SIZE) gfx.MATRIX_WIDTH : Nat)
        (min (r * BOX_SIZE + BOX_SIZE) gfx.MATRIX_HEIGHT : Nat)
        (PixelColor.rgb (s._boxColors.getD (r * s._cols + c) CRGB.Black))

/-- The method `PatternBoxes::Draw`; `pal` is `CurrentPalette()`, `now` is `millis()`. -/
def Draw (gfx : Gfx) (pal : CRGBPalette16) (now : Nat) (s : PatternBoxes) (rng : RandomSource) :
    BoxesDraw :=
  if s._cols = 0 ∨ s._rows = 0 then { state := s, rng := rng, ops := [], recolours := [] }
  else
    let s1 := if s._cachedPalette ≠ pal then RecomputeGrid gfx pal s else s
    let t := timerStep s1 now
    let s2 := { s1 with _lastChangeMs := t.1 }
    let r := recolourLoop gfx (s2._cols * s2._rows) t.2 s2 rng []
    { state := r.1, rng := r.2.1, ops := SinkOp.DimAll 240 :: paintOps gfx r.1, recolours := r.2.2 }

end PatternBoxes

/-- States of the effect reachable from the freshly constructed one by calls
of `Start`, `NextPalette`, `PrevPalette` and `Draw`, with any palette, clock
value and random source at each call. -/
inductive BoxesReachable (gfx : Gfx) : PatternBoxes → Prop where
  | fresh (pal0 : CRGBPalette16) : BoxesReachable gfx (PatternBoxes.new pal0)
  | start (pal : CRGBPalette16) (now : Nat) {s : PatternBoxes} :
      BoxesReachable gfx s → BoxesReachable gfx (PatternBoxes.Start gfx pal now s)
  | next (pal : CRGBPalette16) {s : PatternBoxes} :
      BoxesReachable gfx s → BoxesReachable gfx (PatternBoxes.NextPalette gfx pal s)
  | prev (pal : CRGBPalette16) {s : PatternBoxes} :
      BoxesReachable gfx s → BoxesReachable gfx (PatternBoxes.PrevPalette gfx pal s)
  | draw (pal : CRGBPalette16) (now : Nat) (rng : RandomSource) {s : PatternBoxes} :
      BoxesReachable gfx s → BoxesReachable gfx (PatternBoxes.Draw gfx pal now s rng).state


/-! ## Binary32 arithmetic -/

/-- The power `2 ^ i` for an integer `i`. -/
def pow2 (i : Int) : ℚ :=
  if 0 ≤ i then ((2 ^ i.toNat : Nat) : ℚ) else 1 / ((2 ^ (-i).toNat : Nat) : ℚ)

/-- One step of the binary search of `log2Guess`. -/
def log2Step (p : Nat × Nat) (s : Nat) : Nat × Nat :=
  if 2 ^ s ≤ p.1 then (p.1 / 2 ^ s, p.2 + s) else p

/-- The position of the leading bit of `n`, for `n` below `2 ^ 512`. -/
def log2Guess (n : Nat) : Nat :=
  ([256, 128, 64, 32, 16, 8, 4, 2, 1].foldl log2Step (n, 0)).2

/-- The binary exponent of `q ≠ 0`: the `e` with `2 ^ e ≤ |q| < 2 ^ (e + 1)`.
It is looked for next to the difference of the leading bits of numerator and
denominator and checked; `Int.log` answers for operands of more than 512 bits. -/
def ilog2 (q : ℚ) : Int :=
  let g : Int := (log2Guess q.num.natAbs : Int) - (log2Guess q.den : Int)
  if pow2 g ≤ |q| ∧ |q| < pow2 (g + 1) then g
  else if pow2 (g - 1) ≤ |q| ∧ |q| < pow2 g then g - 1
  else Int.log 2 |q|

/-- Rounding to the nearest integer, halves to the even one. -/
def roundNE (q : ℚ) : Int :=
  if q - Int.floor q < 1 / 2 then Int.floor q
  else if 1 / 2 < q - Int.floor q then Int.floor q + 1
  else if Int.floor q % 2 = 0 then Int.floor q else Int.floor q + 1

/-- The binary32 (`float`) value nearest to `q`, ties to even: 24 significant
bits, binary exponents from -126 (gradual underflow below).  Overflow to
infinity is not modelled: every magnitude rounded here is below `2 ^ 128`. -/
def f32 (q : ℚ) : ℚ :=
  if q = 0 then 0
  else (roundNE (q / pow2 (max (ilog2 q) (-126) - 23)) : ℚ) * pow2 (max (ilog2 q) (-126) - 23)

/-! ## PatternFireworks -/

/-- The `cos` and `sin` of the C library at the angle
`(float)deg * (M_PI / 180.0f)`, as functions of the drawn degree `deg`. -/
structure FloatMath where
  cosDeg : Int → ℚ
  sinDeg : Int → ℚ

/-- The C library `round` followed by the conversion to `int`: nearest
integer, halves away from zero. -/
def roundToInt (q : ℚ) : Int :=
  if 0 ≤ q then Int.floor (q + 1 / 2) else -Int.floor (-q + 1 / 2)

/-- The struct `PatternFireworks::Particle`. -/
structure Particle where
  x : ℚ
  y : ℚ
  vx : ℚ
  vy : ℚ
  hue : Nat
  life : Nat
  exploded : Bool
  spark : Bool
deriving DecidableEq, Repr

/-- Fields of `class PatternFireworks`. -/
structure PatternFireworks where
  _particles : List Particle
  _maxRockets : Int
  _maxParticles : Int
  _explosionSize : Int

namespace PatternFireworks

/-- The freshly constructed effect (the in-class initialisers). -/
def new : PatternFireworks :=
  { _particles := [], _maxRockets := 5, _maxParticles := 300, _explosionSize := 30 }

/-- The method `PatternFireworks::makeRocket`. -/
def makeRocket (gfx : Gfx) (rng : RandomSource) : Particle × RandomSource :=
  let rx := randomRange 0 gfx.MATRIX_WIDTH rng
  let rvx := randomRange (-20) 21 rx.2
  let rvy := randomRange 0 50 rvx.2
  let rhue := randomRange 0 255 rvy.2
  ({ x := (rx.1 : ℚ)
     y := ((gfx.MATRIX_HEIGHT : Int) - 1 : Int)
     vx := (rvx.1 : ℚ) / 100
     vy := -(1 / 2 + (rvy.1 : ℚ) / 100)
     hue := (rhue.1 % 256).toNat
     life := 0
     exploded := false
     spark := false }, rhue.2)

/-- The method `PatternFireworks::makeSpark`. -/
def makeSpark (fm : FloatMath) (x y : ℚ) (hue : Nat) (rng : RandomSource) :
    Particle × RandomSource :=
  let rangle := randomRange 0 360 rng
  let rspeed := randomRange 0 100 rangle.2
  let speed : ℚ := 3 / 10 + (rspeed.1 : ℚ) / 200
  ({ x := x
     y := y
     vx := fm.cosDeg rangle.1 * speed
     vy := fm.sinDeg rangle.1 * speed
     hue := hue
     life := 0
     exploded := true
     spark := true }, rspeed.2)

/-- The method `PatternFireworks::drawPixelSafe`: the operations it sends to the sink. -/
def drawPixelSafe (gfx : Gfx) (x y : Int) (c : PixelColor) : List SinkOp :=
  if x < 0 ∨ x ≥ gfx.MATRIX_WIDTH ∨ y < 0 ∨ y ≥ gfx.MATRIX_HEIGHT then []
  else [SinkOp.fillRectangle x y (x + 1) (y + 1) c]

/-- The method `PatternFireworks::Start`. -/
def Start (s : PatternFireworks) : PatternFireworks :=
  { s with _particles := [] }

/-- The spawn gate at the head of `Draw`: the particles and the random source after it.
The comparison of `size()` with the `int` `_maxParticles` is unsigned (32 bits). -/
def spawnGate (gfx : Gfx) (s : PatternFireworks) (rng : RandomSource) :
    List Particle × RandomSource :=
  if s._particles.length < toU32 s._maxParticles then
    let trial := randomRange 0 10 rng
    if trial.1 < 3 then
      let activeRockets : Int := (s._particles.countP fun p => !p.exploded : Nat)
      if activeRockets < s._maxRockets then
        (s._particles ++ [(makeRocket gfx trial.2).1], (makeRocket gfx trial.2).2)
      else (s._particles, trial.2)
    else (s._particles, trial.2)
  else (s._particles, rng)

/-- The explosion loop `for (int i = 0; i < _explosionSize; ++i)` with `n`
iterations left: the sparks pushed to `newParticles`, in order. -/
def explode (fm : FloatMath) (p : Particle) : Nat → RandomSource → List Particle × RandomSource
  | 0, rng => ([], rng)
  | n + 1, rng =>
    let roff := randomRange 0 50 rng
    let spark := makeSpark fm p.x p.y ((((p.hue : Int) + roff.1) % 255 % 256).toNat) roff.2
    let more := explode fm p n spark.2
    (spark.1 :: more.1, more.2)

/-- What the body of the particle loop of `Draw` does to one particle. -/
structure ParticleStep where
  particle : Particle
  sparks : List Particle
  ops : List SinkOp
  rng : RandomSource

/-- The brightness `bri` of the exploded branch, an `uint8_t`. -/
def brightness (life : Nat) : Nat :=
  if life < 50 then ((255 - (life : Int) * 5) % 256).toNat else 0

/-- The body of the particle loop of `Draw` for one particle. -/
def stepParticle (gfx : Gfx) (fm : FloatMath) (explosionSize : Int) (p : Particle)
    (rng : RandomSource) : ParticleStep :=
  if !p.exploded then
    let p1 := { p with x := p.x + p.vx, y := p.y + p.vy, vy := p.vy + 1 / 100 }
    let ops := drawPixelSafe gfx (roundToInt p1.x) (roundToInt p1.y) (PixelColor.hsv p1.hue 255 255)
    if p1.vy ≥ 0 then
      let ex := explode fm p1 explosionSize.toNat rng
      { particle := { p1 with exploded := true }, sparks := ex.1, ops := ops, rng := ex.2 }
    else
      let trial := randomRange 0 100 rng
      if trial.1 < 5 then
        let ex := explode fm p1 explosionSize.toNat trial.2
        { particle := { p1 with exploded := true }, sparks := ex.1, ops := ops, rng := ex.2 }
      else { particle := p1, sparks := [], ops := ops, rng := trial.2 }
  else
    let p1 := { p with x := p.x + p.vx, y := p.y + p.vy, vy := p.vy + 2 / 100,
                       life := (p.life + 1) % 256 }
    let bri := brightness p1.life
    if bri > 0 then
      if p1.spark then
        let trial := randomRange 0 100 rng
        let col := if trial.1 < 20 then PixelColor.hsv p1.hue 0 bri else PixelColor.hsv p1.hue 255 bri
        { particle := p1, sparks := [],
          ops := drawPixelSafe gfx (roundToInt p1.x) (roundToInt p1.y) col, rng := trial.2 }
      else
        { particle := p1, sparks := [],
          ops := drawPixelSafe gfx (roundToInt p1.x) (roundToInt p1.y) (PixelColor.hsv p1.hue 255 bri),
          rng := rng }
    else { particle := p1, sparks := [], ops := [], rng := rng }

/-- The method `PatternFireworks::makeRocket` with every `float` operation
rounded to binary32 (`0.5f` and `100.0f` are binary32 values). -/
def makeRocket32 (gfx : Gfx) (rng : RandomSource) : Particle × RandomSource :=
  let rx := randomRange 0 gfx.MATRIX_WIDTH rng
  let rvx := randomRange (-20) 21 rx.2
  let rvy := randomRange 0 50 rvx.2
  let rhue := randomRange 0 255 rvy.2
  ({ x := f32 (rx.1 : ℚ)
     y := f32 (((gfx.MATRIX_HEIGHT : Int) - 1 : Int) : ℚ)
     vx := f32 (f32 (rvx.1 : ℚ) / 100)
     vy := -(f32 (1 / 2 + f32 (f32 (rvy.1 : ℚ) / 100)))
     hue := (rhue.1 % 256).toNat
     life := 0
     exploded := false
     spark := false }, rhue.2)

/-- The method `PatternFireworks::makeSpark` with every `float` operation
rounded to binary32 (`0.3f` is `f32 (3 / 10)`). -/
def makeSpark32 (fm : FloatMath) (x y : ℚ) (hue : Nat) (rng : RandomSource) :
    Particle × RandomSource :=
  let rangle := randomRange 0 360 rng
  let rspeed := randomRange 0 100 rangle.2
  let speed : ℚ := f32 (f32 (3 / 10) + f32 (f32 (rspeed.1 : ℚ) / 200))
  ({ x := x
     y := y
     vx := f32 (fm.cosDeg rangle.1 * speed)
     vy := f32 (fm.sinDeg rangle.1 * speed)
     hue := hue
     life := 0
     exploded := true
     spark := true }, rspeed.2)

/-- The explosion loop with `n` iterations left, its sparks made by `makeSpark32`. -/
def explode32 (fm : FloatMath) (p : Particle) : Nat → RandomSource → List Particle × RandomSource
  | 0, rng => ([], rng)
  | n + 1, rng =>
    let roff := randomRange 0 50 rng
    let spark := makeSpark32 fm p.x p.y ((((p.hue : Int) + roff.1) % 255 % 256).toNat) roff.2
    let more := explode32 fm p n spark.2
    (spark.1 :: more.1, more.2)

/-- The body of the particle loop of `Draw` for one particle with every
`float` operation rounded to binary32 (`0.01f` is `f32 (1 / 100)`, `0.02f` is
`f32 (2 / 100)`), where `stepParticle` has exact arithmetic. -/
def stepParticle32 (gfx : Gfx) (fm : FloatMath) (explosionSize : Int) (p : Particle)
    (rng : RandomSource) : ParticleStep :=
  if !p.exploded then
    let p1 := { p with x := f32 (p.x + p.vx), y := f32 (p.y + p.vy),
                       vy := f32 (p.vy + f32 (1 / 100)) }
    let ops := drawPixelSafe gfx (roundToInt p1.x) (roundToInt p1.y) (PixelColor.hsv p1.hue 255 255)
    if p1.vy ≥ 0 then
      let ex := explode32 fm p1 explosionSize.toNat rng
      { particle := { p1 with exploded := true }, sparks := ex.1, ops := ops, rng := ex.2 }
    else
      let trial := randomRange 0 100 rng
      if trial.1 < 5 then
        let ex := explode32 fm p1 explosionSize.toNat trial.2
        { particle := { p1 with exploded := true }, sparks := ex.1, ops := ops, rng := ex.2 }
      else { particle := p1, sparks := [], ops := ops, rng := trial.2 }
  else
    let p1 := { p with x := f32 (p.x + p.vx), y := f32 (p.y + p.vy),
                       vy := f32 (p.vy + f32 (2 / 100)), life := (p.life + 1) % 256 }
    let bri := brightness p1.life
    if bri > 0 then
      if p1.spark then
        let trial := randomRange 0 100 rng
        let col := if trial.1 < 20 then PixelColor.hsv p1.hue 0 bri else PixelColor.hsv p1.hue 255 bri
        { particle := p1, sparks := [],
          ops := drawPixelSafe gfx (roundToInt p1.x) (roundToInt p1.y) col, rng := trial.2 }
      else
        { particle := p1, sparks := [],
          ops := drawPixelSafe gfx (roundToInt p1.x) (roundToInt p1.y) (PixelColor.hsv p1.hue 255 bri),
          rng := rng }
    else { particle := p1, sparks := [], ops := [], rng := rng }

/-- What the particle loop of `Draw` leaves behind. -/
structure Physics where
  particles : List Particle
  newParticles : List Particle
  ops : List SinkOp
  rng : RandomSource

/-- The particle loop `for (auto &p : _particles)` of `Draw`. -/
def physics (gfx : Gfx) (fm : FloatMath) (explosionSize : Int) :
    List Particle → RandomSource → Physics
  | [], rng => { particles := [], newParticles := [], ops := [], rng := rng }
  | p :: rest, rng =>
    let st := stepParticle gfx fm explosionSize p rng
    let more := physics gfx fm explosionSize rest st.rng
    { particles := st.particle :: more.particles
      newParticles := st.sparks ++ more.newParticles
      ops := st.ops ++ more.ops
      rng := more.rng }

/-- The predicate of the `remove_if` of `Draw`. -/
def removed (gfx : Gfx) (p : Particle) : Bool :=
  decide (p.life > 50) || decide (p.y ≥ (gfx.MATRIX_HEIGHT : ℚ))

/-- The particles of `_particles` after the insertion of `newParticles`,
before the removal pass of `Draw`. -/
def beforeRemoval (gfx : Gfx) (fm : FloatMath) (s : PatternFireworks) (rng : RandomSource) :
    List Particle :=
  let gate := spawnGate gfx s rng
  let ph := physics gfx fm s._explosionSize gate.1 gate.2
  ph.particles ++ ph.newParticles

/-- What one call of `Draw` leaves behind: the fields, the random source and
the operations sent to the pixel sink, in order. -/
structure FireworksDraw where
  state : PatternFireworks
  rng : RandomSource
  ops : List SinkOp

/-- The method `PatternFireworks::Draw`. -/
def Draw (gfx : Gfx) (fm : FloatMath) (s : PatternFireworks) (rng : RandomSource) :
    FireworksDraw :=
  let gate := spawnGate gfx s rng
  let ph := physics gfx fm s._explosionSize gate.1 gate.2
  { state := { s with _particles := (ph.particles ++ ph.newParticles).filter fun p => !removed gfx p }
    rng := ph.rng
    ops := SinkOp.DimAll 200 :: ph.ops }

end PatternFireworks

/-- States of the fireworks effect reachable from `Start` (on the freshly
constructed effect) by calls of `Draw` and further calls of `Start`, with any
random source at each `Draw`. -/
inductive FireworksReachable (gfx : Gfx) (fm : FloatMath) : PatternFireworks → Prop where
  | start : FireworksReachable gfx fm (PatternFireworks.Start PatternFireworks.new)
  | restart {s : PatternFireworks} :
      FireworksReachable gfx fm s → FireworksReachable gfx fm (PatternFireworks.Start s)
  | draw (rng : RandomSource) {s : PatternFireworks} :
      FireworksReachable gfx fm s → FireworksReachable gfx fm (PatternFireworks.Draw gfx fm s rng).state

/-! ## PatternWarp -/

/-- The C library functions used by `PatternWarp`: `cos` and `sin` at the
angle `(float)deg * (M_PI / 180.0f)`, as functions of the drawn degree `deg`,
`std::pow(r, 0.5f)` and `std::pow(u, 2.0f)`. -/
structure WarpMath where
  cosDeg : Int → ℚ
  sinDeg : Int → ℚ
  powHalf : ℚ → ℚ
  powTwo : ℚ → ℚ

/-- The conversion `static_cast<uint8_t>` of a `float`: truncation toward zero. -/
def truncToU8 (q : ℚ) : Nat :=
  ((if 0 ≤ q then Int.floor q else -Int.floor (-q)) % 256).toNat

/-- The struct `PatternWarp::Star`; `angle` holds the drawn degree `deg`, the
`float` of the code being `deg * (M_PI / 180.0f)`. -/
structure Star where
  angle : Int
  cosA : ℚ
  sinA : ℚ
  z : ℚ
  speed : ℚ
  hue : Nat
deriving DecidableEq, Repr

/-- Fields of `class PatternWarp`. -/
structure PatternWarp where
  _stars : List Star
  _starCount : Int
  _minZ : ℚ
  _maxZ : ℚ
  _focal : ℚ

namespace PatternWarp

/-- The freshly constructed effect (the in-class initialisers); `0.10f` is
the binary32 value nearest to `1 / 10`. -/
def new : PatternWarp :=
  { _stars := [], _starCount := 1200, _minZ := f32 (1 / 10), _maxZ := 8, _focal := 10 }

/-- The method `PatternWarp::makeStar`. -/
def makeStar (wm : WarpMath) (s : PatternWarp) (rng : RandomSource) : Star × RandomSource :=
  let rangle := randomRange 0 360 rng
  let rr := randomRange 0 1000 rangle.2
  let r : ℚ := (rr.1 : ℚ) / 1000
  let rspeed := randomRange 0 1000 rr.2
  ({ angle := rangle.1
     cosA := wm.cosDeg rangle.1
     sinA := wm.sinDeg rangle.1
     z := s._minZ + wm.powHalf r * (s._maxZ - s._minZ)
     speed := 2 / 100 + (rspeed.1 : ℚ) / 1000 * (18 / 100)
     hue := 160 }, rspeed.2)

/-- The method `PatternWarp::drawPixelSafe`: the operations it sends to the sink. -/
def drawPixelSafe (gfx : Gfx) (x y : Int) (c : PixelColor) : List SinkOp :=
  if x < 0 ∨ x ≥ gfx.MATRIX_WIDTH ∨ y < 0 ∨ y ≥ gfx.MATRIX_HEIGHT then []
  else [SinkOp.fillRectangle x y (x + 1) (y + 1) c]

/-- The points `(x, y)` that `drawLineSafe` hands to `drawPixelSafe`, in
order.  The conversions of `i`, `steps`, `dx` and `dy` to `float`, the
quotient `t` and the products `dx * t` and `dy * t` are rounded to binary32. -/
def linePoints (x0 y0 x1 y1 : Int) : List (Int × Int) :=
  let dx := x1 - x0
  let dy := y1 - y0
  let steps := max (abs dx) (abs dy)
  if steps ≤ 0 then [(x0, y0)]
  else
    (List.range (steps.toNat + 1)).map fun (i : Nat) =>
      let t : ℚ := f32 (f32 (i : ℚ) / f32 (steps : ℚ))
      (x0 + roundToInt (f32 (f32 (dx : ℚ) * t)), y0 + roundToInt (f32 (f32 (dy : ℚ) * t)))

/-- The method `PatternWarp::drawLineSafe`: the operations it sends to the sink. -/
def drawLineSafe (gfx : Gfx) (x0 y0 x1 y1 : Int) (c : PixelColor) : List SinkOp :=
  (linePoints x0 y0 x1 y1).flatMap fun p => drawPixelSafe gfx p.1 p.2 c

/-- The loop of `Start` with `n` stars left to push back. -/
def startLoop (wm : WarpMath) (s : PatternWarp) :
    Nat → List Star → RandomSource → List Star × RandomSource
  | 0, stars, rng => (stars, rng)
  | n + 1, stars, rng =>
    startLoop wm s n (stars ++ [(makeStar wm s rng).1]) (makeStar wm s rng).2

/-- The method `PatternWarp::Start`: the fields and the random source after it. -/
def Start (wm : WarpMath) (s : PatternWarp) (rng : RandomSource) : PatternWarp × RandomSource :=
  ({ s with _stars := (startLoop wm s s._starCount.toNat [] rng).1 },
    (startLoop wm s s._starCount.toNat [] rng).2)

/-- The colour `col` computed in the loop body of `Draw` for a star of depth
`z`, every `float` operation rounded to binary32. -/
def trailColor (wm : WarpMath) (s : PatternWarp) (hue : Nat) (z : ℚ) : PixelColor :=
  let t : ℚ := f32 (f32 (z - s._minZ) / f32 (s._maxZ - s._minZ))
  let trailBri := truncToU8 (f32 (255 * f32 (1 - t)))
  let centerFactor : ℚ := wm.powTwo (f32 (1 - t))
  PixelColor.blend (PixelColor.rgb CRGB.White) (PixelColor.hsv hue 255 trailBri)
    (truncToU8 (f32 (f32 (1 - centerFactor) * 255)))

/-- What the body of the star loop of `Draw` does to one star. -/
structure StarStep where
  star : Star
  ops : List SinkOp
  rng : RandomSource

/-- The body of the star loop of `Draw` for one star. -/
def stepStar (gfx : Gfx) (wm : WarpMath) (s : PatternWarp) (st : Star) (rng : RandomSource) :
    StarStep :=
  let cx : Int := ((gfx.MATRIX_WIDTH / 2 : Nat) : Int)
  let cy : Int := ((gfx.MATRIX_HEIGHT / 2 : Nat) : Int)
  let moved := st.z - st.speed
  let fresh := makeStar wm s rng
  let st1 : Star := if moved ≤ s._minZ then fresh.1 else { st with z := moved }
  let rng1 : RandomSource := if moved ≤ s._minZ then fresh.2 else rng
  let prevZ : ℚ := if moved ≤ s._minZ then st1.z + st1.speed else st.z
  let prevScale : ℚ := s._focal / prevZ
  let px0f : ℚ :=
    if moved ≤ s._minZ then (cx : ℚ) + wm.cosDeg st1.angle * prevScale
    else (cx : ℚ) + st.cosA * prevScale
  let py0f : ℚ :=
    if moved ≤ s._minZ then (cy : ℚ) + wm.sinDeg st1.angle * prevScale
    else (cy : ℚ) + st.sinA * prevScale
  let curScale : ℚ := s._focal / st1.z
  let px1f : ℚ := (cx : ℚ) + st1.cosA * curScale
  let py1f : ℚ := (cy : ℚ) + st1.sinA * curScale
  { star := st1
    ops := drawLineSafe gfx (roundToInt px0f) (roundToInt py0f) (roundToInt px1f) (roundToInt py1f)
      (trailColor wm s st1.hue st1.z)
    rng := rng1 }

/-- What the star loop of `Draw` leaves behind. -/
structure StarLoop where
  stars : List Star
  ops : List SinkOp
  rng : RandomSource

/-- The star loop `for (auto &s : _stars)` of `Draw`. -/
def starLoop (gfx : Gfx) (wm : WarpMath) (s : PatternWarp) : List Star → RandomSource → StarLoop
  | [], rng => { stars := [], ops := [], rng := rng }
  | st :: rest, rng =>
    let one := stepStar gfx wm s st rng
    let more := starLoop gfx wm s rest one.rng
    { stars := one.star :: more.stars, ops := one.ops ++ more.ops, rng := more.rng }

/-- What one call of `Draw` leaves behind: the fields, the random source and
the operations sent to the pixel sink, in order. -/
structure WarpDraw where
  state : PatternWarp
  rng : RandomSource
  ops : List SinkOp

/-- The method `PatternWarp::Draw`. -/
def Draw (gfx : Gfx) (wm : WarpMath) (s : PatternWarp) (rng : RandomSource) : WarpDraw :=
  let lp := starLoop gfx wm s s._stars rng
  { state := { s with _stars := lp.stars }, rng := lp.rng, ops := SinkOp.DimAll 180 :: lp.ops }

end PatternWarp

/-- States of the warp effect reachable from `Start` (on the freshly
constructed effect) by calls of `Draw` and further calls of `Start`, with any
random source at each call. -/
inductive WarpReachable (gfx : Gfx) (wm : WarpMath) : PatternWarp → Prop where
  | start (rng : RandomSource) : WarpReachable gfx wm (PatternWarp.Start wm PatternWarp.new rng).1
  | restart (rng : RandomSource) {s : PatternWarp} :
      WarpReachable gfx wm s → WarpReachable gfx wm (PatternWarp.Start wm s rng).1
  | draw (rng : RandomSource) {s : PatternWarp} :
      WarpReachable gfx wm s → WarpReachable gfx wm (PatternWarp.Draw gfx wm s rng).state

/-! ## Concrete collaborators for the worked examples -/

/-- A 16-entry palette. -/
def demoPalette : CRGBPalette16 :=
  ⟨[⟨10, 0, 0⟩, ⟨60, 0, 0⟩, ⟨0, 200, 0⟩, ⟨0, 60, 0⟩, ⟨0, 0, 200⟩, ⟨0, 0, 60⟩, ⟨200, 200, 0⟩,
    ⟨60, 60, 0⟩, ⟨255, 255, 255⟩, ⟨90, 90, 90⟩, ⟨200, 0, 200⟩, ⟨60, 0, 60⟩, ⟨0, 200, 200⟩,
    ⟨0, 60, 60⟩, ⟨100, 100, 100⟩, ⟨30, 30, 30⟩]⟩

/-- A `w` by `h` matrix whose palette lookup without blending takes the entry
`hue / 16`, whose palette cycling keeps the palette, and whose rainbow colour is black. -/
def demoGfx (w h : Nat) : Gfx :=
  { MATRIX_WIDTH := w
    MATRIX_HEIGHT := h
    ColorFromPalette := fun pal hue => pal.entries.getD (hue / 16) CRGB.Black
    CyclePalette := fun _ pal => pal
    RandomRainbowColor := fun rng => (CRGB.Black, rng) }

/-- The mosaic on an 8 by 8 matrix (one tile) after `Start` at time 0. -/
def oneTileStarted : PatternBoxes :=
  PatternBoxes.Start (demoGfx 8 8) demoPalette 0 (PatternBoxes.new demoPalette)

/-- The one-tile mosaic after a `Draw` at time 200 whose draws all return 4. -/
def oneTileDrawn : PatternBoxes :=
  (PatternBoxes.Draw (demoGfx 8 8) demoPalette 200 oneTileStarted (fun _ => 4)).state

/-- The mosaic on a 32 by 32 matrix (4 by 4 tiles) after `Start` at time 0. -/
def sixteenTilesStarted : PatternBoxes :=
  PatternBoxes.Start (demoGfx 32 32) demoPalette 0 (PatternBoxes.new demoPalette)

/-! ## Predicates used by the theorems -/

/-- A rational approximation of the sine of an angle in degrees (Bhaskara's
formula), exact at the multiples of 90 degrees. -/
def sinApprox (deg : Int) : ℚ :=
  let d := deg % 360
  if d ≤ 180 then ((4 * d * (180 - d) : Int) : ℚ) / ((40500 - d * (180 - d) : Int) : ℚ)
  else -(((4 * (d - 180) * (360 - d) : Int) : ℚ) / ((40500 - (d - 180) * (360 - d) : Int) : ℚ))

/-- A concrete `cos` and `sin` for the worked examples. -/
def demoMath : FloatMath :=
  { cosDeg := fun d => sinApprox (d + 90), sinDeg := sinApprox }

/-- The fireworks after `Start` and `n` calls of `Draw` on a 32 by 32 matrix,
every raw value of the random source being 0. -/
def zeroRun : Nat → PatternFireworks
  | 0 => PatternFireworks.Start PatternFireworks.new
  | n + 1 => (PatternFireworks.Draw (demoGfx 32 32) demoMath (zeroRun n) (fun _ => 0)).state

/-- An exploded particle that has not fallen faster than the drag of its
`life` steps allows, on a matrix of height 32. -/
def Settled (p : Particle) : Prop :=
  p.exploded = true ∧ p.vy ≤ (p.life : ℚ) / 50 ∧ p.y ≤ 32 - 3 / 2 + (p.life : ℚ) ^ 2 / 100

/-- The particle `p` after `n` runs of the loop body of `Draw` in binary32
(one for each call of `Draw`), run `i` being handed the random source `rngs i`. -/
def rocketFlight32 (gfx : Gfx) (fm : FloatMath) (E : Int) (rngs : Nat → RandomSource) (p : Particle) :
    Nat → Particle
  | 0 => p
  | n + 1 =>
    (PatternFireworks.stepParticle32 gfx fm E (rocketFlight32 gfx fm E rngs p n) (rngs n)).particle

/-- The `float` `p.vy` of a rocket: the value `makeRocket` stores when its
draw `random(0, 50)` is `k`, then the value after each `p.vy += 0.01f`. -/
def rocketVy32 (k : Nat) : Nat → ℚ
  | 0 => -(f32 (1 / 2 + f32 ((k : ℚ) / 100)))
  | n + 1 => f32 (rocketVy32 k n + f32 (1 / 100))

/-- The natural number nearest to `a / b` for a positive `b`, halves to the even one. -/
def roundDivNat (a b : Nat) : Nat :=
  if 2 * (a % b) < b then a / b
  else if b < 2 * (a % b) then a / b + 1
  else if a / b % 2 = 0 then a / b else a / b + 1

/-- For `n` of at least 25 bits, the number of its bits beyond 24. -/
def shift24 (n : Nat) : Nat :=
  if n < 2 ^ 25 then 1 else if n < 2 ^ 26 then 2 else if n < 2 ^ 27 then 3
  else if n < 2 ^ 28 then 4 else if n < 2 ^ 29 then 5 else if n < 2 ^ 30 then 6
  else if n < 2 ^ 31 then 7 else if n < 2 ^ 32 then 8 else Nat.log 2 n - 23

/-- Rounding of a natural number to 24 significant bits, ties to even: what
`f32` does to `n * 2 ^ j`, counted in units of `2 ^ j`. -/
def rnd24 (n : Nat) : Nat :=
  if n < 2 ^ 24 then n else roundDivNat n (2 ^ shift24 n) * 2 ^ shift24 n

/-- The magnitude of `rocketVy32 k n` in units of `2 ^ -29` (`0.01f` is
5368709 units), for as long as the velocity is negative. -/
def rocketMag (k : Nat) : Nat → Nat
  | 0 => (f32 (1 / 2 + f32 ((k : ℚ) / 100)) * 536870912).num.natAbs
  | n + 1 => rnd24 (rocketMag k n - 5368709)

/-- The indices of `_boxColors` that `PickNonMatching(idx)` reads for the
neighbour colours, in the order of the code. -/
def pickNeighborIndices (s : PatternBoxes) (idx : Nat) : List Nat :=
  let row := idx / s._cols
  let col := idx % s._cols
  (if col > 0 then [row * s._cols + (col - 1)] else [])
  ++ (if col < s._cols - 1 then [row * s._cols + (col + 1)] else [])
  ++ (if row > 0 then [(row - 1) * s._cols + col] else [])
  ++ (if row < s._rows - 1 then [(row + 1) * s._cols + col] else [])

/-- A rational approximation from below of the square root, exact to three decimals. -/
def sqrtApprox (u : ℚ) : ℚ :=
  ((Nat.sqrt (Int.toNat (Int.floor (u * 1000000))) : Nat) : ℚ) / 1000

/-- A concrete `cos`, `sin`, `pow(r, 0.5f)` and `pow(u, 2.0f)` for the worked examples. -/
def demoWarpMath : WarpMath :=
  { cosDeg := fun d => sinApprox (d + 90), sinDeg := sinApprox, powHalf := sqrtApprox,
    powTwo := fun u => f32 (u * u) }

/-- The trail colour in the words of the specification: the linear blend of
white and the trail colour (hue `hue`, full saturation, brightness
`255 * (1 - t)`) whose blend factor toward white is `1 - (1 - t)^2`, that is,
with `blend(a, b, amount)` being `a` at 0 and `b` at 255,
`blend(trail, white, (1 - (1 - t)^2) * 255)`. -/
def specTrailColor (minZ maxZ : ℚ) (hue : Nat) (z : ℚ) : PixelColor :=
  let t : ℚ := (z - minZ) / (maxZ - minZ)
  PixelColor.blend (PixelColor.hsv hue 255 (truncToU8 (255 * (1 - t))))
    (PixelColor.rgb CRGB.White) (truncToU8 ((1 - (1 - t) ^ 2) * 255))

/-- The colour a `blend(p1, p2, amountOfP2)` stands for at the two ends of its
range: `p1` at amount 0, `p2` at amount 255. -/
def blendEndpoint : PixelColor → Option PixelColor
  | PixelColor.blend p1 _ 0 => some p1
  | PixelColor.blend _ p2 255 => some p2
  | _ => none

/-- Loop invariant of `NearestAllowed`: `acc` holds the first closest colour of the scanned part. -/
def NearestInv (src : CRGB) (acc : Nat × CRGB) (scanned : List CRGB) : Prop :=
  acc.1 = PatternBoxes.nearestDist src acc.2 ∧
  ∃ p q, scanned = p ++ acc.2 :: q ∧ (∀ x ∈ p, acc.1 < PatternBoxes.nearestDist src x) ∧
    ∀ x ∈ q, acc.1 ≤ PatternBoxes.nearestDist src x


/-- Squared distance of two colours in the red, green and blue channels. -/
def sqDistRGB (a b : CRGB) : Int :=
  ((a.r.val : Int) - b.r.val) ^ 2 + ((a.g.val : Int) - b.g.val) ^ 2 + ((a.b.val : Int) - b.b.val) ^ 2

/-! ## Theorems: nearest-allowed quantization -/

open PatternBoxes

theorem sq_le_of_abs_le_255 (d : Int) (h1 : -255 ≤ d) (h2 : d ≤ 255) :
    0 ≤ d * d ∧ d * d ≤ 65025 := by
  constructor
  · exact mul_self_nonneg d
  · nlinarith

theorem channel_diff_bounds (a b : Fin 256) :
    -255 ≤ ((a.val : Int) - (b.val : Int)) ∧ ((a.val : Int) - (b.val : Int)) ≤ 255 := by
  have ha := a.isLt
  have hb := b.isLt
  omega

/-- The 32-bit value computed by the loop body is the squared distance: the cast does not wrap. -/
theorem nearestDist_eq_sqDistRGB (src c : CRGB) :
    (nearestDist src c : Int) = sqDistRGB src c := by
  obtain ⟨r1, r2⟩ := channel_diff_bounds src.r c.r
  obtain ⟨g1, g2⟩ := channel_diff_bounds src.g c.g
  obtain ⟨b1, b2⟩ := channel_diff_bounds src.b c.b
  obtain ⟨hr0, hr⟩ := sq_le_of_abs_le_255 _ r1 r2
  obtain ⟨hg0, hg⟩ := sq_le_of_abs_le_255 _ g1 g2
  obtain ⟨hb0, hb⟩ := sq_le_of_abs_le_255 _ b1 b2
  unfold nearestDist sqDistRGB toU32
  simp only []
  rw [Int.toNat_of_nonneg (Int.emod_nonneg _ (by norm_num))]
  rw [Int.emod_eq_of_lt (by linarith) (by linarith)]
  ring

theorem nearestDist_lt_max (src c : CRGB) : nearestDist src c < UINT32_MAX := by
  obtain ⟨r1, r2⟩ := channel_diff_bounds src.r c.r
  obtain ⟨g1, g2⟩ := channel_diff_bounds src.g c.g
  obtain ⟨b1, b2⟩ := channel_diff_bounds src.b c.b
  obtain ⟨hr0, hr⟩ := sq_le_of_abs_le_255 _ r1 r2
  obtain ⟨hg0, hg⟩ := sq_le_of_abs_le_255 _ g1 g2
  obtain ⟨hb0, hb⟩ := sq_le_of_abs_le_255 _ b1 b2
  unfold nearestDist toU32 UINT32_MAX
  simp only []
  rw [Int.emod_eq_of_lt (by linarith) (by linarith)]
  omega

theorem nearestStep_inv (src : CRGB) (acc : Nat × CRGB) (scanned : List CRGB) (c : CRGB)
    (h : NearestInv src acc scanned) : NearestInv src (nearestStep src acc c) (scanned ++ [c]) := by
  obtain ⟨hd, p, q, hs, hp, hq⟩ := h
  unfold nearestStep
  split
  · rename_i hlt
    refine ⟨rfl, scanned, [], rfl, ?_, by simp⟩
    intro x hx
    rw [hs] at hx
    simp only [List.mem_append, List.mem_cons] at hx
    rcases hx with hx | hx | hx
    · exact lt_trans hlt (hp x hx)
    · subst hx
      simpa [← hd] using hlt
    · exact lt_of_lt_of_le hlt (hq x hx)
  · rename_i hge
    refine ⟨hd, p, q ++ [c], by simp [hs], hp, ?_⟩
    intro x hx
    simp only [List.mem_append, List.mem_singleton] at hx
    rcases hx with hx | hx
    · exact hq x hx
    · subst hx
      exact not_lt.mp hge

theorem foldl_nearest_inv (src : CRGB) (l : List CRGB) :
    ∀ (acc : Nat × CRGB) (scanned : List CRGB), NearestInv src acc scanned →
      NearestInv src (l.foldl (nearestStep src) acc) (scanned ++ l) := by
  induction l with
  | nil => intro acc scanned h; simpa using h
  | cons c t ih =>
    intro acc scanned h
    have h1 := ih _ _ (nearestStep_inv src acc scanned c h)
    simpa using h1

/-- The result of `NearestAllowed` splits the allowed colours into a strictly
farther part before it and a part not closer after it. -/
theorem NearestAllowed_split (src : CRGB) (A : List CRGB) (hA : A ≠ []) :
    ∃ p q, A = p ++ NearestAllowed A src :: q ∧
      (∀ x ∈ p, nearestDist src (NearestAllowed A src) < nearestDist src x) ∧
      ∀ x ∈ q, nearestDist src (NearestAllowed A src) ≤ nearestDist src x := by
  cases A with
  | nil => exact absurd rfl hA
  | cons a t =>
    have h0 : NearestInv src (nearestStep src (UINT32_MAX, a) a) ([] ++ [a]) := by
      unfold nearestStep
      rw [if_pos (nearestDist_lt_max src a)]
      exact ⟨rfl, [], [], rfl, by simp, by simp⟩
    have h1 := foldl_nearest_inv src t _ _ h0
    obtain ⟨hd, p, q, hs, hp, hq⟩ := h1
    have hres : NearestAllowed (a :: t) src
        = (t.foldl (nearestStep src) (nearestStep src (UINT32_MAX, a) a)).2 := rfl
    rw [hres]
    refine ⟨p, q, by simpa using hs, ?_, ?_⟩
    · intro x hx; rw [← hd]; exact hp x hx
    · intro x hx; rw [← hd]; exact hq x hx

theorem NearestAllowed_mem (src : CRGB) (A : List CRGB) (hA : A ≠ []) :
    NearestAllowed A src ∈ A := by
  obtain ⟨p, q, hs, -, -⟩ := NearestAllowed_split src A hA
  rw [List.mem_iff_append]
  exact ⟨p, q, hs⟩

/-- C1: for every colour `src` and non-empty allowed sequence `A`,
`NearestAllowed` returns `A[i]` for the smallest index `i` whose squared RGB
distance to `src` is minimal over `A`: it is a member of `A`, no member is
strictly closer, and every earlier member is strictly farther. -/
theorem NearestAllowed_first_closest (src : CRGB) (A : List CRGB) (hA : A ≠ []) :
    ∃ i, ∃ hi : i < A.length, NearestAllowed A src = A.get ⟨i, hi⟩ ∧
      (∀ j (hj : j < A.length), sqDistRGB src (A.get ⟨i, hi⟩) ≤ sqDistRGB src (A.get ⟨j, hj⟩)) ∧
      (∀ j (hj : j < A.length), j < i →
        sqDistRGB src (A.get ⟨i, hi⟩) < sqDistRGB src (A.get ⟨j, hj⟩)) := by
  obtain ⟨p, q, hs, hp, hq⟩ := NearestAllowed_split src A hA
  generalize NearestAllowed A src = res at hs hp hq ⊢
  subst hs
  have hlen : p.length < (p ++ res :: q).length := by simp
  have hget : (p ++ res :: q).get ⟨p.length, hlen⟩ = res := by
    simp [List.getElem_append_right]
  refine ⟨p.length, hlen, hget.symm, ?_, ?_⟩
  · intro j hj
    rw [hget, ← nearestDist_eq_sqDistRGB, ← nearestDist_eq_sqDistRGB]
    have hmem : (p ++ res :: q).get ⟨j, hj⟩ ∈ p ++ res :: q := List.get_mem _ j hj
    generalize (p ++ res :: q).get ⟨j, hj⟩ = y at hmem ⊢
    simp only [List.mem_append, List.mem_cons] at hmem
    rcases hmem with h | h | h
    · exact_mod_cast le_of_lt (hp _ h)
    · rw [h]
    · exact_mod_cast hq _ h
  · intro j hj hji
    rw [hget, ← nearestDist_eq_sqDistRGB, ← nearestDist_eq_sqDistRGB]
    have hjp : (p ++ res :: q).get ⟨j, hj⟩ ∈ p := by
      have h2 : (p ++ res :: q).get ⟨j, hj⟩ = p[j] := by
        simp [List.getElem_append_left hji]
      rw [h2]
      exact List.getElem_mem hji
    exact_mod_cast hp _ hjp

theorem NearestAllowed_first_closest_witness :
    ([⟨10, 0, 0⟩, ⟨0, 10, 0⟩, ⟨255, 255, 255⟩] : List CRGB) ≠ [] ∧
    ∃ i, ∃ hi : i < ([⟨10, 0, 0⟩, ⟨0, 10, 0⟩, ⟨255, 255, 255⟩] : List CRGB).length,
      NearestAllowed [⟨10, 0, 0⟩, ⟨0, 10, 0⟩, ⟨255, 255, 255⟩] CRGB.Black
        = ([⟨10, 0, 0⟩, ⟨0, 10, 0⟩, ⟨255, 255, 255⟩] : List CRGB).get ⟨i, hi⟩ ∧
      (∀ j (hj : j < ([⟨10, 0, 0⟩, ⟨0, 10, 0⟩, ⟨255, 255, 255⟩] : List CRGB).length),
        sqDistRGB CRGB.Black (([⟨10, 0, 0⟩, ⟨0, 10, 0⟩, ⟨255, 255, 255⟩] : List CRGB).get ⟨i, hi⟩)
          ≤ sqDistRGB CRGB.Black (([⟨10, 0, 0⟩, ⟨0, 10, 0⟩, ⟨255, 255, 255⟩] : List CRGB).get ⟨j, hj⟩)) ∧
      (∀ j (hj : j < ([⟨10, 0, 0⟩, ⟨0, 10, 0⟩, ⟨255, 255, 255⟩] : List CRGB).length), j < i →
        sqDistRGB CRGB.Black (([⟨10, 0, 0⟩, ⟨0, 10, 0⟩, ⟨255, 255, 255⟩] : List CRGB).get ⟨i, hi⟩)
          < sqDistRGB CRGB.Black (([⟨10, 0, 0⟩, ⟨0, 10, 0⟩, ⟨255, 255, 255⟩] : List CRGB).get ⟨j, hj⟩)) :=
  ⟨by decide, NearestAllowed_first_closest CRGB.Black _ (by decide)⟩

/-! ## Theorems: the mosaic grid -/

theorem buildAllowed_length (gfx : Gfx) (pal : CRGBPalette16) (cb : Int) :
    (buildAllowed gfx pal cb).length = (max 1 cb).toNat := by
  simp [buildAllowed]

theorem buildAllowed_ne_nil (gfx : Gfx) (pal : CRGBPalette16) (cb : Int) :
    buildAllowed gfx pal cb ≠ [] := by
  intro h
  have hl := buildAllowed_length gfx pal cb
  rw [h] at hl
  have : (1 : Int) ≤ max 1 cb := le_max_left _ _
  simp at hl
  omega

theorem vectorResize_length (v : List CRGB) (n : Nat) (x : CRGB) :
    (vectorResize v n x).length = n := by
  simp [vectorResize]
  omega

theorem vectorResize_getD (v : List CRGB) (n : Nat) (x : CRGB) (i : Nat) (hi : i < n) :
    (vectorResize v n x).getD i x = v.getD i x := by
  unfold vectorResize
  rw [List.getD_eq_getElem?_getD, List.getD_eq_getElem?_getD]
  by_cases h : i < v.length
  · have h1 : i < (v.take n).length := by simp; omega
    rw [List.getElem?_append_left h1, List.getElem?_take]
    simp [hi]
  · have h1 : (v.take n).length ≤ i := by simp; omega
    rw [List.getElem?_append_right h1, List.getElem?_eq_none (l := v) (by omega)]
    simp only [List.getElem?_replicate]
    split <;> rfl

theorem RecomputeGrid_boxColors_length (gfx : Gfx) (pal : CRGBPalette16) (s : PatternBoxes) :
    (RecomputeGrid gfx pal s)._boxColors.length
      = (RecomputeGrid gfx pal s)._cols * (RecomputeGrid gfx pal s)._rows := by
  simp [RecomputeGrid, vectorResize_length]

theorem RecomputeGrid_closure (gfx : Gfx) (pal : CRGBPalette16) (s : PatternBoxes) :
    ∀ c ∈ (RecomputeGrid gfx pal s)._boxColors, c ∈ (RecomputeGrid gfx pal s)._allowedColors := by
  intro c hc
  simp only [RecomputeGrid, List.mem_map] at hc ⊢
  obtain ⟨a, -, rfl⟩ := hc
  exact NearestAllowed_mem a _ (buildAllowed_ne_nil gfx pal s._colorBuckets)

theorem random_fst_lt (n : Nat) (rng : RandomSource) (hn : n ≠ 0) : (random n rng).1 < n := by
  simp [random, hn]
  exact Nat.mod_lt _ (Nat.pos_of_ne_zero hn)

theorem getD_mem_of_lt (A : List CRGB) (i : Nat) (x : CRGB) (hi : i < A.length) :
    A.getD i x ∈ A := by
  rw [List.getD_eq_getElem?_getD, List.getElem?_eq_getElem hi]
  exact List.getElem_mem hi

theorem pickLoop_mem (A N : List CRGB) (hA : A ≠ []) :
    ∀ (m : Nat) (rng : RandomSource), (pickLoop A N m rng).1 ∈ A := by
  have hn : A.length ≠ 0 := by simpa using hA
  intro m
  induction m with
  | zero =>
    intro rng
    exact getD_mem_of_lt A _ _ (random_fst_lt _ rng hn)
  | succ m ih =>
    intro rng
    unfold pickLoop
    simp only []
    split
    · exact ih _
    · exact getD_mem_of_lt A _ _ (random_fst_lt _ rng hn)

theorem PickNonMatching_mem (gfx : Gfx) (s : PatternBoxes) (idx : Nat) (rng : RandomSource)
    (hA : s._allowedColors ≠ []) : (PickNonMatching gfx s idx rng).1 ∈ s._allowedColors := by
  unfold PickNonMatching
  rw [if_neg (by simpa using hA)]
  exact pickLoop_mem _ _ hA _ _

/-- Fields the recolour loop of `Draw` never writes, the length of the tile
array, and the number of recolours it performs. -/
theorem recolourLoop_frame (gfx : Gfx) (total : Nat) :
    ∀ (changes : Nat) (s : PatternBoxes) (rng : RandomSource) (done : List (Nat × CRGB)),
      (recolourLoop gfx total changes s rng done).1._cols = s._cols ∧
      (recolourLoop gfx total changes s rng done).1._rows = s._rows ∧
      (recolourLoop gfx total changes s rng done).1._lastChangeMs = s._lastChangeMs ∧
      (recolourLoop gfx total changes s rng done).1._changeIntervalMs = s._changeIntervalMs ∧
      (recolourLoop gfx total changes s rng done).1._colorBuckets = s._colorBuckets ∧
      (recolourLoop gfx total changes s rng done).1._allowedColors = s._allowedColors ∧
      (recolourLoop gfx total changes s rng done).1._cachedPalette = s._cachedPalette ∧
      (recolourLoop gfx total changes s rng done).1._boxColors.length = s._boxColors.length ∧
      (recolourLoop gfx total changes s rng done).2.2.length = done.length + changes := by
  intro changes
  induction changes with
  | zero => intro s rng done; simp [recolourLoop]
  | succ n ih =>
    intro s rng done
    unfold recolourLoop
    simp only []
    obtain ⟨h1, h2, h3, h4, h5, h6, h7, h8, h9⟩ := ih
      { s with _boxColors := (s._boxColors.set (random total rng).1
          (PickNonMatching gfx s (random total rng).1 (random total rng).2).1) }
      (PickNonMatching gfx s (random total rng).1 (random total rng).2).2
      (done ++ [((random total rng).1, (PickNonMatching gfx s (random total rng).1 (random total rng).2).1)])
    refine ⟨h1, h2, h3, h4, h5, h6, h7, ?_, ?_⟩
    · rw [h8]; simp
    · rw [h9]; simp; omega

theorem recolourLoop_closure (gfx : Gfx) (total : Nat) :
    ∀ (changes : Nat) (s : PatternBoxes) (rng : RandomSource) (done : List (Nat × CRGB)),
      s._allowedColors ≠ [] → (∀ c ∈ s._boxColors, c ∈ s._allowedColors) →
      ∀ c ∈ (recolourLoop gfx total changes s rng done).1._boxColors,
        c ∈ (recolourLoop gfx total changes s rng done).1._allowedColors := by
  intro changes
  induction changes with
  | zero => intro s rng done _ h; simpa [recolourLoop] using h
  | succ n ih =>
    intro s rng done hA h
    unfold recolourLoop
    simp only []
    apply ih
    · exact hA
    · intro c hc
      rcases List.mem_or_eq_of_mem_set hc with hc | hc
      · exact h c hc
      · rw [hc]; exact PickNonMatching_mem gfx s _ _ hA

theorem Draw_boxColors_length (gfx : Gfx) (pal : CRGBPalette16) (now : Nat) (s : PatternBoxes)
    (rng : RandomSource) (h : s._boxColors.length = s._cols * s._rows) :
    (Draw gfx pal now s rng).state._boxColors.length
      = (Draw gfx pal now s rng).state._cols * (Draw gfx pal now s rng).state._rows := by
  unfold Draw
  split
  · exact h
  · simp only []
    obtain ⟨h1, h2, -, -, -, -, -, h8, -⟩ := recolourLoop_frame gfx
      (({ (if s._cachedPalette ≠ pal then RecomputeGrid gfx pal s else s) with
          _lastChangeMs := (timerStep (if s._cachedPalette ≠ pal then RecomputeGrid gfx pal s else s) now).1 } : PatternBoxes)._cols *
        ({ (if s._cachedPalette ≠ pal then RecomputeGrid gfx pal s else s) with
          _lastChangeMs := (timerStep (if s._cachedPalette ≠ pal then RecomputeGrid gfx pal s else s) now).1 } : PatternBoxes)._rows)
      (timerStep (if s._cachedPalette ≠ pal then RecomputeGrid gfx pal s else s) now).2
      { (if s._cachedPalette ≠ pal then RecomputeGrid gfx pal s else s) with
          _lastChangeMs := (timerStep (if s._cachedPalette ≠ pal then RecomputeGrid gfx pal s else s) now).1 }
      rng []
    rw [h1, h2, h8]
    by_cases hp : s._cachedPalette ≠ pal
    · simp only [if_pos hp]; exact RecomputeGrid_boxColors_length gfx pal s
    · simp only [if_neg hp]; exact h

/-- C2: for every prior state and every palette, right after `Start`, after
`RecomputeGrid`, after `NextPalette` and `PrevPalette`, and after a `Draw` on a
non-empty grid that found the palette changed, every tile colour is a member of
the current allowed-colour set. -/
theorem quantization_closure (gfx : Gfx) (pal : CRGBPalette16) (now : Nat) (s : PatternBoxes)
    (rng : RandomSource) :
    (∀ c ∈ (Start gfx pal now s)._boxColors, c ∈ (Start gfx pal now s)._allowedColors) ∧
    (∀ c ∈ (RecomputeGrid gfx pal s)._boxColors, c ∈ (RecomputeGrid gfx pal s)._allowedColors) ∧
    (∀ c ∈ (NextPalette gfx pal s)._boxColors, c ∈ (NextPalette gfx pal s)._allowedColors) ∧
    (∀ c ∈ (PrevPalette gfx pal s)._boxColors, c ∈ (PrevPalette gfx pal s)._allowedColors) ∧
    (s._cols ≠ 0 → s._rows ≠ 0 → s._cachedPalette ≠ pal →
      ∀ c ∈ (PatternBoxes.Draw gfx pal now s rng).state._boxColors,
        c ∈ (PatternBoxes.Draw gfx pal now s rng).state._allowedColors) := by
  refine ⟨RecomputeGrid_closure gfx pal _, RecomputeGrid_closure gfx pal s,
    RecomputeGrid_closure gfx _ s, RecomputeGrid_closure gfx _ s, ?_⟩
  intro hc hr hp
  unfold PatternBoxes.Draw
  rw [if_neg (by simp [hc, hr])]
  simp only [if_pos hp]
  apply recolourLoop_closure
  · exact buildAllowed_ne_nil gfx pal s._colorBuckets
  · exact RecomputeGrid_closure gfx pal s

/-- Worked example of C2: the one-tile mosaic drawn under a changed palette. -/
theorem quantization_closure_witness :
    oneTileDrawn._cols ≠ 0 ∧ oneTileDrawn._rows ≠ 0 ∧
    oneTileDrawn._cachedPalette ≠ (⟨[]⟩ : CRGBPalette16) ∧
    ∀ c ∈ (PatternBoxes.Draw (demoGfx 8 8) ⟨[]⟩ 500 oneTileDrawn (fun _ => 1)).state._boxColors,
      c ∈ (PatternBoxes.Draw (demoGfx 8 8) ⟨[]⟩ 500 oneTileDrawn (fun _ => 1)).state._allowedColors :=
  ⟨by decide, by decide, by decide,
    (quantization_closure (demoGfx 8 8) ⟨[]⟩ 500 oneTileDrawn (fun _ => 1)).2.2.2.2
      (by decide) (by decide) (by decide)⟩

theorem reachable_boxColors_length (gfx : Gfx) (s : PatternBoxes) (h : BoxesReachable gfx s) :
    s._boxColors.length = s._cols * s._rows := by
  induction h with
  | fresh pal0 => rfl
  | start pal now _ _ => exact RecomputeGrid_boxColors_length gfx pal _
  | next pal _ _ => exact RecomputeGrid_boxColors_length gfx _ _
  | prev pal _ _ => exact RecomputeGrid_boxColors_length gfx _ _
  | draw pal now rng _ ih => exact Draw_boxColors_length gfx pal now _ rng ih

/-- C3: in every state reachable from the freshly constructed effect by
`Start`, `NextPalette`, `PrevPalette` and `Draw`, the tile colour array has
`_cols * _rows` elements. -/
theorem boxColors_length_invariant (gfx : Gfx) (s : PatternBoxes) (h : BoxesReachable gfx s) :
    s._boxColors.length = s._cols * s._rows :=
  reachable_boxColors_length gfx s h

/-- Worked example of C3: the 4 by 4 mosaic after `Start` and one `Draw`. -/
theorem boxColors_length_invariant_witness :
    BoxesReachable (demoGfx 32 32)
      (PatternBoxes.Draw (demoGfx 32 32) demoPalette 210 sixteenTilesStarted (fun k => k)).state ∧
    (PatternBoxes.Draw (demoGfx 32 32) demoPalette 210 sixteenTilesStarted (fun k => k)).state._boxColors.length
      = (PatternBoxes.Draw (demoGfx 32 32) demoPalette 210 sixteenTilesStarted (fun k => k)).state._cols
        * (PatternBoxes.Draw (demoGfx 32 32) demoPalette 210 sixteenTilesStarted (fun k => k)).state._rows :=
  ⟨BoxesReachable.draw _ _ _ (BoxesReachable.start _ _ (BoxesReachable.fresh _)),
    boxColors_length_invariant _ _
      (BoxesReachable.draw _ _ _ (BoxesReachable.start _ _ (BoxesReachable.fresh _)))⟩

/-- The tile colours `RecomputeGrid` leaves: tile `i` is the nearest allowed
colour to the colour tile `i` had, or to black where there was no tile `i`. -/
theorem RecomputeGrid_tile (gfx : Gfx) (pal : CRGBPalette16) (s : PatternBoxes) (i : Nat)
    (hi : i < (RecomputeGrid gfx pal s)._cols * (RecomputeGrid gfx pal s)._rows) :
    (RecomputeGrid gfx pal s)._boxColors[i]?
      = some (NearestAllowed (RecomputeGrid gfx pal s)._allowedColors (s._boxColors.getD i CRGB.Black)) := by
  have hlen := vectorResize_length s._boxColors
    (gfx.MATRIX_WIDTH / BOX_SIZE * (gfx.MATRIX_HEIGHT / BOX_SIZE)) CRGB.Black
  have hi2 : i < gfx.MATRIX_WIDTH / BOX_SIZE * (gfx.MATRIX_HEIGHT / BOX_SIZE) := hi
  have hg := vectorResize_getD s._boxColors _ CRGB.Black i hi2
  simp only [RecomputeGrid, List.getElem?_map]
  rw [List.getD_eq_getElem?_getD, List.getElem?_eq_getElem (by rw [hlen]; exact hi2)] at hg
  rw [List.getElem?_eq_getElem (by rw [hlen]; exact hi2)]
  simp only [Option.getD_some] at hg
  simp [hg]

/-- C4, as the code has it: for every prior state, after `Start` the tile
array has `_cols * _rows` elements and tile `i` is the nearest allowed colour
(over the rebuilt allowed set) to the colour tile `i` held before, or to black
where the prior array had no tile `i`; when the prior array is empty (the
first `Start` after construction) every tile is the nearest allowed colour to black. -/
theorem Start_requantizes_tiles (gfx : Gfx) (pal : CRGBPalette16) (now : Nat) (s : PatternBoxes) :
    (Start gfx pal now s)._boxColors.length = (Start gfx pal now s)._cols * (Start gfx pal now s)._rows ∧
    (∀ i, i < (Start gfx pal now s)._cols * (Start gfx pal now s)._rows →
      (Start gfx pal now s)._boxColors[i]?
        = some (NearestAllowed (Start gfx pal now s)._allowedColors (s._boxColors.getD i CRGB.Black))) ∧
    (s._boxColors = [] →
      ∀ c ∈ (Start gfx pal now s)._boxColors,
        c = NearestAllowed (Start gfx pal now s)._allowedColors CRGB.Black) := by
  refine ⟨RecomputeGrid_boxColors_length gfx pal _, ?_, ?_⟩
  · intro i hi
    exact RecomputeGrid_tile gfx pal _ i hi
  · intro hnil c hc
    obtain ⟨i, hi, hget⟩ := List.getElem_of_mem hc
    have hlen : (Start gfx pal now s)._boxColors.length
        = (Start gfx pal now s)._cols * (Start gfx pal now s)._rows :=
      RecomputeGrid_boxColors_length gfx pal _
    have h1 := RecomputeGrid_tile gfx pal { s with _lastChangeMs := now % 4294967296 } i
      (by rw [← RecomputeGrid_boxColors_length]; exact hi)
    have h2 : (Start gfx pal now s)._boxColors[i]? = some c := by
      rw [List.getElem?_eq_getElem hi, hget]
    have h3 : (Start gfx pal now s)._boxColors[i]?
        = some (NearestAllowed (Start gfx pal now s)._allowedColors CRGB.Black) := by
      rw [show (Start gfx pal now s) = RecomputeGrid gfx pal { s with _lastChangeMs := now % 4294967296 } from rfl]
      rw [h1]
      simp [hnil]
    rw [h2] at h3
    exact Option.some.inj h3

/-- Worked example of C4 as the code has it: the first `Start` of the 4 by 4 mosaic. -/
theorem Start_requantizes_tiles_witness :
    (PatternBoxes.new demoPalette)._boxColors = [] ∧
    ∀ c ∈ (Start (demoGfx 32 32) demoPalette 0 (PatternBoxes.new demoPalette))._boxColors,
      c = NearestAllowed (Start (demoGfx 32 32) demoPalette 0 (PatternBoxes.new demoPalette))._allowedColors
        CRGB.Black :=
  ⟨rfl, (Start_requantizes_tiles (demoGfx 32 32) demoPalette 0 (PatternBoxes.new demoPalette)).2.2 rfl⟩

/-- C4 as stated fails: a reachable state whose tile was recoloured by a
`Draw` keeps that colour through the next `Start` instead of becoming the
nearest allowed colour to black. -/
theorem Start_keeps_prior_tiles :
    BoxesReachable (demoGfx 8 8) oneTileDrawn ∧
    (Start (demoGfx 8 8) demoPalette 300 oneTileDrawn)._boxColors = [⟨255, 255, 255⟩] ∧
    NearestAllowed (Start (demoGfx 8 8) demoPalette 300 oneTileDrawn)._allowedColors CRGB.Black
      = ⟨10, 0, 0⟩ ∧
    ¬ (∀ c ∈ (Start (demoGfx 8 8) demoPalette 300 oneTileDrawn)._boxColors,
        c = NearestAllowed (Start (demoGfx 8 8) demoPalette 300 oneTileDrawn)._allowedColors CRGB.Black) :=
  ⟨BoxesReachable.draw _ _ _ (BoxesReachable.start _ _ (BoxesReachable.fresh _)),
    by decide, by decide, by decide⟩

/-! ## Theorems: the mosaic timer -/

theorem Draw_zero_area (gfx : Gfx) (pal : CRGBPalette16) (now : Nat) (s : PatternBoxes)
    (rng : RandomSource) (h : s._cols = 0 ∨ s._rows = 0) :
    PatternBoxes.Draw gfx pal now s rng = { state := s, rng := rng, ops := [], recolours := [] } := by
  unfold PatternBoxes.Draw
  rw [if_pos h]

theorem timerStep_fst_RecomputeGrid (gfx : Gfx) (pal : CRGBPalette16) (s : PatternBoxes) (now : Nat) :
    (timerStep (RecomputeGrid gfx pal s) now).1 = (timerStep s now).1 := by
  unfold timerStep RecomputeGrid
  simp only []
  split <;> rfl

theorem timerStep_snd_not_elapsed (s : PatternBoxes) (now : Nat)
    (h : subU32 (now % 4294967296) s._lastChangeMs < toU32 s._changeIntervalMs) :
    (timerStep s now).2 = 0 := by
  unfold timerStep
  simp only []
  rw [if_neg (not_le.mpr h)]

theorem timerStep_snd_RecomputeGrid_zero (gfx : Gfx) (pal : CRGBPalette16) (s : PatternBoxes)
    (now : Nat) (h : (timerStep s now).2 = 0) : (timerStep (RecomputeGrid gfx pal s) now).2 = 0 := by
  unfold timerStep RecomputeGrid at *
  simp only [] at *
  split
  · rename_i h1
    rw [if_pos h1] at h
    simp only [] at h
    omega
  · rfl

/-- On a non-empty grid `Draw` stores the value of the timer block in `_lastChangeMs`. -/
theorem Draw_lastChangeMs (gfx : Gfx) (pal : CRGBPalette16) (now : Nat) (s : PatternBoxes)
    (rng : RandomSource) (hc : s._cols ≠ 0) (hr : s._rows ≠ 0) :
    (PatternBoxes.Draw gfx pal now s rng).state._lastChangeMs = (timerStep s now).1 := by
  unfold PatternBoxes.Draw
  rw [if_neg (by simp [hc, hr])]
  simp only []
  rw [(recolourLoop_frame gfx _ _ _ rng []).2.2.1]
  by_cases hp : s._cachedPalette ≠ pal
  · simp only [if_pos hp]; exact timerStep_fst_RecomputeGrid gfx pal s now
  · simp only [if_neg hp]

/-- When the interval has not elapsed, `Draw` recolours nothing and draws no random number. -/
theorem Draw_not_elapsed (gfx : Gfx) (pal : CRGBPalette16) (now : Nat) (s : PatternBoxes)
    (rng : RandomSource)
    (h : subU32 (now % 4294967296) s._lastChangeMs < toU32 s._changeIntervalMs) :
    (PatternBoxes.Draw gfx pal now s rng).recolours = [] ∧
    (PatternBoxes.Draw gfx pal now s rng).rng = rng ∧
    (PatternBoxes.Draw gfx pal now s rng).state._lastChangeMs = s._lastChangeMs := by
  have h0 := timerStep_snd_not_elapsed s now h
  have h1 : (timerStep s now).1 = s._lastChangeMs := by
    unfold timerStep
    simp only []
    rw [if_neg (not_le.mpr h)]
  by_cases hz : s._cols = 0 ∨ s._rows = 0
  · rw [Draw_zero_area gfx pal now s rng hz]
    exact ⟨rfl, rfl, rfl⟩
  · have hc : s._cols ≠ 0 := fun e => hz (Or.inl e)
    have hr : s._rows ≠ 0 := fun e => hz (Or.inr e)
    refine ⟨?_, ?_, ?_⟩
    · unfold PatternBoxes.Draw
      rw [if_neg hz]
      simp only []
      by_cases hp : s._cachedPalette ≠ pal
      · simp only [if_pos hp]
        rw [timerStep_snd_RecomputeGrid_zero gfx pal s now h0]
        rfl
      · simp only [if_neg hp]
        rw [h0]
        rfl
    · unfold PatternBoxes.Draw
      rw [if_neg hz]
      simp only []
      by_cases hp : s._cachedPalette ≠ pal
      · simp only [if_pos hp]
        rw [timerStep_snd_RecomputeGrid_zero gfx pal s now h0]
        rfl
      · simp only [if_neg hp]
        rw [h0]
        rfl
    · rw [Draw_lastChangeMs gfx pal now s rng hc hr, h1]

theorem toU32_natCast (n : Nat) (h : n < 4294967296) : toU32 (n : Int) = n := by
  unfold toU32
  omega

theorem subU32_cast (now last : Nat) (h1 : now < 4294967296) :
    (subU32 (now % 4294967296) last : Int) = ((now : Int) - last) % 4294967296 := by
  unfold subU32
  omega

theorem timer_remainder (n now last : Nat) (hnow : now < 4294967296) (hlast : last < 4294967296) :
    (now + 4294967296
        - (last + (n * ((now + 4294967296 - last) % 4294967296 / n)) % 4294967296) % 4294967296)
      % 4294967296 = (now + 4294967296 - last) % 4294967296 % n := by
  generalize he : (now + 4294967296 - last) % 4294967296 = e at *
  have h1 : n * (e / n) ≤ e := Nat.mul_div_le e n
  have h2 := Nat.mod_add_div e n
  have h3 : e < 4294967296 := by omega
  generalize n * (e / n) = m at *
  generalize e % n = r at *
  omega

theorem sub_mod_cast (now nl : Nat) (h : nl < 4294967296) :
    ((now : Int) - nl) % 4294967296 = (((now + 4294967296 - nl) % 4294967296 : Nat) : Int) := by
  omega

/-- C5: for every interval `I > 0` (an `int`) and all 32-bit values `now` and
`_lastChangeMs`, with `e = (now - _lastChangeMs) mod 2^32`: if `e < I`, `Draw`
leaves `_lastChangeMs` unchanged, recolours nothing and draws no random
number; if `e ≥ I` (and the grid is not empty, so that the timer block runs)
the new `_lastChangeMs` is `(_lastChangeMs + I * (e / I)) mod 2^32`, after which
`(now - _lastChangeMs) mod 2^32 = e mod I < I`. -/
theorem timer_accumulator (gfx : Gfx) (pal : CRGBPalette16) (now : Nat) (s : PatternBoxes)
    (rng : RandomSource) (hI : 0 < s._changeIntervalMs) (hI32 : s._changeIntervalMs ≤ 2147483647)
    (hnow : now < 4294967296) (hlast : s._lastChangeMs < 4294967296) :
    ((((now : Int) - s._lastChangeMs) % 4294967296 < s._changeIntervalMs) →
      (PatternBoxes.Draw gfx pal now s rng).state._lastChangeMs = s._lastChangeMs ∧
      (PatternBoxes.Draw gfx pal now s rng).recolours = [] ∧
      (PatternBoxes.Draw gfx pal now s rng).rng = rng) ∧
    ((s._changeIntervalMs ≤ ((now : Int) - s._lastChangeMs) % 4294967296) →
      s._cols ≠ 0 → s._rows ≠ 0 →
      ((PatternBoxes.Draw gfx pal now s rng).state._lastChangeMs : Int)
        = (s._lastChangeMs + s._changeIntervalMs
            * ((((now : Int) - s._lastChangeMs) % 4294967296) / s._changeIntervalMs)) % 4294967296 ∧
      ((now : Int) - (PatternBoxes.Draw gfx pal now s rng).state._lastChangeMs) % 4294967296
        = (((now : Int) - s._lastChangeMs) % 4294967296) % s._changeIntervalMs ∧
      (((now : Int) - s._lastChangeMs) % 4294967296) % s._changeIntervalMs < s._changeIntervalMs) := by
  obtain ⟨n, hn⟩ := Int.eq_ofNat_of_zero_le (le_of_lt hI)
  have hn0 : 0 < n := by omega
  have hn32 : n < 4294967296 := by omega
  have hcast : toU32 s._changeIntervalMs = n := by rw [hn]; exact toU32_natCast n hn32
  have hsub := subU32_cast now s._lastChangeMs hnow
  have he : subU32 (now % 4294967296) s._lastChangeMs
      = (now + 4294967296 - s._lastChangeMs) % 4294967296 := by
    unfold subU32
    omega
  constructor
  · intro hlt
    have hlt2 : subU32 (now % 4294967296) s._lastChangeMs < toU32 s._changeIntervalMs := by
      rw [hcast]
      have : (subU32 (now % 4294967296) s._lastChangeMs : Int) < n := by rw [hsub, ← hn]; exact hlt
      exact_mod_cast this
    obtain ⟨h1, h2, h3⟩ := Draw_not_elapsed gfx pal now s rng hlt2
    exact ⟨h3, h1, h2⟩
  · intro hge hc hr
    have hge2 : n ≤ (now + 4294967296 - s._lastChangeMs) % 4294967296 := by
      rw [← he]
      have : (n : Int) ≤ (subU32 (now % 4294967296) s._lastChangeMs : Int) := by
        rw [hsub, ← hn]; exact hge
      exact_mod_cast this
    have hval : (PatternBoxes.Draw gfx pal now s rng).state._lastChangeMs
        = (s._lastChangeMs + (n * ((now + 4294967296 - s._lastChangeMs) % 4294967296 / n))
            % 4294967296) % 4294967296 := by
      rw [Draw_lastChangeMs gfx pal now s rng hc hr]
      unfold timerStep
      simp only []
      rw [hcast, he, if_pos hge2]
    have hrem := timer_remainder n now s._lastChangeMs hnow hlast
    have hsub2 : ((now : Int) - s._lastChangeMs) % 4294967296
        = (((now + 4294967296 - s._lastChangeMs) % 4294967296 : Nat) : Int) := by
      rw [← hsub, he]
    rw [hsub2, hn]
    refine ⟨?_, ?_, ?_⟩
    · rw [hval]
      have h1 : n * ((now + 4294967296 - s._lastChangeMs) % 4294967296 / n)
          ≤ (now + 4294967296 - s._lastChangeMs) % 4294967296 := Nat.mul_div_le _ _
      have h2 : (s._lastChangeMs + (n * ((now + 4294967296 - s._lastChangeMs) % 4294967296 / n))
            % 4294967296) % 4294967296
          = (s._lastChangeMs + n * ((now + 4294967296 - s._lastChangeMs) % 4294967296 / n))
            % 4294967296 := by
        generalize n * ((now + 4294967296 - s._lastChangeMs) % 4294967296 / n) = m at *
        omega
      rw [h2]
      push_cast
      rfl
    · rw [hval]
      have : ((now : Int) - ((s._lastChangeMs + (n * ((now + 4294967296 - s._lastChangeMs)
            % 4294967296 / n)) % 4294967296) % 4294967296 : Nat)) % 4294967296
          = (((now + 4294967296 - (s._lastChangeMs + (n * ((now + 4294967296 - s._lastChangeMs)
            % 4294967296 / n)) % 4294967296) % 4294967296) % 4294967296 : Nat) : Int) :=
        sub_mod_cast now _ (Nat.mod_lt _ (by norm_num))
      rw [this, hrem]
      push_cast
      rfl
    · exact Int.emod_lt_of_pos _ (by exact_mod_cast hn0)

/-- Worked example of C5: the 4 by 4 mosaic started at time 0, drawn at time 450. -/
theorem timer_accumulator_witness :
    (0 : Int) < sixteenTilesStarted._changeIntervalMs ∧
    sixteenTilesStarted._changeIntervalMs ≤ ((450 : Nat) - sixteenTilesStarted._lastChangeMs : Int) % 4294967296 ∧
    ((PatternBoxes.Draw (demoGfx 32 32) demoPalette 450 sixteenTilesStarted (fun k => k)).state._lastChangeMs : Int)
      = (sixteenTilesStarted._lastChangeMs + sixteenTilesStarted._changeIntervalMs
          * ((((450 : Nat) : Int) - sixteenTilesStarted._lastChangeMs) % 4294967296
              / sixteenTilesStarted._changeIntervalMs)) % 4294967296 :=
  ⟨by decide, by decide,
    ((timer_accumulator (demoGfx 32 32) demoPalette 450 sixteenTilesStarted (fun k => k)
      (by decide) (by decide) (by decide) (by decide)).2 (by decide) (by decide) (by decide)).1⟩

/-- C8: whenever `_cols = 0` or `_rows = 0`, `Draw` changes no field, draws
no random number, sends nothing to the pixel sink and recolours nothing. -/
theorem Draw_zero_area_noop (gfx : Gfx) (pal : CRGBPalette16) (now : Nat) (s : PatternBoxes)
    (rng : RandomSource) (h : s._cols = 0 ∨ s._rows = 0) :
    (PatternBoxes.Draw gfx pal now s rng).state = s ∧
    (PatternBoxes.Draw gfx pal now s rng).rng = rng ∧
    (PatternBoxes.Draw gfx pal now s rng).ops = [] ∧
    (PatternBoxes.Draw gfx pal now s rng).recolours = [] := by
  rw [Draw_zero_area gfx pal now s rng h]
  exact ⟨rfl, rfl, rfl, rfl⟩

/-- Worked example of C8: the freshly constructed mosaic has no tiles. -/
theorem Draw_zero_area_noop_witness :
    ((PatternBoxes.new demoPalette)._cols = 0 ∨ (PatternBoxes.new demoPalette)._rows = 0) ∧
    (PatternBoxes.Draw (demoGfx 32 32) demoPalette 1000 (PatternBoxes.new demoPalette) (fun k => k)).state
      = PatternBoxes.new demoPalette ∧
    (PatternBoxes.Draw (demoGfx 32 32) demoPalette 1000 (PatternBoxes.new demoPalette) (fun k => k)).ops = [] :=
  ⟨Or.inl rfl,
    (Draw_zero_area_noop (demoGfx 32 32) demoPalette 1000 (PatternBoxes.new demoPalette) (fun k => k)
      (Or.inl rfl)).1,
    (Draw_zero_area_noop (demoGfx 32 32) demoPalette 1000 (PatternBoxes.new demoPalette) (fun k => k)
      (Or.inl rfl)).2.2.1⟩

/-! ## Theorems: the recolour count -/

/-- Reachable states have the geometry of the matrix, or (before the first `Start`) none. -/
theorem reachable_geometry (gfx : Gfx) (s : PatternBoxes) (h : BoxesReachable gfx s) :
    (s._cols = 0 ∧ s._rows = 0) ∨
    (s._cols = gfx.MATRIX_WIDTH / BOX_SIZE ∧ s._rows = gfx.MATRIX_HEIGHT / BOX_SIZE) := by
  induction h with
  | fresh pal0 => exact Or.inl ⟨rfl, rfl⟩
  | start pal now _ _ => exact Or.inr ⟨rfl, rfl⟩
  | next pal _ _ => exact Or.inr ⟨rfl, rfl⟩
  | prev pal _ _ => exact Or.inr ⟨rfl, rfl⟩
  | @draw pal now rng s _ ih =>
    by_cases hz : s._cols = 0 ∨ s._rows = 0
    · rw [Draw_zero_area gfx pal now s rng hz]; exact ih
    · unfold PatternBoxes.Draw
      rw [if_neg hz]
      simp only []
      rw [(recolourLoop_frame gfx _ _ _ rng []).1, (recolourLoop_frame gfx _ _ _ rng []).2.1]
      by_cases hp : s._cachedPalette ≠ pal
      · simp only [if_pos hp]; exact Or.inr ⟨rfl, rfl⟩
      · simp only [if_neg hp]; exact ih

theorem timerStep_RecomputeGrid (gfx : Gfx) (pal : CRGBPalette16) (s : PatternBoxes) (now : Nat)
    (hc : s._cols = gfx.MATRIX_WIDTH / BOX_SIZE) (hr : s._rows = gfx.MATRIX_HEIGHT / BOX_SIZE) :
    timerStep (RecomputeGrid gfx pal s) now = timerStep s now := by
  unfold timerStep RecomputeGrid
  simp only [hc, hr]

/-- On a non-empty grid with the geometry of the matrix, `Draw` keeps the
geometry and the interval, stores the value of the timer block, and performs
as many recolours as the timer block asks for. -/
theorem Draw_timer_fields (gfx : Gfx) (pal : CRGBPalette16) (now : Nat) (s : PatternBoxes)
    (rng : RandomSource) (hc0 : s._cols ≠ 0) (hr0 : s._rows ≠ 0)
    (hc : s._cols = gfx.MATRIX_WIDTH / BOX_SIZE) (hr : s._rows = gfx.MATRIX_HEIGHT / BOX_SIZE) :
    (PatternBoxes.Draw gfx pal now s rng).state._cols = s._cols ∧
    (PatternBoxes.Draw gfx pal now s rng).state._rows = s._rows ∧
    (PatternBoxes.Draw gfx pal now s rng).state._changeIntervalMs = s._changeIntervalMs ∧
    (PatternBoxes.Draw gfx pal now s rng).state._lastChangeMs = (timerStep s now).1 ∧
    (PatternBoxes.Draw gfx pal now s rng).recolours.length = (timerStep s now).2 := by
  unfold PatternBoxes.Draw
  rw [if_neg (by simp [hc0, hr0])]
  simp only []
  obtain ⟨h1, h2, h3, h4, -, -, -, -, h9⟩ := recolourLoop_frame gfx
    (({ (if s._cachedPalette ≠ pal then RecomputeGrid gfx pal s else s) with
        _lastChangeMs := (timerStep (if s._cachedPalette ≠ pal then RecomputeGrid gfx pal s else s) now).1 } : PatternBoxes)._cols *
      ({ (if s._cachedPalette ≠ pal then RecomputeGrid gfx pal s else s) with
        _lastChangeMs := (timerStep (if s._cachedPalette ≠ pal then RecomputeGrid gfx pal s else s) now).1 } : PatternBoxes)._rows)
    (timerStep (if s._cachedPalette ≠ pal then RecomputeGrid gfx pal s else s) now).2
    { (if s._cachedPalette ≠ pal then RecomputeGrid gfx pal s else s) with
        _lastChangeMs := (timerStep (if s._cachedPalette ≠ pal then RecomputeGrid gfx pal s else s) now).1 }
    rng []
  rw [h1, h2, h3, h4, h9]
  by_cases hp : s._cachedPalette ≠ pal
  · simp only [if_pos hp, timerStep_RecomputeGrid gfx pal s now hc hr]
    simp [RecomputeGrid, hc, hr]
  · simp only [if_neg hp]
    simp

/-- C6: in a `Draw` on a non-empty grid (of a reachable state) the number of
recolour operations is `max(1, _cols * _rows / 6)` when the interval trigger
fires and 0 when it does not.  Scenario: with the interval 200 of the
constructor and 4 by 4 tiles, `Start` at time 0 then `Draw` at times 0, 50,
150 and 210 recolours nothing at 0, 50, 150 and exactly 2 tiles at 210,
whatever the palettes and random draws. -/
theorem recolour_count :
    (∀ (gfx : Gfx) (pal : CRGBPalette16) (now : Nat) (s : PatternBoxes) (rng : RandomSource),
      BoxesReachable gfx s → s._cols ≠ 0 → s._rows ≠ 0 →
      (PatternBoxes.Draw gfx pal now s rng).recolours.length
        = if toU32 s._changeIntervalMs ≤ subU32 (now % 4294967296) s._lastChangeMs
          then max 1 (s._cols * s._rows / 6) else 0) ∧
    (∀ (gfx : Gfx) (pal0 p0 p1 p2 p3 p4 : CRGBPalette16) (r1 r2 r3 r4 : RandomSource),
      gfx.MATRIX_WIDTH / BOX_SIZE = 4 → gfx.MATRIX_HEIGHT / BOX_SIZE = 4 →
      (PatternBoxes.Draw gfx p1 0 (Start gfx p0 0 (PatternBoxes.new pal0)) r1).recolours.length = 0 ∧
      (PatternBoxes.Draw gfx p2 50
        (PatternBoxes.Draw gfx p1 0 (Start gfx p0 0 (PatternBoxes.new pal0)) r1).state r2).recolours.length = 0 ∧
      (PatternBoxes.Draw gfx p3 150
        (PatternBoxes.Draw gfx p2 50
          (PatternBoxes.Draw gfx p1 0 (Start gfx p0 0 (PatternBoxes.new pal0)) r1).state r2).state
        r3).recolours.length = 0 ∧
      (PatternBoxes.Draw gfx p4 210
        (PatternBoxes.Draw gfx p3 150
          (PatternBoxes.Draw gfx p2 50
            (PatternBoxes.Draw gfx p1 0 (Start gfx p0 0 (PatternBoxes.new pal0)) r1).state r2).state
          r3).state r4).recolours.length = 2) := by
  constructor
  · intro gfx pal now s rng hreach hc0 hr0
    rcases reachable_geometry gfx s hreach with ⟨hz, -⟩ | ⟨hc, hr⟩
    · exact absurd hz hc0
    · rw [(Draw_timer_fields gfx pal now s rng hc0 hr0 hc hr).2.2.2.2]
      unfold timerStep
      simp only []
      split <;> rfl
  · intro gfx pal0 p0 p1 p2 p3 p4 r1 r2 r3 r4 hW hH
    have key : ∀ (s : PatternBoxes) (pal : CRGBPalette16) (now : Nat) (rng : RandomSource),
        s._cols = 4 → s._rows = 4 → s._changeIntervalMs = 200 → s._lastChangeMs = 0 →
        now < 200 →
        (PatternBoxes.Draw gfx pal now s rng).recolours.length = 0 ∧
        (PatternBoxes.Draw gfx pal now s rng).state._cols = 4 ∧
        (PatternBoxes.Draw gfx pal now s rng).state._rows = 4 ∧
        (PatternBoxes.Draw gfx pal now s rng).state._changeIntervalMs = 200 ∧
        (PatternBoxes.Draw gfx pal now s rng).state._lastChangeMs = 0 := by
      intro s pal now rng hc hr hI hl hnow
      obtain ⟨h1, h2, h3, h4, h5⟩ := Draw_timer_fields gfx pal now s rng
        (by omega) (by omega) (by rw [hc, hW]) (by rw [hr, hH])
      have ht : timerStep s now = (0, 0) := by
        unfold timerStep
        simp only [hI, hl, toU32, subU32]
        rw [if_neg]
        simp
        omega
      rw [ht] at h4 h5
      exact ⟨h5, by rw [h1, hc], by rw [h2, hr], by rw [h3, hI], h4⟩
    have h0 : (Start gfx p0 0 (PatternBoxes.new pal0))._cols = 4 := hW
    have h0r : (Start gfx p0 0 (PatternBoxes.new pal0))._rows = 4 := hH
    obtain ⟨a1, c1, w1, i1, l1⟩ := key (Start gfx p0 0 (PatternBoxes.new pal0)) p1 0 r1 h0 h0r rfl rfl
      (by norm_num)
    obtain ⟨a2, c2, w2, i2, l2⟩ := key _ p2 50 r2 c1 w1 i1 l1 (by norm_num)
    obtain ⟨a3, c3, w3, i3, l3⟩ := key _ p3 150 r3 c2 w2 i2 l2 (by norm_num)
    refine ⟨a1, a2, a3, ?_⟩
    obtain ⟨-, -, -, -, h5⟩ := Draw_timer_fields gfx p4 210 _ r4
      (by rw [c3]; norm_num) (by rw [w3]; norm_num) (by rw [c3, hW]) (by rw [w3, hH])
    rw [h5]
    unfold timerStep
    simp only [i3, l3, c3, w3, toU32, subU32]
    decide

/-- Worked example of C6: the 4 by 4 mosaic started at time 0 and drawn at time 210. -/
theorem recolour_count_witness :
    BoxesReachable (demoGfx 32 32) sixteenTilesStarted ∧
    sixteenTilesStarted._cols ≠ 0 ∧ sixteenTilesStarted._rows ≠ 0 ∧
    (PatternBoxes.Draw (demoGfx 32 32) demoPalette 210 sixteenTilesStarted (fun k => k)).recolours.length
      = 2 :=
  ⟨BoxesReachable.start _ _ (BoxesReachable.fresh _), by decide, by decide,
    (recolour_count.1 (demoGfx 32 32) demoPalette 210 sixteenTilesStarted (fun k => k)
      (BoxesReachable.start _ _ (BoxesReachable.fresh _)) (by decide) (by decide)).trans (by decide)⟩

/-! ## Theorems: the neighbour-avoidance pick -/

theorem random_eq (n : Nat) (rng : RandomSource) (hn : n ≠ 0) :
    random n rng = (rng 0 % n, fun k => rng (k + 1)) := by
  simp [random, hn]

/-- The attempt loop returns the first drawn colour that is no neighbour colour. -/
theorem pickLoop_first (A N : List CRGB) (hA : A.length ≠ 0) :
    ∀ (m : Nat) (rng : RandomSource) (k : Nat), k < m →
      (∀ j, j < k → A.getD (rng j % A.length) CRGB.Black ∈ N) →
      A.getD (rng k % A.length) CRGB.Black ∉ N →
      pickLoop A N m rng = (A.getD (rng k % A.length) CRGB.Black, fun i => rng (i + (k + 1))) := by
  intro m
  induction m with
  | zero => intro rng k hk; omega
  | succ m ih =>
    intro rng k hk hbefore hfree
    unfold pickLoop
    simp only [random_eq _ rng hA]
    cases k with
    | zero =>
      rw [if_neg hfree]
    | succ k =>
      rw [if_pos (hbefore 0 (by omega))]
      rw [ih (fun i => rng (i + 1)) k (by omega) (fun j hj => hbefore (j + 1) (by omega)) hfree]
      rfl

/-- When every attempt conflicts, the loop returns the one extra draw. -/
theorem pickLoop_all (A N : List CRGB) (hA : A.length ≠ 0) :
    ∀ (m : Nat) (rng : RandomSource),
      (∀ j, j < m → A.getD (rng j % A.length) CRGB.Black ∈ N) →
      pickLoop A N m rng = (A.getD (rng m % A.length) CRGB.Black, fun i => rng (i + (m + 1))) := by
  intro m
  induction m with
  | zero =>
    intro rng _
    unfold pickLoop
    simp only [random_eq _ rng hA]
  | succ m ih =>
    intro rng hall
    unfold pickLoop
    simp only [random_eq _ rng hA]
    rw [if_pos (hall 0 (by omega))]
    rw [ih (fun i => rng (i + 1)) (fun j hj => hall (j + 1) (by omega))]
    rfl

theorem getD_eq_iff_getElem? (l : List CRGB) (j : Nat) (c : CRGB) (hj : j < l.length) :
    l.getD j CRGB.Black = c ↔ l[j]? = some c := by
  rw [List.getD_eq_getElem?_getD, List.getElem?_eq_getElem hj]
  simp

theorem mem_ite_singleton (P : Prop) [Decidable P] (x c : CRGB) :
    c ∈ (if P then [x] else []) ↔ P ∧ x = c := by
  by_cases h : P
  · simp [h, eq_comm]
  · simp [h]

/-- The neighbour colours collected for tile `idx` are the colours of the
tiles at `idx - 1`, `idx + 1`, `idx - _cols` and `idx + _cols`, each present
exactly when `idx` is not on the corresponding edge of the grid. -/
theorem pickNeighbors_mem (s : PatternBoxes) (idx : Nat) (c : CRGB)
    (hidx : idx < s._cols * s._rows) (hlen : s._boxColors.length = s._cols * s._rows) :
    c ∈ pickNeighbors s idx ↔
      (0 < idx % s._cols ∧ s._boxColors[idx - 1]? = some c) ∨
      (idx % s._cols + 1 < s._cols ∧ s._boxColors[idx + 1]? = some c) ∨
      (0 < idx / s._cols ∧ s._boxColors[idx - s._cols]? = some c) ∨
      (idx / s._cols + 1 < s._rows ∧ s._boxColors[idx + s._cols]? = some c) := by
  have hcols : 0 < s._cols := by
    rcases Nat.eq_zero_or_pos s._cols with h | h
    · rw [h] at hidx; simp at hidx
    · exact h
  have hdm : s._cols * (idx / s._cols) + idx % s._cols = idx := Nat.div_add_mod idx s._cols
  have hmod : idx % s._cols < s._cols := Nat.mod_lt _ hcols
  have hrow : idx / s._cols < s._rows := by
    rw [Nat.div_lt_iff_lt_mul hcols, Nat.mul_comm]; exact hidx
  have hcomm : idx / s._cols * s._cols = s._cols * (idx / s._cols) := Nat.mul_comm _ _
  unfold pickNeighbors
  simp only [List.mem_append, mem_ite_singleton, or_assoc]
  have e1 : 0 < idx % s._cols →
      idx / s._cols * s._cols + (idx % s._cols - 1) = idx - 1 := by
    intro h; omega
  have e2 : idx / s._cols * s._cols + (idx % s._cols + 1) = idx + 1 := by omega
  have e3 : 0 < idx / s._cols →
      (idx / s._cols - 1) * s._cols + idx % s._cols = idx - s._cols := by
    intro h
    have : (idx / s._cols - 1) * s._cols + s._cols = idx / s._cols * s._cols := by
      have h1 : idx / s._cols - 1 + 1 = idx / s._cols := by omega
      calc (idx / s._cols - 1) * s._cols + s._cols
          = (idx / s._cols - 1 + 1) * s._cols := by ring
        _ = idx / s._cols * s._cols := by rw [h1]
    omega
  have e4 : (idx / s._cols + 1) * s._cols + idx % s._cols = idx + s._cols := by
    have : (idx / s._cols + 1) * s._cols = idx / s._cols * s._cols + s._cols := by ring
    omega
  have b2 : idx % s._cols + 1 < s._cols → idx + 1 < s._boxColors.length := by
    intro h
    have : s._cols * (idx / s._cols + 1) ≤ s._cols * s._rows := Nat.mul_le_mul_left _ hrow
    have h2 : s._cols * (idx / s._cols + 1) = s._cols * (idx / s._cols) + s._cols := by ring
    omega
  have b4 : idx / s._cols + 1 < s._rows → idx + s._cols < s._boxColors.length := by
    intro h
    have : s._cols * (idx / s._cols + 2) ≤ s._cols * s._rows := Nat.mul_le_mul_left _ h
    have h2 : s._cols * (idx / s._cols + 2) = s._cols * (idx / s._cols) + s._cols + s._cols := by ring
    omega
  constructor
  · rintro (⟨h, hc⟩ | ⟨h, hc⟩ | ⟨h, hc⟩ | ⟨h, hc⟩)
    · left
      have hp : 0 < idx % s._cols := h
      rw [e1 hp] at hc
      exact ⟨hp, (getD_eq_iff_getElem? _ _ _ (by omega)).mp hc⟩
    · right; left
      have hp : idx % s._cols + 1 < s._cols := by omega
      rw [e2] at hc
      exact ⟨hp, (getD_eq_iff_getElem? _ _ _ (b2 hp)).mp hc⟩
    · right; right; left
      have hp : 0 < idx / s._cols := h
      rw [e3 hp] at hc
      exact ⟨hp, (getD_eq_iff_getElem? _ _ _ (by omega)).mp hc⟩
    · right; right; right
      have hp : idx / s._cols + 1 < s._rows := Nat.add_lt_of_lt_sub h
      rw [e4] at hc
      exact ⟨hp, (getD_eq_iff_getElem? _ _ _ (b4 hp)).mp hc⟩
  · rintro (⟨hp, hc⟩ | ⟨hp, hc⟩ | ⟨hp, hc⟩ | ⟨hp, hc⟩)
    · left
      refine ⟨hp, ?_⟩
      rw [e1 hp]
      exact (getD_eq_iff_getElem? _ _ _ (by omega)).mpr hc
    · right; left
      refine ⟨by omega, ?_⟩
      rw [e2]
      exact (getD_eq_iff_getElem? _ _ _ (b2 hp)).mpr hc
    · right; right; left
      refine ⟨hp, ?_⟩
      rw [e3 hp]
      exact (getD_eq_iff_getElem? _ _ _ (by omega)).mpr hc
    · right; right; right
      refine ⟨by omega, ?_⟩
      rw [e4]
      exact (getD_eq_iff_getElem? _ _ _ (b4 hp)).mpr hc

/-- C7: for a tile index `idx < _cols * _rows`, a non-empty allowed set `A`
of size `n` and the draws `d k = rng k % n`: the neighbour colours are exactly
those of the tiles left (`col > 0`), right (`col < _cols - 1`), above
(`row > 0`) and below (`row < _rows - 1`) of `idx`, with `row = idx / _cols`,
`col = idx % _cols`.  If some `k < n` has `A[d k]` among no neighbour colour,
the result is `A[d k]` for the least such `k`, it differs from every neighbour
colour and `k + 1` draws were made; otherwise the result is `A[d n]`, the
extra draw, after `n + 1` draws. -/
theorem PickNonMatching_spec (gfx : Gfx) (s : PatternBoxes) (idx : Nat) (rng : RandomSource)
    (hA : s._allowedColors ≠ []) (hidx : idx < s._cols * s._rows)
    (hlen : s._boxColors.length = s._cols * s._rows) :
    (∀ c, c ∈ pickNeighbors s idx ↔
      (0 < idx % s._cols ∧ s._boxColors[idx - 1]? = some c) ∨
      (idx % s._cols + 1 < s._cols ∧ s._boxColors[idx + 1]? = some c) ∨
      (0 < idx / s._cols ∧ s._boxColors[idx - s._cols]? = some c) ∨
      (idx / s._cols + 1 < s._rows ∧ s._boxColors[idx + s._cols]? = some c)) ∧
    (∀ k, rng k % s._allowedColors.length < s._allowedColors.length) ∧
    (∀ k, k < s._allowedColors.length →
      (∀ j, j < k →
        s._allowedColors.getD (rng j % s._allowedColors.length) CRGB.Black ∈ pickNeighbors s idx) →
      s._allowedColors.getD (rng k % s._allowedColors.length) CRGB.Black ∉ pickNeighbors s idx →
      s._allowedColors[rng k % s._allowedColors.length]? = some (PickNonMatching gfx s idx rng).1 ∧
      (PickNonMatching gfx s idx rng).1 ∉ pickNeighbors s idx ∧
      (PickNonMatching gfx s idx rng).2 = fun i => rng (i + (k + 1))) ∧
    ((∀ j, j < s._allowedColors.length →
        s._allowedColors.getD (rng j % s._allowedColors.length) CRGB.Black ∈ pickNeighbors s idx) →
      s._allowedColors[rng s._allowedColors.length % s._allowedColors.length]?
        = some (PickNonMatching gfx s idx rng).1 ∧
      (PickNonMatching gfx s idx rng).2 = fun i => rng (i + (s._allowedColors.length + 1))) := by
  have hn : s._allowedColors.length ≠ 0 := by simpa using hA
  have hpos : 0 < s._allowedColors.length := Nat.pos_of_ne_zero hn
  have hpick : PickNonMatching gfx s idx rng
      = pickLoop s._allowedColors (pickNeighbors s idx) s._allowedColors.length rng := by
    unfold PickNonMatching
    rw [if_neg (by simpa using hA)]
  refine ⟨fun c => pickNeighbors_mem s idx c hidx hlen, fun k => Nat.mod_lt _ hpos, ?_, ?_⟩
  · intro k hk hbefore hfree
    rw [hpick, pickLoop_first _ _ hn _ rng k hk hbefore hfree]
    refine ⟨?_, hfree, rfl⟩
    exact ((getD_eq_iff_getElem? _ _ _ (Nat.mod_lt _ hpos)).mp rfl)
  · intro hall
    rw [hpick, pickLoop_all _ _ hn _ rng hall]
    exact ⟨((getD_eq_iff_getElem? _ _ _ (Nat.mod_lt _ hpos)).mp rfl), rfl⟩

/-- Worked example of C7: tile 5 of the freshly started 4 by 4 mosaic, whose
first draw conflicts with a neighbour and whose second draw is accepted. -/
theorem PickNonMatching_spec_witness :
    sixteenTilesStarted._allowedColors ≠ [] ∧
    5 < sixteenTilesStarted._cols * sixteenTilesStarted._rows ∧
    sixteenTilesStarted._boxColors.length = sixteenTilesStarted._cols * sixteenTilesStarted._rows ∧
    sixteenTilesStarted._allowedColors[(fun k => k) 1 % sixteenTilesStarted._allowedColors.length]?
      = some (PickNonMatching (demoGfx 32 32) sixteenTilesStarted 5 (fun k => k)).1 ∧
    (PickNonMatching (demoGfx 32 32) sixteenTilesStarted 5 (fun k => k)).1
      ∉ pickNeighbors sixteenTilesStarted 5 :=
  ⟨by decide, by decide, by decide,
    ((PickNonMatching_spec (demoGfx 32 32) sixteenTilesStarted 5 (fun k => k)
      (by decide) (by decide) (by decide)).2.2.1 1 (by decide) (by decide) (by decide)).1,
    ((PickNonMatching_spec (demoGfx 32 32) sixteenTilesStarted 5 (fun k => k)
      (by decide) (by decide) (by decide)).2.2.1 1 (by decide) (by decide) (by decide)).2.1⟩

/-! ## Theorems: the fireworks particles -/

theorem explode_sparks (fm : FloatMath) (p : Particle) :
    ∀ (n : Nat) (rng : RandomSource),
      (PatternFireworks.explode fm p n rng).1.length = n ∧
      ∀ q ∈ (PatternFireworks.explode fm p n rng).1,
        q.life = 0 ∧ q.exploded = true ∧ q.spark = true ∧ q.x = p.x ∧ q.y = p.y := by
  intro n
  induction n with
  | zero => intro rng; simp [PatternFireworks.explode]
  | succ n ih =>
    intro rng
    unfold PatternFireworks.explode
    simp only [List.length_cons, List.mem_cons]
    refine ⟨by rw [(ih _).1], ?_⟩
    intro q hq
    rcases hq with hq | hq
    · rw [hq]; simp [PatternFireworks.makeSpark]
    · exact (ih _).2 q hq

/-- What the loop body does to the age, the position and the flags of one
particle, and what the sparks it creates look like. -/
theorem stepParticle_fields (gfx : Gfx) (fm : FloatMath) (E : Int) (p : Particle)
    (rng : RandomSource) :
    (PatternFireworks.stepParticle gfx fm E p rng).particle.life
      = (if p.exploded then (p.life + 1) % 256 else p.life) ∧
    (PatternFireworks.stepParticle gfx fm E p rng).particle.y = p.y + p.vy ∧
    (PatternFireworks.stepParticle gfx fm E p rng).particle.vy
      = (if p.exploded then p.vy + 2 / 100 else p.vy + 1 / 100) ∧
    (p.exploded = true → (PatternFireworks.stepParticle gfx fm E p rng).particle.exploded = true) ∧
    (p.exploded = true → (PatternFireworks.stepParticle gfx fm E p rng).sparks = []) ∧
    (∀ q ∈ (PatternFireworks.stepParticle gfx fm E p rng).sparks,
      q.life = 0 ∧ q.exploded = true ∧ q.spark = true ∧ q.y = p.y + p.vy) := by
  cases hex : p.exploded
  · simp only [PatternFireworks.stepParticle, hex, Bool.not_false, if_true, Bool.false_eq_true, if_false]
    split_ifs
    · refine ⟨rfl, rfl, rfl, by simp, by simp, ?_⟩
      intro q hq
      exact (fun h => ⟨h.1, h.2.1, h.2.2.1, h.2.2.2.2⟩) ((explode_sparks fm _ _ _).2 q hq)
    · refine ⟨rfl, rfl, rfl, by simp, by simp, ?_⟩
      intro q hq
      exact (fun h => ⟨h.1, h.2.1, h.2.2.1, h.2.2.2.2⟩) ((explode_sparks fm _ _ _).2 q hq)
    · refine ⟨rfl, rfl, rfl, by simp, by simp, by simp⟩
  · simp only [PatternFireworks.stepParticle, hex, Bool.not_true, if_true, Bool.false_eq_true, if_false]
    split_ifs
    · refine ⟨rfl, rfl, rfl, by simp, by simp, by simp⟩
    · refine ⟨rfl, rfl, rfl, by simp, by simp, by simp⟩
    · refine ⟨rfl, rfl, rfl, by simp, by simp, by simp⟩
    · refine ⟨rfl, rfl, rfl, by simp, by simp, by simp⟩

theorem physics_life (gfx : Gfx) (fm : FloatMath) (E : Int) :
    ∀ (l : List Particle) (rng : RandomSource), (∀ p ∈ l, p.life ≤ 50) →
      (∀ q ∈ (PatternFireworks.physics gfx fm E l rng).particles, q.life ≤ 51) ∧
      (∀ q ∈ (PatternFireworks.physics gfx fm E l rng).newParticles, q.life = 0) := by
  intro l
  induction l with
  | nil => intro rng _; simp [PatternFireworks.physics]
  | cons p rest ih =>
    intro rng h
    have hp : p.life ≤ 50 := h p (List.mem_cons_self _ _)
    obtain ⟨ih1, ih2⟩ := ih (PatternFireworks.stepParticle gfx fm E p rng).rng
      (fun q hq => h q (List.mem_cons_of_mem _ hq))
    obtain ⟨h1, -, -, -, -, h6⟩ := stepParticle_fields gfx fm E p rng
    unfold PatternFireworks.physics
    simp only [List.mem_cons, List.mem_append]
    constructor
    · intro q hq
      rcases hq with hq | hq
      · rw [hq, h1]
        split <;> omega
      · exact ih1 q hq
    · intro q hq
      rcases hq with hq | hq
      · exact (h6 q hq).1
      · exact ih2 q hq

theorem makeRocket_fields (gfx : Gfx) (rng : RandomSource) :
    (PatternFireworks.makeRocket gfx rng).1.life = 0 ∧
    (PatternFireworks.makeRocket gfx rng).1.exploded = false ∧
    (PatternFireworks.makeRocket gfx rng).1.y = (gfx.MATRIX_HEIGHT : ℚ) - 1 := by
  simp [PatternFireworks.makeRocket]

/-- The spawn gate leaves the particles as they are or appends one rocket. -/
theorem spawnGate_cases (gfx : Gfx) (s : PatternFireworks) (rng : RandomSource) :
    (PatternFireworks.spawnGate gfx s rng).1 = s._particles ∨
    (s._particles.length < toU32 s._maxParticles ∧
      (randomRange 0 10 rng).1 < 3 ∧
      ((s._particles.countP fun p => !p.exploded : Nat) : Int) < s._maxRockets ∧
      (PatternFireworks.spawnGate gfx s rng).1
        = s._particles ++ [(PatternFireworks.makeRocket gfx (randomRange 0 10 rng).2).1]) := by
  unfold PatternFireworks.spawnGate
  simp only []
  by_cases h1 : s._particles.length < toU32 s._maxParticles
  · by_cases h2 : (randomRange 0 10 rng).1 < 3
    · by_cases h3 : ((s._particles.countP fun p => !p.exploded : Nat) : Int) < s._maxRockets
      · rw [if_pos h1, if_pos h2, if_pos h3]
        exact Or.inr ⟨h1, h2, h3, rfl⟩
      · rw [if_pos h1, if_pos h2, if_neg h3]
        exact Or.inl rfl
    · rw [if_pos h1, if_neg h2]
      exact Or.inl rfl
  · rw [if_neg h1]
    exact Or.inl rfl

theorem not_removed_iff (gfx : Gfx) (p : Particle) :
    (!PatternFireworks.removed gfx p) = true ↔ p.life ≤ 50 ∧ p.y < (gfx.MATRIX_HEIGHT : ℚ) := by
  simp [PatternFireworks.removed]

theorem Draw_particles (gfx : Gfx) (fm : FloatMath) (s : PatternFireworks) (rng : RandomSource) :
    (PatternFireworks.Draw gfx fm s rng).state._particles
      = (PatternFireworks.beforeRemoval gfx fm s rng).filter
          (fun p => decide (p.life ≤ 50 ∧ p.y < (gfx.MATRIX_HEIGHT : ℚ))) := by
  unfold PatternFireworks.Draw PatternFireworks.beforeRemoval
  simp only []
  apply List.filter_congr
  intro p _
  rw [Bool.eq_iff_iff, not_removed_iff]
  simp

theorem reachable_particles (gfx : Gfx) (fm : FloatMath) (s : PatternFireworks)
    (h : FireworksReachable gfx fm s) :
    ∀ p ∈ s._particles, p.life ≤ 50 ∧ p.y < (gfx.MATRIX_HEIGHT : ℚ) := by
  induction h with
  | start => intro p hp; simp [PatternFireworks.Start] at hp
  | restart _ _ => intro p hp; simp [PatternFireworks.Start] at hp
  | draw rng _ _ =>
    intro p hp
    rw [Draw_particles, List.mem_filter] at hp
    simpa using hp.2

theorem spawnGate_life (gfx : Gfx) (s : PatternFireworks) (rng : RandomSource)
    (h : ∀ p ∈ s._particles, p.life ≤ 50) :
    ∀ p ∈ (PatternFireworks.spawnGate gfx s rng).1, p.life ≤ 50 := by
  intro p hp
  rcases spawnGate_cases gfx s rng with hg | ⟨-, -, -, hg⟩
  · rw [hg] at hp; exact h p hp
  · rw [hg, List.mem_append, List.mem_singleton] at hp
    rcases hp with hp | hp
    · exact h p hp
    · rw [hp, (makeRocket_fields gfx _).1]; omega

/-- C10: after every `Draw` the particle collection is exactly the
sub-sequence of the post-physics particles (the existing particles followed by
the sparks of this frame) with age at most 50 and `y < MATRIX_HEIGHT`; so in
every state reachable from `Start` every stored particle has age at most 50
and `y < MATRIX_HEIGHT`, the 8-bit increment of the age never wraps, and no
age above 51 ever occurs. -/
theorem removal_pass (gfx : Gfx) (fm : FloatMath) :
    (∀ (s : PatternFireworks) (rng : RandomSource),
      (PatternFireworks.Draw gfx fm s rng).state._particles
        = (PatternFireworks.beforeRemoval gfx fm s rng).filter
            (fun p => decide (p.life ≤ 50 ∧ p.y < (gfx.MATRIX_HEIGHT : ℚ)))) ∧
    (∀ (s : PatternFireworks), FireworksReachable gfx fm s →
      ∀ p ∈ s._particles, p.life ≤ 50 ∧ p.y < (gfx.MATRIX_HEIGHT : ℚ)) ∧
    (∀ (s : PatternFireworks) (rng : RandomSource), FireworksReachable gfx fm s →
      (∀ p ∈ (PatternFireworks.spawnGate gfx s rng).1, (p.life + 1) % 256 = p.life + 1) ∧
      (∀ p ∈ PatternFireworks.beforeRemoval gfx fm s rng, p.life ≤ 51)) := by
  refine ⟨Draw_particles gfx fm, reachable_particles gfx fm, ?_⟩
  intro s rng hreach
  have hgate := spawnGate_life gfx s rng (fun p hp => (reachable_particles gfx fm s hreach p hp).1)
  constructor
  · intro p hp
    have := hgate p hp
    omega
  · intro p hp
    unfold PatternFireworks.beforeRemoval at hp
    simp only [List.mem_append] at hp
    obtain ⟨h1, h2⟩ := physics_life gfx fm s._explosionSize _
      (PatternFireworks.spawnGate gfx s rng).2 hgate
    rcases hp with hp | hp
    · exact h1 p hp
    · rw [h2 p hp]; omega

/-! ## Theorems: the fireworks particle cap -/

theorem random_zero (n : Nat) : random n (fun _ => 0) = (0, fun _ => 0) := by
  simp [random]

theorem randomRange_zero (lo hi : Int) (h : lo < hi) :
    randomRange lo hi (fun _ => 0) = (lo, fun _ => 0) := by
  unfold randomRange
  rw [if_neg (not_le.mpr h), random_zero]
  simp

theorem demoMath_sin_zero : demoMath.sinDeg 0 = 0 := by
  simp [demoMath, sinApprox]

theorem explode_zero (p : Particle) :
    ∀ (n : Nat),
      (PatternFireworks.explode demoMath p n (fun _ => 0)).2 = (fun _ => 0) ∧
      ∀ q ∈ (PatternFireworks.explode demoMath p n (fun _ => 0)).1, q.vy = 0 := by
  intro n
  induction n with
  | zero => simp [PatternFireworks.explode]
  | succ n ih =>
    unfold PatternFireworks.explode
    simp only [randomRange_zero 0 50 (by norm_num), PatternFireworks.makeSpark,
      randomRange_zero 0 360 (by norm_num), randomRange_zero 0 100 (by norm_num), List.mem_cons]
    refine ⟨ih.1, ?_⟩
    intro q hq
    rcases hq with hq | hq
    · rw [hq]; simp [demoMath_sin_zero]
    · exact ih.2 q hq

theorem stepParticle_zero_exploded (gfx : Gfx) (fm : FloatMath) (E : Int) (p : Particle)
    (hex : p.exploded = true) :
    (PatternFireworks.stepParticle gfx fm E p (fun _ => 0)).rng = (fun _ => 0) := by
  simp only [PatternFireworks.stepParticle, hex, Bool.not_true, if_true, Bool.false_eq_true, if_false]
  split_ifs <;> simp [randomRange_zero 0 100 (by norm_num)]

theorem Settled_step (gfx : Gfx) (fm : FloatMath) (E : Int) (p : Particle) (rng : RandomSource)
    (k : Nat) (hk : k ≤ 9) (h : Settled p) (hl : p.life ≤ k) :
    Settled (PatternFireworks.stepParticle gfx fm E p rng).particle ∧
    (PatternFireworks.stepParticle gfx fm E p rng).particle.life ≤ k + 1 := by
  obtain ⟨hex, hvy, hy⟩ := h
  obtain ⟨h1, h2, h3, h4, -, -⟩ := stepParticle_fields gfx fm E p rng
  rw [hex] at h1 h3
  simp only [if_true] at h1 h3
  have hmod : (p.life + 1) % 256 = p.life + 1 := by omega
  rw [hmod] at h1
  refine ⟨⟨h4 hex, ?_, ?_⟩, by omega⟩
  · rw [h3, h1]
    push_cast
    linarith
  · rw [h2, h1]
    push_cast
    nlinarith
/-- The rocket the spawn gate creates when every raw random value is 0. -/
theorem makeRocket_zero :
    PatternFireworks.makeRocket (demoGfx 32 32) (fun _ => 0)
      = ({ x := 0, y := 31, vx := -20 / 100, vy := -(1 / 2), hue := 0, life := 0,
           exploded := false, spark := false }, fun _ => 0) := by
  unfold PatternFireworks.makeRocket
  simp only [demoGfx, randomRange_zero 0 ((32 : Nat) : Int) (by norm_num),
    randomRange_zero (-20) 21 (by norm_num), randomRange_zero 0 50 (by norm_num),
    randomRange_zero 0 255 (by norm_num)]
  norm_num

/-- With every raw random value 0 the new rocket detonates in its first step. -/
theorem stepParticle_zero_rocket :
    (PatternFireworks.stepParticle (demoGfx 32 32) demoMath 30
        (PatternFireworks.makeRocket (demoGfx 32 32) (fun _ => 0)).1 (fun _ => 0)).sparks.length = 30 ∧
    Settled (PatternFireworks.stepParticle (demoGfx 32 32) demoMath 30
        (PatternFireworks.makeRocket (demoGfx 32 32) (fun _ => 0)).1 (fun _ => 0)).particle ∧
    (PatternFireworks.stepParticle (demoGfx 32 32) demoMath 30
        (PatternFireworks.makeRocket (demoGfx 32 32) (fun _ => 0)).1 (fun _ => 0)).particle.life = 0 ∧
    (∀ q ∈ (PatternFireworks.stepParticle (demoGfx 32 32) demoMath 30
        (PatternFireworks.makeRocket (demoGfx 32 32) (fun _ => 0)).1 (fun _ => 0)).sparks,
      Settled q ∧ q.life = 0) := by
  rw [makeRocket_zero]
  have hvy : ¬ ((-(1 / 2) : ℚ) + 1 / 100 ≥ 0) := by norm_num
  simp only [PatternFireworks.stepParticle, Bool.not_false, if_true, hvy, if_false,
    randomRange_zero 0 100 (by norm_num)]
  rw [if_pos (by norm_num)]
  simp only []
  refine ⟨(explode_sparks demoMath _ _ _).1, ?_, by trivial, ?_⟩
  · refine ⟨rfl, ?_, ?_⟩ <;> norm_num
  · intro q hq
    obtain ⟨h1, h2, -, -, h5⟩ := (explode_sparks demoMath _ _ _).2 q hq
    have h6 := (explode_zero _ _).2 q hq
    refine ⟨⟨h2, ?_, ?_⟩, h1⟩
    · rw [h6, h1]; norm_num
    · rw [h5, h1]; norm_num

theorem physics_cons (gfx : Gfx) (fm : FloatMath) (E : Int) (p : Particle) (rest : List Particle)
    (rng : RandomSource) :
    PatternFireworks.physics gfx fm E (p :: rest) rng
      = { particles := (PatternFireworks.stepParticle gfx fm E p rng).particle
            :: (PatternFireworks.physics gfx fm E rest
                (PatternFireworks.stepParticle gfx fm E p rng).rng).particles
          newParticles := (PatternFireworks.stepParticle gfx fm E p rng).sparks
            ++ (PatternFireworks.physics gfx fm E rest
                (PatternFireworks.stepParticle gfx fm E p rng).rng).newParticles
          ops := (PatternFireworks.stepParticle gfx fm E p rng).ops
            ++ (PatternFireworks.physics gfx fm E rest
                (PatternFireworks.stepParticle gfx fm E p rng).rng).ops
          rng := (PatternFireworks.physics gfx fm E rest
                (PatternFireworks.stepParticle gfx fm E p rng).rng).rng } := rfl

/-- The particle loop on settled particles followed by the new rocket, with
every raw random value 0: every particle stays, 30 sparks are created. -/
theorem physics_zero (k : Nat) (hk : k ≤ 9) :
    ∀ (l : List Particle), (∀ p ∈ l, Settled p ∧ p.life ≤ k) →
      (PatternFireworks.physics (demoGfx 32 32) demoMath 30
        (l ++ [(PatternFireworks.makeRocket (demoGfx 32 32) (fun _ => 0)).1]) (fun _ => 0)).particles.length
        = l.length + 1 ∧
      (PatternFireworks.physics (demoGfx 32 32) demoMath 30
        (l ++ [(PatternFireworks.makeRocket (demoGfx 32 32) (fun _ => 0)).1]) (fun _ => 0)).newParticles.length
        = 30 ∧
      (∀ q ∈ (PatternFireworks.physics (demoGfx 32 32) demoMath 30
        (l ++ [(PatternFireworks.makeRocket (demoGfx 32 32) (fun _ => 0)).1]) (fun _ => 0)).particles,
        Settled q ∧ q.life ≤ k + 1) ∧
      (∀ q ∈ (PatternFireworks.physics (demoGfx 32 32) demoMath 30
        (l ++ [(PatternFireworks.makeRocket (demoGfx 32 32) (fun _ => 0)).1]) (fun _ => 0)).newParticles,
        Settled q ∧ q.life ≤ k + 1) := by
  intro l
  induction l with
  | nil =>
    intro _
    obtain ⟨h1, h2, h3, h4⟩ := stepParticle_zero_rocket
    simp only [List.nil_append, PatternFireworks.physics, List.length_cons, List.length_nil,
      List.append_nil, List.mem_singleton]
    refine ⟨by trivial, h1, ?_, ?_⟩
    · intro q hq; rw [hq]; exact ⟨h2, by rw [h3]; omega⟩
    · intro q hq; exact ⟨(h4 q hq).1, by rw [(h4 q hq).2]; omega⟩
  | cons p rest ih =>
    intro h
    obtain ⟨hp, hpl⟩ := h p (List.mem_cons_self _ _)
    obtain ⟨i1, i2, i3, i4⟩ := ih (fun q hq => h q (List.mem_cons_of_mem _ hq))
    have hs := Settled_step (demoGfx 32 32) demoMath 30 p (fun _ => 0) k hk hp hpl
    have hnil := (stepParticle_fields (demoGfx 32 32) demoMath 30 p (fun _ => 0)).2.2.2.2.1 hp.1
    rw [List.cons_append, physics_cons,
      stepParticle_zero_exploded (demoGfx 32 32) demoMath 30 p hp.1, hnil]
    simp only [List.nil_append, List.length_cons, List.mem_cons]
    refine ⟨by omega, i2, ?_, i4⟩
    intro q hq
    rcases hq with hq | hq
    · rw [hq]; exact hs
    · exact i3 q hq

theorem Settled_kept (p : Particle) (k : Nat) (hk : k ≤ 10) (h : Settled p) (hl : p.life ≤ k) :
    (!PatternFireworks.removed (demoGfx 32 32) p) = true := by
  rw [not_removed_iff]
  obtain ⟨-, -, hy⟩ := h
  refine ⟨by omega, ?_⟩
  have h1 : (p.life : ℚ) ≤ 10 := by exact_mod_cast (le_trans hl hk)
  have h0 : (0 : ℚ) ≤ (p.life : ℚ) := by positivity
  have h2 : (p.life : ℚ) ^ 2 ≤ 100 := by nlinarith
  simp only [demoGfx]
  push_cast
  linarith

theorem spawnGate_zero (s : PatternFireworks) (hR : s._maxRockets = 5) (hP : s._maxParticles = 300)
    (hlen : s._particles.length < 300) (hall : ∀ p ∈ s._particles, p.exploded = true) :
    PatternFireworks.spawnGate (demoGfx 32 32) s (fun _ => 0)
      = (s._particles ++ [(PatternFireworks.makeRocket (demoGfx 32 32) (fun _ => 0)).1], fun _ => 0) := by
  have h300 : toU32 300 = 300 := by decide
  have hcount : (s._particles.countP fun p => !p.exploded) = 0 := by
    rw [List.countP_eq_zero]
    intro p hp
    simp [hall p hp]
  unfold PatternFireworks.spawnGate
  simp only [hP, hR, h300, hlen, if_true, randomRange_zero 0 10 (by norm_num), hcount]
  rw [if_pos (by norm_num), if_pos (by norm_num), makeRocket_zero]

/-- One `Draw` of the run in which every raw random value is 0: 31 particles more. -/
theorem Draw_zero_step (s : PatternFireworks) (k : Nat) (hk : k ≤ 9)
    (hR : s._maxRockets = 5) (hP : s._maxParticles = 300) (hE : s._explosionSize = 30)
    (hlen : s._particles.length < 300) (hall : ∀ p ∈ s._particles, Settled p ∧ p.life ≤ k) :
    (PatternFireworks.Draw (demoGfx 32 32) demoMath s (fun _ => 0)).state._maxRockets = 5 ∧
    (PatternFireworks.Draw (demoGfx 32 32) demoMath s (fun _ => 0)).state._maxParticles = 300 ∧
    (PatternFireworks.Draw (demoGfx 32 32) demoMath s (fun _ => 0)).state._explosionSize = 30 ∧
    (PatternFireworks.Draw (demoGfx 32 32) demoMath s (fun _ => 0)).state._particles.length
      = s._particles.length + 31 ∧
    (∀ p ∈ (PatternFireworks.Draw (demoGfx 32 32) demoMath s (fun _ => 0)).state._particles,
      Settled p ∧ p.life ≤ k + 1) := by
  obtain ⟨h1, h2, h3, h4⟩ := physics_zero k hk s._particles hall
  have hgate := spawnGate_zero s hR hP hlen (fun p hp => (hall p hp).1.1)
  have hall2 : ∀ q ∈ (PatternFireworks.physics (demoGfx 32 32) demoMath 30
        (s._particles ++ [(PatternFireworks.makeRocket (demoGfx 32 32) (fun _ => 0)).1])
        (fun _ => 0)).particles ++ (PatternFireworks.physics (demoGfx 32 32) demoMath 30
        (s._particles ++ [(PatternFireworks.makeRocket (demoGfx 32 32) (fun _ => 0)).1])
        (fun _ => 0)).newParticles, Settled q ∧ q.life ≤ k + 1 := by
    intro q hq
    rcases List.mem_append.mp hq with hq | hq
    · exact h3 q hq
    · exact h4 q hq
  have hfilter : (PatternFireworks.Draw (demoGfx 32 32) demoMath s (fun _ => 0)).state._particles
      = (PatternFireworks.physics (demoGfx 32 32) demoMath 30
        (s._particles ++ [(PatternFireworks.makeRocket (demoGfx 32 32) (fun _ => 0)).1])
        (fun _ => 0)).particles ++ (PatternFireworks.physics (demoGfx 32 32) demoMath 30
        (s._particles ++ [(PatternFireworks.makeRocket (demoGfx 32 32) (fun _ => 0)).1])
        (fun _ => 0)).newParticles := by
    unfold PatternFireworks.Draw
    simp only [hgate, hE]
    rw [List.filter_eq_self]
    intro q hq
    exact Settled_kept q (k + 1) (by omega) (hall2 q hq).1 (hall2 q hq).2
  refine ⟨hR, hP, hE, ?_, ?_⟩
  · rw [hfilter, List.length_append, h1, h2]
  · rw [hfilter]; exact hall2

/-- After `k ≤ 10` calls of `Draw` with every raw random value 0 there are `31 * k` particles. -/
theorem zeroRun_particles (k : Nat) (hk : k ≤ 10) :
    (zeroRun k)._maxRockets = 5 ∧ (zeroRun k)._maxParticles = 300 ∧
    (zeroRun k)._explosionSize = 30 ∧ (zeroRun k)._particles.length = 31 * k ∧
    (∀ p ∈ (zeroRun k)._particles, Settled p ∧ p.life ≤ k) := by
  induction k with
  | zero =>
    refine ⟨rfl, rfl, rfl, rfl, ?_⟩
    intro p hp
    simp [zeroRun, PatternFireworks.Start] at hp
  | succ k ih =>
    obtain ⟨hR, hP, hE, hlen, hall⟩ := ih (by omega)
    obtain ⟨a, b, c, d, e⟩ := Draw_zero_step (zeroRun k) k (by omega) hR hP hE (by omega) hall
    refine ⟨a, b, c, ?_, e⟩
    show (PatternFireworks.Draw (demoGfx 32 32) demoMath (zeroRun k) (fun _ => 0)).state._particles.length
      = 31 * (k + 1)
    rw [d, hlen]
    ring

theorem zeroRun_reachable (k : Nat) : FireworksReachable (demoGfx 32 32) demoMath (zeroRun k) := by
  induction k with
  | zero => exact FireworksReachable.start
  | succ k ih => exact FireworksReachable.draw _ ih

/-- C9 as stated fails: ten calls of `Draw` after `Start`, in each of which
a rocket is spawned and detonates at once, leave 310 particles although
`_maxParticles` is 300; the particles are not removed by the removal pass, and
the count after the spawn gate of the next `Draw` is still 310. -/
theorem particle_cap_exceeded :
    FireworksReachable (demoGfx 32 32) demoMath (zeroRun 10) ∧
    (zeroRun 10)._maxParticles = 300 ∧
    (zeroRun 10)._particles.length = 310 ∧
    (PatternFireworks.spawnGate (demoGfx 32 32) (zeroRun 10) (fun _ => 0)).1.length = 310 :=
  ⟨zeroRun_reachable 10, (zeroRun_particles 10 (by norm_num)).2.1,
    (zeroRun_particles 10 (by norm_num)).2.2.2.1, by
      have h := zeroRun_particles 10 (by norm_num)
      have hgate : PatternFireworks.spawnGate (demoGfx 32 32) (zeroRun 10) (fun _ => 0)
          = ((zeroRun 10)._particles, fun _ => 0) := by
        unfold PatternFireworks.spawnGate
        rw [if_neg]
        rw [h.2.1, h.2.2.2.1]
        decide
      rw [hgate]
      exact h.2.2.2.1⟩

/-- C9, as the code has it: for `0 ≤ _maxParticles`, the spawn gate skips the
spawn once the particle count has reached `_maxParticles` and otherwise
appends at most one rocket; so the count right after the spawn gate is at most
the larger of `_maxParticles` and the count at the start of that `Draw`, and
at most `_maxParticles` whenever the `Draw` starts with at most
`_maxParticles` particles, as the first `Draw` after `Start` does. -/
theorem spawnGate_count (gfx : Gfx) (s : PatternFireworks) (rng : RandomSource)
    (h0 : 0 ≤ s._maxParticles) (h1 : s._maxParticles ≤ 2147483647) :
    (s._maxParticles ≤ (s._particles.length : Int) →
      (PatternFireworks.spawnGate gfx s rng).1 = s._particles) ∧
    (PatternFireworks.spawnGate gfx s rng).1.length ≤ s._particles.length + 1 ∧
    ((PatternFireworks.spawnGate gfx s rng).1.length : Int)
      ≤ max (s._particles.length : Int) s._maxParticles ∧
    ((s._particles.length : Int) ≤ s._maxParticles →
      ((PatternFireworks.spawnGate gfx s rng).1.length : Int) ≤ s._maxParticles) ∧
    ((PatternFireworks.spawnGate gfx (PatternFireworks.Start s) rng).1.length : Int)
      ≤ s._maxParticles := by
  obtain ⟨n, hn⟩ := Int.eq_ofNat_of_zero_le h0
  have hcast : toU32 s._maxParticles = n := by
    rw [hn]; exact toU32_natCast n (by omega)
  have hstart : ((PatternFireworks.spawnGate gfx (PatternFireworks.Start s) rng).1.length : Int)
      ≤ s._maxParticles := by
    rcases spawnGate_cases gfx (PatternFireworks.Start s) rng with hg | ⟨hlt, -, -, hg⟩
    · rw [hg]; simpa [PatternFireworks.Start] using h0
    · rw [hg]
      have hlt2 : (PatternFireworks.Start s)._particles.length < n := by
        have : toU32 (PatternFireworks.Start s)._maxParticles = n := hcast
        rw [this] at hlt; exact hlt
      simp only [PatternFireworks.Start, List.length_nil, List.nil_append, List.length_singleton] at hlt2 ⊢
      rw [hn]
      exact_mod_cast hlt2
  rcases spawnGate_cases gfx s rng with hg | ⟨hlt, -, -, hg⟩
  · rw [hg]
    exact ⟨fun _ => rfl, by omega, le_max_left _ _, fun h => h, hstart⟩
  · rw [hcast] at hlt
    rw [hg]
    simp only [List.length_append, List.length_singleton]
    refine ⟨?_, le_refl _, ?_, ?_, hstart⟩
    · intro h; rw [hn] at h; omega
    · rw [hn]; push_cast; omega
    · intro _; rw [hn]; push_cast; omega

/-- Worked example of C9 as the code has it: the first `Draw` after `Start`. -/
theorem spawnGate_count_witness :
    (0 : Int) ≤ (PatternFireworks.Start PatternFireworks.new)._maxParticles ∧
    (PatternFireworks.Start PatternFireworks.new)._maxParticles ≤ 2147483647 ∧
    ((PatternFireworks.spawnGate (demoGfx 32 32) (PatternFireworks.Start PatternFireworks.new)
        (fun _ => 0)).1.length : Int) ≤ (PatternFireworks.Start PatternFireworks.new)._maxParticles :=
  ⟨by decide, by decide,
    (spawnGate_count (demoGfx 32 32) (PatternFireworks.Start PatternFireworks.new) (fun _ => 0)
      (by decide) (by decide)).2.2.2.1 (by decide)⟩

/-- Worked example of C10: the particles left by the first `Draw` of the run
in which every raw random value is 0. -/
theorem removal_pass_witness :
    FireworksReachable (demoGfx 32 32) demoMath (zeroRun 1) ∧
    ∀ p ∈ (zeroRun 1)._particles, p.life ≤ 50 ∧ p.y < ((demoGfx 32 32).MATRIX_HEIGHT : ℚ) :=
  ⟨zeroRun_reachable 1, (removal_pass (demoGfx 32 32) demoMath).2.1 (zeroRun 1) (zeroRun_reachable 1)⟩

/-! ## Theorems: binary32 rounding -/

theorem pow2_eq (i : Int) : pow2 i = (2 : ℚ) ^ i := by
  unfold pow2
  split
  · rename_i h
    have : i = ((i.toNat : Nat) : Int) := (Int.toNat_of_nonneg h).symm
    conv_rhs => rw [this]
    rw [zpow_natCast]
    push_cast
    rfl
  · rename_i h
    have h' : 0 ≤ -i := by omega
    have : i = -(((-i).toNat : Nat) : Int) := by rw [Int.toNat_of_nonneg h']; ring
    conv_rhs => rw [this]
    rw [zpow_neg, zpow_natCast]
    push_cast
    rw [one_div]

theorem pow2_pos (i : Int) : 0 < pow2 i := by
  rw [pow2_eq]; positivity

theorem ilog2_eq (q : ℚ) (hq : q ≠ 0) : ilog2 q = Int.log 2 |q| := by
  have hpos : 0 < |q| := abs_pos.mpr hq
  have key : ∀ g : Int, pow2 g ≤ |q| → |q| < pow2 (g + 1) → g = Int.log 2 |q| := by
    intro g h1 h2
    rw [pow2_eq] at h1 h2
    have a := (Int.zpow_le_iff_le_log (b := 2) (by norm_num) hpos).mp (by exact_mod_cast h1)
    have b := (Int.lt_zpow_iff_log_lt (b := 2) (by norm_num) hpos).mp (by exact_mod_cast h2)
    omega
  unfold ilog2
  simp only []
  split
  · rename_i h; exact key _ h.1 h.2
  · split
    · rename_i h
      exact key _ h.1 (by rw [sub_add_cancel]; exact h.2)
    · rfl

theorem ilog2_spec (q : ℚ) (hq : q ≠ 0) :
    (2 : ℚ) ^ ilog2 q ≤ |q| ∧ |q| < (2 : ℚ) ^ (ilog2 q + 1) := by
  have hpos : 0 < |q| := abs_pos.mpr hq
  rw [ilog2_eq q hq]
  constructor
  · exact_mod_cast Int.zpow_log_le_self (b := 2) (by norm_num) hpos
  · exact_mod_cast Int.lt_zpow_succ_log_self (b := 2) (by norm_num) |q|

theorem ilog2_mono (a b : ℚ) (ha : a ≠ 0) (hab : |a| ≤ |b|) : ilog2 a ≤ ilog2 b := by
  have hb : b ≠ 0 := by
    intro h; rw [h, abs_zero] at hab
    exact ha (abs_eq_zero.mp (le_antisymm hab (abs_nonneg a)))
  rw [ilog2_eq a ha, ilog2_eq b hb]
  exact Int.log_mono_right (abs_pos.mpr ha) hab

theorem ilog2_neg (q : ℚ) (hq : q ≠ 0) : ilog2 (-q) = ilog2 q := by
  rw [ilog2_eq q hq, ilog2_eq (-q) (neg_ne_zero.mpr hq), abs_neg]

theorem roundNE_intCast (n : Int) : roundNE (n : ℚ) = n := by
  unfold roundNE
  rw [Int.floor_intCast, sub_self, if_pos (by norm_num)]

theorem roundNE_cases (q : ℚ) :
    (roundNE q = Int.floor q ∧ q - Int.floor q ≤ 1 / 2) ∨
    (roundNE q = Int.floor q + 1 ∧ 1 / 2 ≤ q - Int.floor q) := by
  unfold roundNE
  by_cases h1 : q - Int.floor q < 1 / 2
  · rw [if_pos h1]; exact Or.inl ⟨rfl, le_of_lt h1⟩
  · rw [if_neg h1]
    by_cases h2 : 1 / 2 < q - Int.floor q
    · rw [if_pos h2]; exact Or.inr ⟨rfl, le_of_lt h2⟩
    · rw [if_neg h2]
      have he : q - Int.floor q = 1 / 2 := le_antisymm (not_lt.mp h2) (not_lt.mp h1)
      by_cases h3 : Int.floor q % 2 = 0
      · rw [if_pos h3]; exact Or.inl ⟨rfl, le_of_eq he⟩
      · rw [if_neg h3]; exact Or.inr ⟨rfl, le_of_eq he.symm⟩

theorem roundNE_err (q : ℚ) : |(roundNE q : ℚ) - q| ≤ 1 / 2 := by
  have h0 := Int.floor_le q
  have h1 := Int.lt_floor_add_one q
  rw [abs_le]
  rcases roundNE_cases q with ⟨h, hr⟩ | ⟨h, hr⟩
  · rw [h]; constructor <;> linarith
  · rw [h]; push_cast; constructor <;> linarith

theorem roundNE_tie (q : ℚ) :
    (roundNE q = Int.floor q ∧
      (q - Int.floor q < 1 / 2 ∨ (q - Int.floor q = 1 / 2 ∧ Int.floor q % 2 = 0))) ∨
    (roundNE q = Int.floor q + 1 ∧
      (1 / 2 < q - Int.floor q ∨ (q - Int.floor q = 1 / 2 ∧ Int.floor q % 2 ≠ 0))) := by
  unfold roundNE
  by_cases h1 : q - Int.floor q < 1 / 2
  · rw [if_pos h1]; exact Or.inl ⟨rfl, Or.inl h1⟩
  · rw [if_neg h1]
    by_cases h2 : 1 / 2 < q - Int.floor q
    · rw [if_pos h2]; exact Or.inr ⟨rfl, Or.inl h2⟩
    · rw [if_neg h2]
      have he : q - Int.floor q = 1 / 2 := le_antisymm (not_lt.mp h2) (not_lt.mp h1)
      by_cases h3 : Int.floor q % 2 = 0
      · rw [if_pos h3]; exact Or.inl ⟨rfl, Or.inr ⟨he, h3⟩⟩
      · rw [if_neg h3]; exact Or.inr ⟨rfl, Or.inr ⟨he, h3⟩⟩

theorem roundNE_mono (a b : ℚ) (hab : a ≤ b) : roundNE a ≤ roundNE b := by
  have hfl : Int.floor a ≤ Int.floor b := Int.floor_mono hab
  rcases lt_or_eq_of_le hfl with hlt | heq
  · have ha : roundNE a ≤ Int.floor a + 1 := by
      rcases roundNE_cases a with ⟨h, -⟩ | ⟨h, -⟩ <;> omega
    have hb : Int.floor b ≤ roundNE b := by
      rcases roundNE_cases b with ⟨h, -⟩ | ⟨h, -⟩ <;> omega
    omega
  · have hr : a - Int.floor a ≤ b - Int.floor b := by rw [heq]; linarith
    rcases roundNE_tie a with ⟨ha, -⟩ | ⟨ha, ha2⟩
    · rcases roundNE_cases b with ⟨hb, -⟩ | ⟨hb, -⟩ <;> omega
    · rcases roundNE_tie b with ⟨hb, hb2⟩ | ⟨hb, -⟩
      · exfalso
        rcases ha2 with ha2 | ⟨ha2, ha3⟩
        · rcases hb2 with hb2 | ⟨hb2, -⟩ <;> linarith
        · rcases hb2 with hb2 | ⟨hb2, hb3⟩
          · linarith
          · rw [heq] at ha3; exact ha3 hb3
      · omega

theorem roundNE_neg (q : ℚ) : roundNE (-q) = -roundNE q := by
  by_cases hint : (Int.floor q : ℚ) = q
  · rw [← hint, ← Int.cast_neg, roundNE_intCast, roundNE_intCast]
  · have h0 := Int.floor_le q
    have h1 := Int.lt_floor_add_one q
    have hlt : (Int.floor q : ℚ) < q := lt_of_le_of_ne h0 hint
    have hfl : Int.floor (-q) = -Int.floor q - 1 := by
      rw [Int.floor_eq_iff]
      push_cast
      constructor <;> linarith
    unfold roundNE
    rw [hfl]
    push_cast
    by_cases a1 : q - Int.floor q < 1 / 2
    · rw [if_pos a1, if_neg (by linarith), if_pos (by linarith)]
      ring
    · rw [if_neg a1]
      by_cases a2 : 1 / 2 < q - Int.floor q
      · rw [if_pos a2, if_pos (by linarith)]
        ring
      · rw [if_neg a2, if_neg (by linarith), if_neg (by linarith)]
        by_cases a3 : Int.floor q % 2 = 0
        · rw [if_pos a3, if_neg (by omega)]
          ring
        · rw [if_neg a3, if_pos (by omega)]
          ring

theorem roundNE_nonneg (q : ℚ) (h : 0 ≤ q) : 0 ≤ roundNE q := by
  have := roundNE_mono 0 q h
  rwa [show (0 : ℚ) = ((0 : Int) : ℚ) by norm_num, roundNE_intCast] at this

theorem f32_zero : f32 0 = 0 := by
  simp [f32]

theorem f32_of_ne (q : ℚ) (hq : q ≠ 0) :
    f32 q = (roundNE (q / (2 : ℚ) ^ (max (ilog2 q) (-126) - 23)) : ℚ)
      * (2 : ℚ) ^ (max (ilog2 q) (-126) - 23) := by
  unfold f32
  rw [if_neg hq, pow2_eq]

theorem f32_neg (q : ℚ) : f32 (-q) = -f32 q := by
  by_cases hq : q = 0
  · subst hq; simp [f32_zero]
  · rw [f32_of_ne _ (neg_ne_zero.mpr hq), f32_of_ne _ hq, ilog2_neg q hq, neg_div, roundNE_neg]
    push_cast
    ring

theorem f32_nonneg (q : ℚ) (h : 0 ≤ q) : 0 ≤ f32 q := by
  by_cases hq : q = 0
  · subst hq; rw [f32_zero]
  · rw [f32_of_ne _ hq]
    have hp : (0 : ℚ) < (2 : ℚ) ^ (max (ilog2 q) (-126) - 23) := by positivity
    have : 0 ≤ roundNE (q / (2 : ℚ) ^ (max (ilog2 q) (-126) - 23)) :=
      roundNE_nonneg _ (div_nonneg h (le_of_lt hp))
    have h2 : (0 : ℚ) ≤ (roundNE (q / (2 : ℚ) ^ (max (ilog2 q) (-126) - 23)) : ℚ) := by
      exact_mod_cast this
    exact mul_nonneg h2 (le_of_lt hp)

theorem f32_nonpos (q : ℚ) (h : q ≤ 0) : f32 q ≤ 0 := by
  have := f32_nonneg (-q) (by linarith)
  rw [f32_neg] at this
  linarith

theorem zpow_split (e : Int) : (2 : ℚ) ^ (e + 1) = 16777216 * (2 : ℚ) ^ (e - 23) := by
  rw [show e + 1 = 24 + (e - 23) by ring, zpow_add₀ (by norm_num)]
  norm_num

theorem zpow_split_low (e : Int) : (2 : ℚ) ^ e = 8388608 * (2 : ℚ) ^ (e - 23) := by
  rw [show e = 23 + (e - 23) by ring, zpow_add₀ (by norm_num)]
  norm_num

theorem f32_mono_pos (a b : ℚ) (ha : 0 < a) (hab : a ≤ b) : f32 a ≤ f32 b := by
  have hb : 0 < b := lt_of_lt_of_le ha hab
  have hane : a ≠ 0 := ne_of_gt ha
  have hbne : b ≠ 0 := ne_of_gt hb
  have hlog : ilog2 a ≤ ilog2 b :=
    ilog2_mono a b hane (by rw [abs_of_pos ha, abs_of_pos hb]; exact hab)
  have hE : max (ilog2 a) (-126) ≤ max (ilog2 b) (-126) := max_le_max hlog (le_refl _)
  rw [f32_of_ne a hane, f32_of_ne b hbne]
  rcases lt_or_eq_of_le hE with hlt | heq
  · -- different binades
    have hpa : (0 : ℚ) < (2 : ℚ) ^ (max (ilog2 a) (-126) - 23) := by positivity
    have hpb : (0 : ℚ) < (2 : ℚ) ^ (max (ilog2 b) (-126) - 23) := by positivity
    have hbE : max (ilog2 b) (-126) = ilog2 b := by
      apply max_eq_left
      have : -126 ≤ max (ilog2 a) (-126) := le_max_right _ _
      rcases le_total (ilog2 b) (-126) with h | h
      · rw [max_eq_right h] at hlt; omega
      · exact h
    have ha1 : a < (2 : ℚ) ^ (max (ilog2 a) (-126) + 1) := by
      have h1 := (ilog2_spec a hane).2
      rw [abs_of_pos ha] at h1
      have h2 : (2 : ℚ) ^ (ilog2 a + 1) ≤ (2 : ℚ) ^ (max (ilog2 a) (-126) + 1) :=
        zpow_le_zpow_right₀ (by norm_num) (by have := le_max_left (ilog2 a) (-126); omega)
      linarith
    have hb1 : (2 : ℚ) ^ (max (ilog2 b) (-126)) ≤ b := by
      have h1 := (ilog2_spec b hbne).1
      rw [abs_of_pos hb] at h1
      rw [hbE]; exact h1
    have hA : (roundNE (a / (2 : ℚ) ^ (max (ilog2 a) (-126) - 23)) : ℚ) ≤ 16777216 := by
      have h1 : a / (2 : ℚ) ^ (max (ilog2 a) (-126) - 23) ≤ ((16777216 : Int) : ℚ) := by
        rw [div_le_iff₀ hpa]
        rw [zpow_split] at ha1
        push_cast
        linarith
      have h2 := roundNE_mono _ _ h1
      rw [roundNE_intCast] at h2
      exact_mod_cast h2
    have hB : (8388608 : ℚ) ≤ (roundNE (b / (2 : ℚ) ^ (max (ilog2 b) (-126) - 23)) : ℚ) := by
      have h1 : ((8388608 : Int) : ℚ) ≤ b / (2 : ℚ) ^ (max (ilog2 b) (-126) - 23) := by
        rw [le_div_iff₀ hpb]
        rw [zpow_split_low] at hb1
        push_cast
        linarith
      have h2 := roundNE_mono _ _ h1
      rw [roundNE_intCast] at h2
      exact_mod_cast h2
    have hmid : (2 : ℚ) ^ (max (ilog2 a) (-126) + 1) ≤ (2 : ℚ) ^ (max (ilog2 b) (-126)) :=
      zpow_le_zpow_right₀ (by norm_num) (by omega)
    calc (roundNE (a / (2 : ℚ) ^ (max (ilog2 a) (-126) - 23)) : ℚ)
          * (2 : ℚ) ^ (max (ilog2 a) (-126) - 23)
        ≤ 16777216 * (2 : ℚ) ^ (max (ilog2 a) (-126) - 23) :=
          mul_le_mul_of_nonneg_right hA (le_of_lt hpa)
      _ = (2 : ℚ) ^ (max (ilog2 a) (-126) + 1) := (zpow_split _).symm
      _ ≤ (2 : ℚ) ^ (max (ilog2 b) (-126)) := hmid
      _ = 8388608 * (2 : ℚ) ^ (max (ilog2 b) (-126) - 23) := zpow_split_low _
      _ ≤ (roundNE (b / (2 : ℚ) ^ (max (ilog2 b) (-126) - 23)) : ℚ)
          * (2 : ℚ) ^ (max (ilog2 b) (-126) - 23) :=
          mul_le_mul_of_nonneg_right hB (le_of_lt hpb)
  · rw [← heq]
    have hp : (0 : ℚ) < (2 : ℚ) ^ (max (ilog2 a) (-126) - 23) := by positivity
    have h1 : a / (2 : ℚ) ^ (max (ilog2 a) (-126) - 23) ≤ b / (2 : ℚ) ^ (max (ilog2 a) (-126) - 23) :=
      div_le_div_of_nonneg_right hab (le_of_lt hp)
    have h2 : (roundNE (a / (2 : ℚ) ^ (max (ilog2 a) (-126) - 23)) : ℚ)
        ≤ (roundNE (b / (2 : ℚ) ^ (max (ilog2 a) (-126) - 23)) : ℚ) := by
      exact_mod_cast roundNE_mono _ _ h1
    exact mul_le_mul_of_nonneg_right h2 (le_of_lt hp)

/-- Rounding to binary32 is monotone. -/
theorem f32_mono (a b : ℚ) (hab : a ≤ b) : f32 a ≤ f32 b := by
  rcases lt_trichotomy a 0 with ha | ha | ha
  · rcases lt_or_le b 0 with hb | hb
    · have := f32_mono_pos (-b) (-a) (by linarith) (by linarith)
      rw [f32_neg, f32_neg] at this
      linarith
    · exact le_trans (f32_nonpos a (le_of_lt ha)) (f32_nonneg b hb)
  · subst ha
    rw [f32_zero]
    exact f32_nonneg b hab
  · exact f32_mono_pos a b ha hab

/-- A number with at most 24 significant bits and an exponent in range is a
binary32 value. -/
theorem f32_scaled (m j : Int) (hm : |m| < 16777216) (hj : -149 ≤ j) :
    f32 ((m : ℚ) * (2 : ℚ) ^ j) = (m : ℚ) * (2 : ℚ) ^ j := by
  by_cases hm0 : m = 0
  · subst hm0; simp [f32_zero]
  have hpj : (0 : ℚ) < (2 : ℚ) ^ j := by positivity
  have hq : (m : ℚ) * (2 : ℚ) ^ j ≠ 0 :=
    mul_ne_zero (by exact_mod_cast hm0) (ne_of_gt hpj)
  have habs : |(m : ℚ) * (2 : ℚ) ^ j| = |(m : ℚ)| * (2 : ℚ) ^ j := by
    rw [abs_mul, abs_of_pos hpj]
  have hmq : |(m : ℚ)| < 16777216 := by
    have : ((|m| : Int) : ℚ) < ((16777216 : Int) : ℚ) := by exact_mod_cast hm
    simpa using this
  -- the exponent is at most j + 23
  have hlog : ilog2 ((m : ℚ) * (2 : ℚ) ^ j) ≤ j + 23 := by
    by_contra hcon
    have h1 := (ilog2_spec _ hq).1
    have h2 : (2 : ℚ) ^ (j + 24) ≤ (2 : ℚ) ^ ilog2 ((m : ℚ) * (2 : ℚ) ^ j) :=
      zpow_le_zpow_right₀ (by norm_num) (by omega)
    rw [habs] at h1
    have h3 : (2 : ℚ) ^ (j + 24) = 16777216 * (2 : ℚ) ^ j := by
      rw [show j + 24 = 24 + j by ring, zpow_add₀ (by norm_num)]
      norm_num
    have h4 : |(m : ℚ)| * (2 : ℚ) ^ j < 16777216 * (2 : ℚ) ^ j :=
      mul_lt_mul_of_pos_right hmq hpj
    linarith
  have hE : max (ilog2 ((m : ℚ) * (2 : ℚ) ^ j)) (-126) - 23 ≤ j := by
    have := max_le hlog (show (-126 : Int) ≤ j + 23 by omega)
    omega
  obtain ⟨d, hd⟩ : ∃ d : Nat, j = (max (ilog2 ((m : ℚ) * (2 : ℚ) ^ j)) (-126) - 23) + (d : Int) :=
    ⟨(j - (max (ilog2 ((m : ℚ) * (2 : ℚ) ^ j)) (-126) - 23)).toNat, by omega⟩
  rw [f32_of_ne _ hq]
  have hp : (2 : ℚ) ^ (max (ilog2 ((m : ℚ) * (2 : ℚ) ^ j)) (-126) - 23) ≠ 0 := by positivity
  have hquot : (m : ℚ) * (2 : ℚ) ^ j / (2 : ℚ) ^ (max (ilog2 ((m : ℚ) * (2 : ℚ) ^ j)) (-126) - 23)
      = ((m * 2 ^ d : Int) : ℚ) := by
    rw [div_eq_iff hp]
    conv_lhs => rw [hd]
    rw [zpow_add₀ (by norm_num), zpow_natCast]
    push_cast
    ring
  rw [hquot, roundNE_intCast]
  conv_rhs => rw [hd]
  rw [zpow_add₀ (by norm_num), zpow_natCast]
  push_cast
  ring

/-- The integers up to `2 ^ 24` in magnitude are binary32 values. -/
theorem f32_intCast (n : Int) (hn : |n| ≤ 16777216) : f32 (n : ℚ) = n := by
  rcases lt_or_eq_of_le hn with h | h
  · have := f32_scaled n 0 h (by norm_num)
    simpa using this
  · rcases abs_eq (by norm_num : (0 : Int) ≤ 16777216) |>.mp h with h1 | h1
    · have := f32_scaled 8388608 1 (by norm_num) (by norm_num)
      rw [h1]
      norm_num at this ⊢
      exact this
    · have := f32_scaled (-8388608) 1 (by norm_num) (by norm_num)
      rw [h1]
      norm_num at this ⊢
      exact this

theorem f32_natCast (n : Nat) (hn : n ≤ 16777216) : f32 (n : ℚ) = n := by
  have := f32_intCast (n : Int) (by rw [abs_of_nonneg (by positivity)]; exact_mod_cast hn)
  simpa using this

/-- In the normal range the relative error of rounding to binary32 is at most `2 ^ -24`. -/
theorem f32_err (q : ℚ) (hq : (2 : ℚ) ^ (-126 : Int) ≤ |q|) :
    |f32 q - q| ≤ |q| / 16777216 := by
  have hne : q ≠ 0 := by
    intro h
    rw [h, abs_zero] at hq
    have : (0 : ℚ) < (2 : ℚ) ^ (-126 : Int) := by positivity
    linarith
  have hlog : -126 ≤ ilog2 q := by
    rw [ilog2_eq q hne]
    exact (Int.zpow_le_iff_le_log (b := 2) (by norm_num) (abs_pos.mpr hne)).mp (by exact_mod_cast hq)
  rw [f32_of_ne q hne, max_eq_left hlog]
  have hp : (0 : ℚ) < (2 : ℚ) ^ (ilog2 q - 23) := by positivity
  have herr := roundNE_err (q / (2 : ℚ) ^ (ilog2 q - 23))
  have hspec := (ilog2_spec q hne).1
  rw [zpow_split_low] at hspec
  have heq : (roundNE (q / (2 : ℚ) ^ (ilog2 q - 23)) : ℚ) * (2 : ℚ) ^ (ilog2 q - 23) - q
      = ((roundNE (q / (2 : ℚ) ^ (ilog2 q - 23)) : ℚ) - q / (2 : ℚ) ^ (ilog2 q - 23))
        * (2 : ℚ) ^ (ilog2 q - 23) := by
    field_simp
  rw [heq, abs_mul, abs_of_pos hp]
  have h1 : |(roundNE (q / (2 : ℚ) ^ (ilog2 q - 23)) : ℚ) - q / (2 : ℚ) ^ (ilog2 q - 23)|
      * (2 : ℚ) ^ (ilog2 q - 23) ≤ 1 / 2 * (2 : ℚ) ^ (ilog2 q - 23) :=
    mul_le_mul_of_nonneg_right herr (le_of_lt hp)
  rw [le_div_iff₀ (by norm_num)]
  linarith

/-- The constant `0.10f`. -/
theorem f32_tenth : f32 (1 / 10) = 13421773 / 134217728 := by
  decide!

theorem f32_one : f32 1 = 1 := by
  have := f32_intCast 1 (by norm_num)
  simpa using this

theorem f32_255 : f32 255 = 255 := by
  have := f32_intCast 255 (by norm_num)
  simpa using this

theorem ilog2_unique (q : ℚ) (hq : q ≠ 0) (g : Int) (h1 : (2 : ℚ) ^ g ≤ |q|)
    (h2 : |q| < (2 : ℚ) ^ (g + 1)) : ilog2 q = g := by
  have hpos : 0 < |q| := abs_pos.mpr hq
  rw [ilog2_eq q hq]
  have a := (Int.zpow_le_iff_le_log (b := 2) (by norm_num) hpos).mp (by exact_mod_cast h1)
  have b := (Int.lt_zpow_iff_log_lt (b := 2) (by norm_num) hpos).mp (by exact_mod_cast h2)
  omega

theorem roundNE_div_nat (a b : Nat) (hb : 0 < b) :
    roundNE ((a : ℚ) / (b : ℚ)) = (roundDivNat a b : Int) := by
  have hbq : (0 : ℚ) < (b : ℚ) := by exact_mod_cast hb
  have hfl : Int.floor ((a : ℚ) / (b : ℚ)) = ((a / b : Nat) : Int) := by
    rw [Rat.floor_natCast_div_natCast]
    exact (Int.natCast_div a b).symm
  have hsplit : (a : ℚ) = (b : ℚ) * ((a / b : Nat) : ℚ) + ((a % b : Nat) : ℚ) := by
    exact_mod_cast (Nat.div_add_mod a b).symm
  have hfrac : (a : ℚ) / (b : ℚ) - (((a / b : Nat) : Int) : ℚ) = ((a % b : Nat) : ℚ) / (b : ℚ) := by
    have : (a : ℚ) / (b : ℚ) * (b : ℚ) = (a : ℚ) := by field_simp
    rw [eq_div_iff (ne_of_gt hbq), Int.cast_natCast, sub_mul, this]
    linarith [hsplit]
  have c1 : ((a % b : Nat) : ℚ) / (b : ℚ) < 1 / 2 ↔ 2 * (a % b) < b := by
    rw [div_lt_iff₀ hbq]
    constructor
    · intro h
      have : (2 : ℚ) * ((a % b : Nat) : ℚ) < (b : ℚ) := by linarith
      exact_mod_cast this
    · intro h
      have : (2 : ℚ) * ((a % b : Nat) : ℚ) < (b : ℚ) := by exact_mod_cast h
      linarith
  have c2 : 1 / 2 < ((a % b : Nat) : ℚ) / (b : ℚ) ↔ b < 2 * (a % b) := by
    rw [lt_div_iff₀ hbq]
    constructor
    · intro h
      have : (b : ℚ) < (2 : ℚ) * ((a % b : Nat) : ℚ) := by linarith
      exact_mod_cast this
    · intro h
      have : (b : ℚ) < (2 : ℚ) * ((a % b : Nat) : ℚ) := by exact_mod_cast h
      linarith
  unfold roundNE roundDivNat
  rw [hfl, hfrac]
  by_cases h1 : 2 * (a % b) < b
  · rw [if_pos (c1.mpr h1), if_pos h1]
  · rw [if_neg (fun h => h1 (c1.mp h)), if_neg h1]
    by_cases h2 : b < 2 * (a % b)
    · rw [if_pos (c2.mpr h2), if_pos h2]
      push_cast
      rfl
    · rw [if_neg (fun h => h2 (c2.mp h)), if_neg h2]
      by_cases h3 : a / b % 2 = 0
      · rw [if_pos h3, if_pos (by omega)]
      · rw [if_neg h3, if_neg (by omega)]
        push_cast
        rfl

theorem shift24_spec (n : Nat) (h : 2 ^ 24 ≤ n) :
    2 ^ (23 + shift24 n) ≤ n ∧ n < 2 ^ (24 + shift24 n) := by
  unfold shift24
  split_ifs with h1 h2 h3 h4 h5 h6 h7 h8
  · exact ⟨h, h1⟩
  · exact ⟨not_lt.mp h1, h2⟩
  · exact ⟨not_lt.mp h2, h3⟩
  · exact ⟨not_lt.mp h3, h4⟩
  · exact ⟨not_lt.mp h4, h5⟩
  · exact ⟨not_lt.mp h5, h6⟩
  · exact ⟨not_lt.mp h6, h7⟩
  · exact ⟨not_lt.mp h7, h8⟩
  · have hn : n ≠ 0 := by
      have : 0 < 2 ^ 24 := by norm_num
      omega
    have hL : 32 ≤ Nat.log 2 n := Nat.le_log_of_pow_le (by norm_num) (not_lt.mp h8)
    have e1 : 23 + (Nat.log 2 n - 23) = Nat.log 2 n := by omega
    have e2 : 24 + (Nat.log 2 n - 23) = (Nat.log 2 n).succ := by omega
    rw [e1, e2]
    exact ⟨Nat.pow_log_le_self 2 hn, Nat.lt_pow_succ_log_self (by norm_num) n⟩

/-- Rounding a multiple of `2 ^ j` to binary32 rounds its count of units to
24 significant bits. -/
theorem f32_dyadic (n : Nat) (j : Int) (hj : -149 ≤ j) :
    f32 ((n : ℚ) * (2 : ℚ) ^ j) = (rnd24 n : ℚ) * (2 : ℚ) ^ j := by
  unfold rnd24
  by_cases hsmall : n < 2 ^ 24
  · rw [if_pos hsmall]
    have := f32_scaled (n : Int) j (by rw [abs_of_nonneg (by positivity)]; exact_mod_cast hsmall) hj
    simpa using this
  · rw [if_neg hsmall]
    obtain ⟨s1, s2⟩ := shift24_spec n (not_lt.mp hsmall)
    have hs1 : 1 ≤ shift24 n := by
      by_contra hcon
      have h0 : shift24 n = 0 := by omega
      rw [h0] at s2
      exact hsmall s2
    have hpj : (0 : ℚ) < (2 : ℚ) ^ j := by positivity
    have hnpos : (0 : ℚ) < (n : ℚ) := by
      have : 0 < n := lt_of_lt_of_le (by norm_num) (not_lt.mp hsmall)
      exact_mod_cast this
    have hq : (n : ℚ) * (2 : ℚ) ^ j ≠ 0 := ne_of_gt (mul_pos hnpos hpj)
    have habs : |(n : ℚ) * (2 : ℚ) ^ j| = (n : ℚ) * (2 : ℚ) ^ j := abs_of_pos (mul_pos hnpos hpj)
    have b1 : (2 : ℚ) ^ ((23 + shift24 n : Nat) : Int) ≤ (n : ℚ) := by
      rw [zpow_natCast]; exact_mod_cast s1
    have b2 : (n : ℚ) < (2 : ℚ) ^ ((24 + shift24 n : Nat) : Int) := by
      rw [zpow_natCast]; exact_mod_cast s2
    have hlog : ilog2 ((n : ℚ) * (2 : ℚ) ^ j) = ((23 + shift24 n : Nat) : Int) + j := by
      apply ilog2_unique _ hq
      · rw [habs, zpow_add₀ (by norm_num)]
        exact mul_le_mul_of_nonneg_right b1 (le_of_lt hpj)
      · rw [habs, show ((23 + shift24 n : Nat) : Int) + j + 1 = ((24 + shift24 n : Nat) : Int) + j by
          push_cast; ring, zpow_add₀ (by norm_num)]
        exact mul_lt_mul_of_pos_right b2 hpj
    rw [f32_of_ne _ hq, hlog, max_eq_left (by push_cast; omega),
      show ((23 + shift24 n : Nat) : Int) + j - 23 = ((shift24 n : Nat) : Int) + j by push_cast; ring,
      zpow_add₀ (by norm_num), zpow_natCast]
    have hquot : (n : ℚ) * (2 : ℚ) ^ j / ((2 : ℚ) ^ shift24 n * (2 : ℚ) ^ j)
        = (n : ℚ) / ((2 ^ shift24 n : Nat) : ℚ) := by
      push_cast
      field_simp
      ring
    rw [hquot, roundNE_div_nat n (2 ^ shift24 n) (by positivity)]
    push_cast
    ring

/-! ## Theorems: the rocket lifecycle -/

theorem explode32_sparks (fm : FloatMath) (p : Particle) :
    ∀ (n : Nat) (rng : RandomSource),
      (PatternFireworks.explode32 fm p n rng).1.length = n ∧
      ∀ q ∈ (PatternFireworks.explode32 fm p n rng).1,
        q.life = 0 ∧ q.exploded = true ∧ q.spark = true ∧ q.x = p.x ∧ q.y = p.y := by
  intro n
  induction n with
  | zero => intro rng; simp [PatternFireworks.explode32]
  | succ n ih =>
    intro rng
    unfold PatternFireworks.explode32
    simp only [List.length_cons, List.mem_cons]
    refine ⟨by rw [(ih _).1], ?_⟩
    intro q hq
    rcases hq with hq | hq
    · rw [hq]; simp [PatternFireworks.makeSpark32]
    · exact (ih _).2 q hq

/-- The loop body in binary32 on a particle that has not exploded: it moves
the particle, adds `0.01f` to `vy`, leaves the age alone, and explodes the
particle exactly when the new `vy` is non-negative or the 5% trial succeeds;
the sparks of the explosion sit at the new position. -/
theorem stepParticle32_rocket (gfx : Gfx) (fm : FloatMath) (E : Int) (p : Particle)
    (rng : RandomSource) (hex : p.exploded = false) :
    (PatternFireworks.stepParticle32 gfx fm E p rng).particle.y = f32 (p.y + p.vy) ∧
    (PatternFireworks.stepParticle32 gfx fm E p rng).particle.vy = f32 (p.vy + f32 (1 / 100)) ∧
    (PatternFireworks.stepParticle32 gfx fm E p rng).particle.life = p.life ∧
    (f32 (p.vy + f32 (1 / 100)) ≥ 0 →
      (PatternFireworks.stepParticle32 gfx fm E p rng).particle.exploded = true ∧
      (PatternFireworks.stepParticle32 gfx fm E p rng).sparks.length = E.toNat) ∧
    (f32 (p.vy + f32 (1 / 100)) < 0 → 5 ≤ (randomRange 0 100 rng).1 →
      (PatternFireworks.stepParticle32 gfx fm E p rng).particle.exploded = false ∧
      (PatternFireworks.stepParticle32 gfx fm E p rng).sparks = []) ∧
    (∀ q ∈ (PatternFireworks.stepParticle32 gfx fm E p rng).sparks,
      q.life = 0 ∧ q.exploded = true ∧ q.spark = true ∧
      q.x = (PatternFireworks.stepParticle32 gfx fm E p rng).particle.x ∧
      q.y = (PatternFireworks.stepParticle32 gfx fm E p rng).particle.y) := by
  simp only [PatternFireworks.stepParticle32, hex, Bool.not_false, if_true]
  by_cases h1 : f32 (p.vy + f32 (1 / 100)) ≥ 0
  · rw [if_pos h1]
    refine ⟨rfl, rfl, rfl, fun _ => ⟨rfl, (explode32_sparks fm _ _ _).1⟩,
      fun h => absurd h1 (not_le.mpr h), ?_⟩
    intro q hq
    have h := (explode32_sparks fm _ _ _).2 q hq
    exact ⟨h.1, h.2.1, h.2.2.1, h.2.2.2.1, h.2.2.2.2⟩
  · rw [if_neg h1]
    by_cases h2 : (randomRange 0 100 rng).1 < 5
    · rw [if_pos h2]
      refine ⟨rfl, rfl, rfl, fun h => absurd h h1, fun _ h => absurd h2 (not_lt.mpr h), ?_⟩
      intro q hq
      have h := (explode32_sparks fm _ _ _).2 q hq
      exact ⟨h.1, h.2.1, h.2.2.1, h.2.2.2.1, h.2.2.2.2⟩
    · rw [if_neg h2]
      refine ⟨rfl, rfl, rfl, fun h => absurd h h1, fun _ _ => ⟨rfl, rfl⟩, ?_⟩
      intro q hq
      simp at hq

/-- The constant `0.01f`, 5368709 units of `2 ^ -29`. -/
theorem f32_hundredth : f32 (1 / 100) = 5368709 / 536870912 := by
  decide!

/-- The velocity `makeRocket` stores for the draw `k`, in units of `2 ^ -29`. -/
theorem rocketMag_zero :
    ∀ k : Nat, k < 50 → f32 (1 / 2 + f32 ((k : ℚ) / 100)) = (rocketMag k 0 : ℚ) / 536870912 := by
  decide!

/-- The magnitudes of the velocity, evaluated: for every draw `k` below 50
the magnitude exceeds `0.01f` before each of the first `50 + k` additions and
is positive and at most `0.01f` after them. -/
theorem rocketMag_sign :
    ∀ k < 50, (∀ n < 50 + k, 5368709 < rocketMag k n) ∧ 0 < rocketMag k (50 + k) ∧
      rocketMag k (50 + k) ≤ 5368709 := by
  decide!

theorem two_zpow_neg29 : (2 : ℚ) ^ (-29 : Int) = 1 / 536870912 := by
  rw [zpow_neg, show ((29 : Int)) = ((29 : Nat) : Int) by rfl, zpow_natCast]
  norm_num

/-- While the velocity of the rocket is negative it is `-rocketMag k n` units of `2 ^ -29`. -/
theorem rocketVy32_mag (k : Nat) (hk : k < 50) :
    ∀ n, n ≤ 50 + k → rocketVy32 k n = -((rocketMag k n : ℚ) / 536870912) := by
  obtain ⟨hbig, -, -⟩ := rocketMag_sign k hk
  intro n
  induction n with
  | zero =>
    intro _
    show -(f32 (1 / 2 + f32 ((k : ℚ) / 100))) = -((rocketMag k 0 : ℚ) / 536870912)
    rw [rocketMag_zero k hk]
  | succ n ih =>
    intro hn
    have hM := hbig n (by omega)
    show f32 (rocketVy32 k n + f32 (1 / 100)) = -((rnd24 (rocketMag k n - 5368709) : ℚ) / 536870912)
    rw [ih (by omega), f32_hundredth]
    have hcast : ((rocketMag k n - 5368709 : Nat) : ℚ) = (rocketMag k n : ℚ) - 5368709 := by
      rw [Nat.cast_sub (le_of_lt hM)]
      norm_num
    have hsum : -((rocketMag k n : ℚ) / 536870912) + 5368709 / 536870912
        = -(((rocketMag k n - 5368709 : Nat) : ℚ) * (2 : ℚ) ^ (-29 : Int)) := by
      rw [hcast, two_zpow_neg29]
      ring
    rw [hsum, f32_neg, f32_dyadic _ _ (by norm_num), two_zpow_neg29]
    ring

/-- The binary32 velocities of a rocket: for every draw `k` below 50 the
velocity is negative after each of the first `50 + k` additions of `0.01f`
and non-negative after the next one. -/
theorem rocketVy32_sign :
    ∀ k < 50, (∀ n ≤ 50 + k, rocketVy32 k n < 0) ∧ 0 ≤ rocketVy32 k (51 + k) := by
  intro k hk
  obtain ⟨hbig, hpos, hle⟩ := rocketMag_sign k hk
  have hmag := rocketVy32_mag k hk
  constructor
  · intro n hn
    rw [hmag n hn]
    have : (0 : ℚ) < (rocketMag k n : ℚ) := by
      rcases Nat.lt_or_ge n (50 + k) with h | h
      · have := hbig n h
        exact_mod_cast (by omega : 0 < rocketMag k n)
      · have : n = 50 + k := by omega
        rw [this]
        exact_mod_cast hpos
    have h2 : (0 : ℚ) < (rocketMag k n : ℚ) / 536870912 := by positivity
    linarith
  · have hstep : rocketVy32 k (51 + k) = f32 (rocketVy32 k (50 + k) + f32 (1 / 100)) := by
      have : 51 + k = (50 + k) + 1 := by omega
      rw [this]
      rfl
    rw [hstep, hmag (50 + k) (le_refl _), f32_hundredth]
    apply f32_nonneg
    have : (rocketMag k (50 + k) : ℚ) ≤ 5368709 := by exact_mod_cast hle
    have h2 : (rocketMag k (50 + k) : ℚ) / 536870912 ≤ 5368709 / 536870912 := by
      apply div_le_div_of_nonneg_right this (by norm_num)
    linarith

/-- The flight in binary32 of a rocket whose early detonation never fires:
through its first `51 + k` steps its `vy` follows `rocketVy32 k`, its age is
unchanged, it stays at or below any integer height it starts at or below, and
it has exploded exactly at step `51 + k`. -/
theorem rocketFlight32_inv (gfx : Gfx) (fm : FloatMath) (E : Int) (rngs : Nat → RandomSource)
    (p : Particle) (k : Nat) (hk : k < 50) (hex : p.exploded = false)
    (hvy : p.vy = rocketVy32 k 0)
    (hno : ∀ i, 5 ≤ (randomRange 0 100 (rngs i)).1) :
    ∀ n, n ≤ 51 + k →
      (rocketFlight32 gfx fm E rngs p n).vy = rocketVy32 k n ∧
      (rocketFlight32 gfx fm E rngs p n).life = p.life ∧
      (∀ Y : Int, |Y| ≤ 16777216 → p.y ≤ (Y : ℚ) → (rocketFlight32 gfx fm E rngs p n).y ≤ (Y : ℚ)) ∧
      (rocketFlight32 gfx fm E rngs p n).exploded = decide (n = 51 + k) := by
  obtain ⟨hneg, hpos⟩ := rocketVy32_sign k hk
  intro n
  induction n with
  | zero =>
    intro _
    refine ⟨hvy, rfl, fun _ _ h => h, ?_⟩
    simp only [rocketFlight32, hex]
    symm
    rw [decide_eq_false_iff_not]
    omega
  | succ n ih =>
    intro hn
    obtain ⟨i1, i2, i3, i4⟩ := ih (by omega)
    have hne : (rocketFlight32 gfx fm E rngs p n).exploded = false := by
      rw [i4, decide_eq_false_iff_not]; omega
    obtain ⟨r1, r2, r3, r4, r5, -⟩ := stepParticle32_rocket gfx fm E
      (rocketFlight32 gfx fm E rngs p n) (rngs n) hne
    have hstep : f32 ((rocketFlight32 gfx fm E rngs p n).vy + f32 (1 / 100)) = rocketVy32 k (n + 1) := by
      rw [i1]; rfl
    refine ⟨?_, ?_, ?_, ?_⟩
    · show (PatternFireworks.stepParticle32 gfx fm E (rocketFlight32 gfx fm E rngs p n)
        (rngs n)).particle.vy = rocketVy32 k (n + 1)
      rw [r2, hstep]
    · show (PatternFireworks.stepParticle32 gfx fm E (rocketFlight32 gfx fm E rngs p n)
        (rngs n)).particle.life = p.life
      rw [r3, i2]
    · intro Y hY hpy
      show (PatternFireworks.stepParticle32 gfx fm E (rocketFlight32 gfx fm E rngs p n)
        (rngs n)).particle.y ≤ (Y : ℚ)
      rw [r1]
      have hvneg : (rocketFlight32 gfx fm E rngs p n).vy < 0 := by
        rw [i1]; exact hneg n (by omega)
      have hle : (rocketFlight32 gfx fm E rngs p n).y + (rocketFlight32 gfx fm E rngs p n).vy
          ≤ (Y : ℚ) := by
        have := i3 Y hY hpy
        linarith
      have := f32_mono _ _ hle
      rwa [f32_intCast Y hY] at this
    · show (PatternFireworks.stepParticle32 gfx fm E (rocketFlight32 gfx fm E rngs p n)
        (rngs n)).particle.exploded = decide (n + 1 = 51 + k)
      by_cases hlast : n + 1 = 51 + k
      · rw [decide_eq_true hlast]
        apply (r4 _).1
        rw [hstep, hlast]
        exact hpos
      · rw [decide_eq_false hlast]
        apply (r5 _ (hno n)).1
        rw [hstep]
        exact hneg (n + 1) (by omega)

theorem makeRocket32_fields (gfx : Gfx) (rng : RandomSource) :
    (∃ j : Nat, j < 50 ∧
      (PatternFireworks.makeRocket32 gfx rng).1.vy = -(f32 (1 / 2 + f32 ((j : ℚ) / 100)))) ∧
    (PatternFireworks.makeRocket32 gfx rng).1.exploded = false ∧
    (PatternFireworks.makeRocket32 gfx rng).1.life = 0 ∧
    (gfx.MATRIX_HEIGHT ≤ 16777216 →
      (PatternFireworks.makeRocket32 gfx rng).1.y = (((gfx.MATRIX_HEIGHT : Int) - 1 : Int) : ℚ)) := by
  have hr : ∀ (r : RandomSource), ∃ j : Nat, j < 50 ∧ (randomRange 0 50 r).1 = (j : Int) := by
    intro r
    refine ⟨r 0 % 50, Nat.mod_lt _ (by norm_num), ?_⟩
    simp [randomRange, random]
  obtain ⟨j, hj, hj2⟩ := hr (randomRange (-20) 21 (randomRange 0 gfx.MATRIX_WIDTH rng).2).2
  refine ⟨⟨j, hj, ?_⟩, rfl, rfl, ?_⟩
  · simp only [PatternFireworks.makeRocket32, hj2]
    have : f32 (((j : Int) : ℚ)) = ((j : Int) : ℚ) :=
      f32_intCast (j : Int) (by rw [abs_of_nonneg (by positivity)]; omega)
    rw [this]
    push_cast
    rfl
  · intro hH
    simp only [PatternFireworks.makeRocket32]
    exact f32_intCast _ (by rw [abs_le]; constructor <;> omega)

/-- C11, as the code has it: in binary32 and with the early detonation never
firing, a rocket created with `vy = -(0.5f + k / 100.0f)`, `k` in `[0, 50)`,
stays non-exploded (with `vy < 0`, creating no spark) for its first `50 + k`
steps and explodes on step `51 + k`, the first at which `vy ≥ 0` (`0.01f` is
below `1 / 100`, so `50 + k` additions do not reach 0); that step creates
exactly `_explosionSize` sparks at the position of the rocket, each with age
0, `exploded` and `spark` set; the rocket keeps its age and its height stays
below the bottom edge, so the removal pass keeps it in `_particles`, marked
exploded.  `makeRocket` gives such a `vy` with `k < 50`, at height
`MATRIX_HEIGHT - 1`. -/
theorem rocket_lifecycle_binary32 (gfx : Gfx) (fm : FloatMath) (E : Int)
    (rngs : Nat → RandomSource) (p : Particle) (k : Nat) (hk : k < 50)
    (hex : p.exploded = false) (hvy : p.vy = -(f32 (1 / 2 + f32 ((k : ℚ) / 100))))
    (hno : ∀ i, 5 ≤ (randomRange 0 100 (rngs i)).1) :
    (∀ n, n ≤ 50 + k →
      (rocketFlight32 gfx fm E rngs p n).exploded = false ∧
      (rocketFlight32 gfx fm E rngs p n).vy < 0) ∧
    (∀ n, n < 50 + k →
      (PatternFireworks.stepParticle32 gfx fm E (rocketFlight32 gfx fm E rngs p n)
        (rngs n)).sparks = []) ∧
    (rocketFlight32 gfx fm E rngs p (51 + k)).exploded = true ∧
    (rocketFlight32 gfx fm E rngs p (51 + k)).vy ≥ 0 ∧
    (PatternFireworks.stepParticle32 gfx fm E (rocketFlight32 gfx fm E rngs p (50 + k))
      (rngs (50 + k))).sparks.length = E.toNat ∧
    (∀ q ∈ (PatternFireworks.stepParticle32 gfx fm E (rocketFlight32 gfx fm E rngs p (50 + k))
        (rngs (50 + k))).sparks,
      q.life = 0 ∧ q.exploded = true ∧ q.spark = true ∧
      q.x = (rocketFlight32 gfx fm E rngs p (51 + k)).x ∧
      q.y = (rocketFlight32 gfx fm E rngs p (51 + k)).y) ∧
    (p.life ≤ 50 → gfx.MATRIX_HEIGHT ≤ 16777216 →
      p.y ≤ (((gfx.MATRIX_HEIGHT : Int) - 1 : Int) : ℚ) → ∀ n, n ≤ 51 + k →
      PatternFireworks.removed gfx (rocketFlight32 gfx fm E rngs p n) = false) ∧
    (∀ rng : RandomSource,
      (∃ j : Nat, j < 50 ∧
        (PatternFireworks.makeRocket32 gfx rng).1.vy = -(f32 (1 / 2 + f32 ((j : ℚ) / 100)))) ∧
      (PatternFireworks.makeRocket32 gfx rng).1.exploded = false ∧
      (PatternFireworks.makeRocket32 gfx rng).1.life = 0 ∧
      (gfx.MATRIX_HEIGHT ≤ 16777216 →
        (PatternFireworks.makeRocket32 gfx rng).1.y
          = (((gfx.MATRIX_HEIGHT : Int) - 1 : Int) : ℚ))) := by
  obtain ⟨hneg, hpos⟩ := rocketVy32_sign k hk
  have inv := rocketFlight32_inv gfx fm E rngs p k hk hex hvy hno
  have hbefore : ∀ n, n ≤ 50 + k →
      (rocketFlight32 gfx fm E rngs p n).exploded = false ∧
      (rocketFlight32 gfx fm E rngs p n).vy < 0 := by
    intro n hn
    obtain ⟨i1, -, -, i4⟩ := inv n (by omega)
    refine ⟨by rw [i4, decide_eq_false_iff_not]; omega, ?_⟩
    rw [i1]
    exact hneg n hn
  have hlast := stepParticle32_rocket gfx fm E (rocketFlight32 gfx fm E rngs p (50 + k))
    (rngs (50 + k)) (hbefore (50 + k) (le_refl _)).1
  have hflight : rocketFlight32 gfx fm E rngs p (51 + k)
      = (PatternFireworks.stepParticle32 gfx fm E (rocketFlight32 gfx fm E rngs p (50 + k))
          (rngs (50 + k))).particle := by
    have : 51 + k = (50 + k) + 1 := by omega
    rw [this]
    rfl
  have hvlast : f32 ((rocketFlight32 gfx fm E rngs p (50 + k)).vy + f32 (1 / 100)) ≥ 0 := by
    rw [(inv (50 + k) (by omega)).1]
    have : 51 + k = (50 + k) + 1 := by omega
    rw [this] at hpos
    exact hpos
  refine ⟨hbefore, ?_, ?_, ?_, (hlast.2.2.2.1 hvlast).2, ?_, ?_, fun rng => makeRocket32_fields gfx rng⟩
  · intro n hn
    have h1 := hbefore n (by omega)
    have h2 := stepParticle32_rocket gfx fm E (rocketFlight32 gfx fm E rngs p n) (rngs n) h1.1
    apply (h2.2.2.2.2.1 _ (hno n)).2
    rw [(inv n (by omega)).1]
    exact hneg (n + 1) (by omega)
  · rw [(inv (51 + k) (le_refl _)).2.2.2]
    simp
  · rw [(inv (51 + k) (le_refl _)).1]
    exact hpos
  · intro q hq
    rw [hflight]
    exact hlast.2.2.2.2.2 q hq
  · intro hlife hH hy n hn
    obtain ⟨-, i2, i3, -⟩ := inv n hn
    have hYle := i3 ((gfx.MATRIX_HEIGHT : Int) - 1) (by rw [abs_le]; constructor <;> omega) hy
    have hlt : (rocketFlight32 gfx fm E rngs p n).y < (gfx.MATRIX_HEIGHT : ℚ) := by
      have : ((((gfx.MATRIX_HEIGHT : Int) - 1 : Int)) : ℚ) < (gfx.MATRIX_HEIGHT : ℚ) := by
        push_cast; linarith
      linarith
    have := (not_removed_iff gfx (rocketFlight32 gfx fm E rngs p n)).mpr
      ⟨by rw [i2]; exact hlife, hlt⟩
    simpa using this

/-- Worked example of C11 as the code has it: the rocket with `vy = -0.5f`,
every trial drawing 5, explodes on step 51 and spawns 30 sparks. -/
theorem rocket_lifecycle_binary32_witness :
    (rocketFlight32 (demoGfx 32 32) demoMath 30 (fun _ _ => 5)
      { x := 0, y := 31, vx := 0, vy := -(1 / 2), hue := 0, life := 0, exploded := false,
        spark := false } (51 + 0)).exploded = true ∧
    (PatternFireworks.stepParticle32 (demoGfx 32 32) demoMath 30
      (rocketFlight32 (demoGfx 32 32) demoMath 30 (fun _ _ => 5)
        { x := 0, y := 31, vx := 0, vy := -(1 / 2), hue := 0, life := 0, exploded := false,
          spark := false } (50 + 0)) ((fun _ _ => 5) (50 + 0))).sparks.length = (30 : Int).toNat :=
  ⟨(rocket_lifecycle_binary32 (demoGfx 32 32) demoMath 30 (fun _ _ => 5)
      { x := 0, y := 31, vx := 0, vy := -(1 / 2), hue := 0, life := 0, exploded := false,
        spark := false } 0 (by decide) rfl (by decide!)
      (by intro i; simp [randomRange, random])).2.2.1,
    (rocket_lifecycle_binary32 (demoGfx 32 32) demoMath 30 (fun _ _ => 5)
      { x := 0, y := 31, vx := 0, vy := -(1 / 2), hue := 0, life := 0, exploded := false,
        spark := false } 0 (by decide) rfl (by decide!)
      (by intro i; simp [randomRange, random])).2.2.2.2.1⟩

/-- C11 as stated fails: in binary32, 50 additions of `0.01f` to `-0.5f` give
`-13 / 2^26`, which is negative, so with every trial drawing 5 the rocket
created with `vy = -(50 + 0) / 100` has not exploded after its step 50; it
explodes on step 51. -/
theorem rocket_unexploded_at_step_50 :
    (-(1 / 2) : ℚ) = -((50 + (0 : ℚ)) / 100) ∧
    (rocketFlight32 (demoGfx 32 32) demoMath 30 (fun _ _ => 5)
      { x := 0, y := 31, vx := 0, vy := -(1 / 2), hue := 0, life := 0, exploded := false,
        spark := false } 50).vy = -13 / 67108864 ∧
    (rocketFlight32 (demoGfx 32 32) demoMath 30 (fun _ _ => 5)
      { x := 0, y := 31, vx := 0, vy := -(1 / 2), hue := 0, life := 0, exploded := false,
        spark := false } 50).exploded = false ∧
    (rocketFlight32 (demoGfx 32 32) demoMath 30 (fun _ _ => 5)
      { x := 0, y := 31, vx := 0, vy := -(1 / 2), hue := 0, life := 0, exploded := false,
        spark := false } 51).exploded = true := by
  have hno : ∀ i : Nat, 5 ≤ (randomRange 0 100 ((fun _ _ => 5 : Nat → RandomSource) i)).1 := by
    intro i; simp [randomRange, random]
  have hvy : (-(1 / 2) : ℚ) = rocketVy32 0 0 := by decide!
  have inv := rocketFlight32_inv (demoGfx 32 32) demoMath 30 (fun _ _ => 5)
    { x := 0, y := 31, vx := 0, vy := -(1 / 2), hue := 0, life := 0, exploded := false,
      spark := false } 0 (by decide) rfl hvy hno
  have hmag : rocketMag 0 50 = 104 := by decide!
  refine ⟨by norm_num, ?_, ?_, ?_⟩
  · rw [(inv 50 (by decide)).1, rocketVy32_mag 0 (by decide) 50 (by decide), hmag]
    norm_num
  · rw [(inv 50 (by decide)).2.2.2]
    decide
  · rw [(inv 51 (by decide)).2.2.2]
    decide

/-! ## Theorems: the rocket bound -/

theorem stepParticle_not_exploded (gfx : Gfx) (fm : FloatMath) (E : Int) (p : Particle)
    (rng : RandomSource)
    (h : (PatternFireworks.stepParticle gfx fm E p rng).particle.exploded = false) :
    p.exploded = false := by
  cases hex : p.exploded
  · rfl
  · rw [(stepParticle_fields gfx fm E p rng).2.2.2.1 hex] at h
    exact absurd h (by simp)

/-- The particle loop creates no particle that has not exploded. -/
theorem physics_rockets (gfx : Gfx) (fm : FloatMath) (E : Int) :
    ∀ (l : List Particle) (rng : RandomSource),
      (PatternFireworks.physics gfx fm E l rng).particles.countP (fun p => !p.exploded)
        ≤ l.countP (fun p => !p.exploded) ∧
      (PatternFireworks.physics gfx fm E l rng).particles.length = l.length ∧
      ∀ q ∈ (PatternFireworks.physics gfx fm E l rng).newParticles, q.exploded = true := by
  intro l
  induction l with
  | nil => intro rng; simp [PatternFireworks.physics]
  | cons p rest ih =>
    intro rng
    obtain ⟨i1, i2, i3⟩ := ih (PatternFireworks.stepParticle gfx fm E p rng).rng
    rw [physics_cons]
    refine ⟨?_, by simp [i2], ?_⟩
    · simp only [List.countP_cons]
      have hstep : (if (!(PatternFireworks.stepParticle gfx fm E p rng).particle.exploded) = true
          then 1 else 0) ≤ (if (!p.exploded) = true then 1 else 0) := by
        cases h : (PatternFireworks.stepParticle gfx fm E p rng).particle.exploded
        · rw [stepParticle_not_exploded gfx fm E p rng h]
        · simp
      omega
    · intro q hq
      simp only [List.mem_append] at hq
      rcases hq with hq | hq
      · exact ((stepParticle_fields gfx fm E p rng).2.2.2.2.2 q hq).2.1
      · exact i3 q hq

theorem Draw_fields (gfx : Gfx) (fm : FloatMath) (s : PatternFireworks) (rng : RandomSource) :
    (PatternFireworks.Draw gfx fm s rng).state._maxRockets = s._maxRockets ∧
    (PatternFireworks.Draw gfx fm s rng).state._maxParticles = s._maxParticles ∧
    (PatternFireworks.Draw gfx fm s rng).state._explosionSize = s._explosionSize :=
  ⟨rfl, rfl, rfl⟩

theorem reachable_fields (gfx : Gfx) (fm : FloatMath) (s : PatternFireworks)
    (h : FireworksReachable gfx fm s) :
    s._maxRockets = 5 ∧ s._maxParticles = 300 ∧ s._explosionSize = 30 := by
  induction h with
  | start => exact ⟨rfl, rfl, rfl⟩
  | restart _ ih => exact ih
  | draw rng _ ih => exact ih

/-- One `Draw` keeps the number of particles that have not exploded at or below `_maxRockets`. -/
theorem Draw_rockets (gfx : Gfx) (fm : FloatMath) (s : PatternFireworks) (rng : RandomSource)
    (h : ((s._particles.countP fun p => !p.exploded : Nat) : Int) ≤ s._maxRockets) :
    (((PatternFireworks.Draw gfx fm s rng).state._particles.countP fun p => !p.exploded : Nat) : Int)
      ≤ s._maxRockets := by
  have hgate : (((PatternFireworks.spawnGate gfx s rng).1.countP fun p => !p.exploded : Nat) : Int)
      ≤ s._maxRockets := by
    rcases spawnGate_cases gfx s rng with hg | ⟨-, -, hlt, hg⟩
    · rw [hg]; exact h
    · rw [hg, List.countP_append]
      have hone : ([(PatternFireworks.makeRocket gfx (randomRange 0 10 rng).2).1].countP
          fun p => !p.exploded) ≤ 1 := by
        have := List.countP_le_length (fun p : Particle => !p.exploded)
          (l := [(PatternFireworks.makeRocket gfx (randomRange 0 10 rng).2).1])
        simpa using this
      push_cast
      omega
  obtain ⟨p1, -, p3⟩ := physics_rockets gfx fm s._explosionSize
    (PatternFireworks.spawnGate gfx s rng).1 (PatternFireworks.spawnGate gfx s rng).2
  have hnew : ((PatternFireworks.physics gfx fm s._explosionSize
      (PatternFireworks.spawnGate gfx s rng).1 (PatternFireworks.spawnGate gfx s rng).2).newParticles.countP
        fun p => !p.exploded) = 0 := by
    rw [List.countP_eq_zero]
    intro q hq
    simp [p3 q hq]
  have hfilter : ((PatternFireworks.Draw gfx fm s rng).state._particles.countP fun p => !p.exploded)
      ≤ ((PatternFireworks.physics gfx fm s._explosionSize
          (PatternFireworks.spawnGate gfx s rng).1 (PatternFireworks.spawnGate gfx s rng).2).particles
        ++ (PatternFireworks.physics gfx fm s._explosionSize
          (PatternFireworks.spawnGate gfx s rng).1
          (PatternFireworks.spawnGate gfx s rng).2).newParticles).countP fun p => !p.exploded := by
    unfold PatternFireworks.Draw
    exact List.Sublist.countP_le _ (List.filter_sublist _)
  rw [List.countP_append, hnew] at hfilter
  have : ((PatternFireworks.Draw gfx fm s rng).state._particles.countP fun p => !p.exploded)
      ≤ ((PatternFireworks.spawnGate gfx s rng).1.countP fun p => !p.exploded) := by omega
  have h2 : (((PatternFireworks.Draw gfx fm s rng).state._particles.countP fun p => !p.exploded : Nat) : Int)
      ≤ (((PatternFireworks.spawnGate gfx s rng).1.countP fun p => !p.exploded : Nat) : Int) := by
    exact_mod_cast this
  exact le_trans h2 hgate

theorem reachable_rockets (gfx : Gfx) (fm : FloatMath) (s : PatternFireworks)
    (h : FireworksReachable gfx fm s) :
    ((s._particles.countP fun p => !p.exploded : Nat) : Int) ≤ s._maxRockets := by
  induction h with
  | start => decide
  | @restart s hs _ =>
    have := (reachable_fields gfx fm s hs).1
    simp [PatternFireworks.Start, this]
  | draw rng _ ih => exact Draw_rockets gfx fm _ rng ih

/-- C12: in every state reachable from `Start` the number of particles that
have not exploded is at most `_maxRockets`, and for any `_maxRockets ≥ 0`
`Start` and `Draw` keep it so; each `Draw` creates at most one rocket (every
other new particle is an exploded spark), and only when the particle count is
below `_maxParticles`, the draw in `[0, 10)` is below 3 and the number of
particles that have not exploded is strictly below `_maxRockets`. -/
theorem rocket_bound (gfx : Gfx) (fm : FloatMath) :
    (∀ s : PatternFireworks, FireworksReachable gfx fm s →
      ((s._particles.countP fun p => !p.exploded : Nat) : Int) ≤ s._maxRockets) ∧
    (∀ s : PatternFireworks, 0 ≤ s._maxRockets →
      ((((PatternFireworks.Start s)._particles.countP fun p => !p.exploded : Nat) : Int)
        ≤ (PatternFireworks.Start s)._maxRockets)) ∧
    (∀ (s : PatternFireworks) (rng : RandomSource),
      ((s._particles.countP fun p => !p.exploded : Nat) : Int) ≤ s._maxRockets →
      (((PatternFireworks.Draw gfx fm s rng).state._particles.countP fun p => !p.exploded : Nat) : Int)
        ≤ (PatternFireworks.Draw gfx fm s rng).state._maxRockets) ∧
    (∀ (s : PatternFireworks) (rng : RandomSource), FireworksReachable gfx fm s →
      ((PatternFireworks.spawnGate gfx s rng).1 = s._particles ∨
        ((s._particles.length : Int) < s._maxParticles ∧
          0 ≤ (randomRange 0 10 rng).1 ∧ (randomRange 0 10 rng).1 < 10 ∧
          (randomRange 0 10 rng).1 < 3 ∧
          ((s._particles.countP fun p => !p.exploded : Nat) : Int) < s._maxRockets ∧
          (PatternFireworks.spawnGate gfx s rng).1
            = s._particles ++ [(PatternFireworks.makeRocket gfx (randomRange 0 10 rng).2).1] ∧
          (PatternFireworks.makeRocket gfx (randomRange 0 10 rng).2).1.exploded = false)) ∧
      (∀ q ∈ (PatternFireworks.physics gfx fm s._explosionSize (PatternFireworks.spawnGate gfx s rng).1
          (PatternFireworks.spawnGate gfx s rng).2).newParticles, q.exploded = true)) := by
  refine ⟨reachable_rockets gfx fm, ?_, ?_, ?_⟩
  · intro s h0
    simpa [PatternFireworks.Start] using h0
  · intro s rng h
    exact Draw_rockets gfx fm s rng h
  · intro s rng hreach
    obtain ⟨-, hP, -⟩ := reachable_fields gfx fm s hreach
    refine ⟨?_, (physics_rockets gfx fm s._explosionSize _ _).2.2⟩
    rcases spawnGate_cases gfx s rng with hg | ⟨h1, h2, h3, hg⟩
    · exact Or.inl hg
    · right
      have h300 : toU32 300 = 300 := by decide
      rw [hP, h300] at h1
      refine ⟨by rw [hP]; exact_mod_cast h1, ?_, ?_, h2, h3, hg, (makeRocket_fields gfx _).2.1⟩
      · simp [randomRange, random]
        omega
      · simp [randomRange, random]
        omega

/-- Worked example of C12: the state after the first `Draw` of the run in
which every raw random value is 0. -/
theorem rocket_bound_witness :
    FireworksReachable (demoGfx 32 32) demoMath (zeroRun 1) ∧
    (((zeroRun 1)._particles.countP fun p => !p.exploded : Nat) : Int) ≤ (zeroRun 1)._maxRockets :=
  ⟨zeroRun_reachable 1, (rocket_bound (demoGfx 32 32) demoMath).1 (zeroRun 1) (zeroRun_reachable 1)⟩

/-! ## Theorems: the brightness of exploded particles -/

theorem brightness_eq (a : Nat) :
    PatternFireworks.brightness a = if a < 50 then 255 - 5 * a else 0 := by
  unfold PatternFireworks.brightness
  split
  · omega
  · rfl

/-- C19: for an exploded particle, with `a` its age after the increment of
this step, the 8-bit brightness is `255 - 5 * a` when `a < 50` and 0
otherwise; for `1 ≤ a ≤ 49` the value `255 - 5 * a` lies in `[10, 250]`, so
the conversion to 8 bits does not wrap; and the particle is handed to
`drawPixelSafe` in this step (at its rounded new position, with its hue, that
brightness and saturation 255, or 0 for a flickering spark) exactly when `a < 50`. -/
theorem exploded_brightness (gfx : Gfx) (fm : FloatMath) (E : Int) (p : Particle)
    (rng : RandomSource) (hex : p.exploded = true) :
    (PatternFireworks.stepParticle gfx fm E p rng).particle.life = (p.life + 1) % 256 ∧
    (∀ a : Nat, PatternFireworks.brightness a = if a < 50 then 255 - 5 * a else 0) ∧
    (∀ a : Nat, 1 ≤ a → a ≤ 49 →
      (10 : Int) ≤ 255 - 5 * a ∧ (255 : Int) - 5 * a ≤ 250 ∧
      ((255 : Int) - 5 * a) % 256 = 255 - 5 * a) ∧
    ((p.life + 1) % 256 < 50 →
      0 < PatternFireworks.brightness ((p.life + 1) % 256) ∧
      ∃ col : PixelColor,
        (PatternFireworks.stepParticle gfx fm E p rng).ops
          = PatternFireworks.drawPixelSafe gfx (roundToInt (p.x + p.vx)) (roundToInt (p.y + p.vy)) col ∧
        (col = PixelColor.hsv p.hue 255 (255 - 5 * ((p.life + 1) % 256)) ∨
          (p.spark = true ∧ col = PixelColor.hsv p.hue 0 (255 - 5 * ((p.life + 1) % 256))))) ∧
    (50 ≤ (p.life + 1) % 256 →
      PatternFireworks.brightness ((p.life + 1) % 256) = 0 ∧
      (PatternFireworks.stepParticle gfx fm E p rng).ops = []) := by
  refine ⟨?_, brightness_eq, ?_, ?_, ?_⟩
  · have := (stepParticle_fields gfx fm E p rng).1
    rw [hex] at this
    simpa using this
  · intro a h1 h2
    omega
  · intro ha
    have hb : PatternFireworks.brightness ((p.life + 1) % 256) = 255 - 5 * ((p.life + 1) % 256) := by
      rw [brightness_eq, if_pos ha]
    have hpos : 0 < PatternFireworks.brightness ((p.life + 1) % 256) := by
      rw [hb]; omega
    refine ⟨hpos, ?_⟩
    simp only [PatternFireworks.stepParticle, hex, Bool.not_true, Bool.false_eq_true, if_false]
    rw [if_pos hpos]
    by_cases hs : p.spark = true
    · rw [if_pos hs]
      by_cases ht : (randomRange 0 100 rng).1 < 20
      · refine ⟨_, rfl, Or.inr ⟨hs, ?_⟩⟩
        rw [if_pos ht, hb]
      · refine ⟨_, rfl, Or.inl ?_⟩
        rw [if_neg ht, hb]
    · rw [if_neg hs]
      exact ⟨_, rfl, Or.inl (by rw [hb])⟩
  · intro ha
    have hb : PatternFireworks.brightness ((p.life + 1) % 256) = 0 := by
      rw [brightness_eq, if_neg (by omega)]
    refine ⟨hb, ?_⟩
    simp only [PatternFireworks.stepParticle, hex, Bool.not_true, Bool.false_eq_true, if_false]
    rw [if_neg (by rw [hb]; exact lt_irrefl 0)]

/-- Worked example of C19: a spark of age 48 is drawn at its next step with brightness 10. -/
theorem exploded_brightness_witness :
    (PatternFireworks.stepParticle (demoGfx 32 32) demoMath 30
      { x := 3, y := 4, vx := 0, vy := 0, hue := 7, life := 48, exploded := true, spark := false }
      (fun _ => 0)).particle.life = (48 + 1) % 256 ∧
    PatternFireworks.brightness 49 = 10 :=
  ⟨(exploded_brightness (demoGfx 32 32) demoMath 30
      { x := 3, y := 4, vx := 0, vy := 0, hue := 7, life := 48, exploded := true, spark := false }
      (fun _ => 0) rfl).1,
    ((exploded_brightness (demoGfx 32 32) demoMath 30
      { x := 3, y := 4, vx := 0, vy := 0, hue := 7, life := 48, exploded := true, spark := false }
      (fun _ => 0) rfl).2.1 49).trans (by decide)⟩

/-! ## Theorems: membership in the allowed set and draw safety of the mosaic -/

/-- The recolour loop keeps every tile in the allowed set. -/
theorem recolourLoop_members (gfx : Gfx) (total changes : Nat) (s : PatternBoxes)
    (rng : RandomSource) (done : List (Nat × CRGB))
    (h : ∀ c ∈ s._boxColors, c ∈ s._allowedColors) :
    ∀ c ∈ (recolourLoop gfx total changes s rng done).1._boxColors,
      c ∈ (recolourLoop gfx total changes s rng done).1._allowedColors := by
  by_cases hA : s._allowedColors = []
  · have hbox : s._boxColors = [] := by
      cases hb : s._boxColors with
      | nil => rfl
      | cons c t =>
        have := h c (by rw [hb]; exact List.mem_cons_self _ _)
        rw [hA] at this
        exact absurd this (List.not_mem_nil _)
    have hlen := (recolourLoop_frame gfx total changes s rng done).2.2.2.2.2.2.2.1
    rw [hbox] at hlen
    intro c hc
    rw [List.length_eq_zero.mp hlen] at hc
    exact absurd hc (List.not_mem_nil _)
  · exact recolourLoop_closure gfx total changes s rng done hA h

/-- The method `Draw` keeps every tile in the allowed set. -/
theorem Draw_members (gfx : Gfx) (pal : CRGBPalette16) (now : Nat) (s : PatternBoxes)
    (rng : RandomSource) (h : ∀ c ∈ s._boxColors, c ∈ s._allowedColors) :
    ∀ c ∈ (PatternBoxes.Draw gfx pal now s rng).state._boxColors,
      c ∈ (PatternBoxes.Draw gfx pal now s rng).state._allowedColors := by
  by_cases hz : s._cols = 0 ∨ s._rows = 0
  · rw [Draw_zero_area gfx pal now s rng hz]; exact h
  · unfold PatternBoxes.Draw
    rw [if_neg hz]
    simp only []
    apply recolourLoop_members
    by_cases hp : s._cachedPalette ≠ pal
    · simp only [if_pos hp]; exact RecomputeGrid_closure gfx pal s
    · simp only [if_neg hp]; exact h

theorem reachable_members (gfx : Gfx) (s : PatternBoxes) (h : BoxesReachable gfx s) :
    ∀ c ∈ s._boxColors, c ∈ s._allowedColors := by
  induction h with
  | fresh pal0 => intro c hc; simp [PatternBoxes.new] at hc
  | start pal now _ _ => exact RecomputeGrid_closure gfx pal _
  | next pal _ _ => exact RecomputeGrid_closure gfx _ _
  | prev pal _ _ => exact RecomputeGrid_closure gfx _ _
  | draw pal now rng _ ih => exact Draw_members gfx pal now _ rng ih

/-- C20: if every tile colour is a member of the allowed-colour set before a
`Draw` (on a non-empty grid, and also on an empty one, where `Draw` does
nothing), every tile colour is a member of the (possibly rebuilt)
allowed-colour set after it, for every palette, clock value and random source;
the neighbour-avoidance pick always returns a member of a non-empty allowed
set; hence membership holds in every reachable state. -/
theorem allowed_membership_preserved (gfx : Gfx) (pal : CRGBPalette16) (now : Nat)
    (s : PatternBoxes) (rng : RandomSource)
    (h : ∀ c ∈ s._boxColors, c ∈ s._allowedColors) :
    (∀ c ∈ (PatternBoxes.Draw gfx pal now s rng).state._boxColors,
      c ∈ (PatternBoxes.Draw gfx pal now s rng).state._allowedColors) ∧
    (∀ (t : PatternBoxes) (idx : Nat) (r : RandomSource), t._allowedColors ≠ [] →
      (PickNonMatching gfx t idx r).1 ∈ t._allowedColors) ∧
    (∀ t : PatternBoxes, BoxesReachable gfx t → ∀ c ∈ t._boxColors, c ∈ t._allowedColors) :=
  ⟨Draw_members gfx pal now s rng h, fun t idx r hA => PickNonMatching_mem gfx t idx r hA,
    reachable_members gfx⟩

/-- Worked example of C20: the 4 by 4 mosaic after `Start`, drawn at time 210. -/
theorem allowed_membership_preserved_witness :
    sixteenTilesStarted._cols ≠ 0 ∧ sixteenTilesStarted._rows ≠ 0 ∧
    (∀ c ∈ sixteenTilesStarted._boxColors, c ∈ sixteenTilesStarted._allowedColors) ∧
    ∀ c ∈ (PatternBoxes.Draw (demoGfx 32 32) demoPalette 210 sixteenTilesStarted
        (fun k => k)).state._boxColors,
      c ∈ (PatternBoxes.Draw (demoGfx 32 32) demoPalette 210 sixteenTilesStarted
        (fun k => k)).state._allowedColors :=
  ⟨by decide, by decide, by decide,
    (allowed_membership_preserved (demoGfx 32 32) demoPalette 210 sixteenTilesStarted (fun k => k)
      (by decide)).1⟩

theorem pickNeighbors_eq_map (s : PatternBoxes) (idx : Nat) :
    pickNeighbors s idx
      = (pickNeighborIndices s idx).map fun j => s._boxColors.getD j CRGB.Black := by
  unfold pickNeighbors pickNeighborIndices
  simp only [List.map_append]
  split_ifs <;> rfl

/-- Every index read for the neighbour colours of a tile of the grid is an index of the grid. -/
theorem pickNeighborIndices_lt (s : PatternBoxes) (idx : Nat) (hidx : idx < s._cols * s._rows) :
    ∀ j ∈ pickNeighborIndices s idx, j < s._cols * s._rows := by
  have hcols : 0 < s._cols := by
    rcases Nat.eq_zero_or_pos s._cols with h | h
    · rw [h] at hidx; simp at hidx
    · exact h
  have hdm : s._cols * (idx / s._cols) + idx % s._cols = idx := Nat.div_add_mod idx s._cols
  have hmod : idx % s._cols < s._cols := Nat.mod_lt _ hcols
  have hrow : idx / s._cols < s._rows := by
    rw [Nat.div_lt_iff_lt_mul hcols, Nat.mul_comm]; exact hidx
  have hcomm : idx / s._cols * s._cols = s._cols * (idx / s._cols) := Nat.mul_comm _ _
  have e3 : 0 < idx / s._cols →
      (idx / s._cols - 1) * s._cols + idx % s._cols = idx - s._cols := by
    intro h
    have : (idx / s._cols - 1) * s._cols + s._cols = idx / s._cols * s._cols := by
      have h1 : idx / s._cols - 1 + 1 = idx / s._cols := by omega
      calc (idx / s._cols - 1) * s._cols + s._cols
          = (idx / s._cols - 1 + 1) * s._cols := by ring
        _ = idx / s._cols * s._cols := by rw [h1]
    omega
  have e4 : (idx / s._cols + 1) * s._cols + idx % s._cols = idx + s._cols := by
    have : (idx / s._cols + 1) * s._cols = idx / s._cols * s._cols + s._cols := by ring
    omega
  have b2 : idx % s._cols + 1 < s._cols → idx + 1 < s._cols * s._rows := by
    intro h
    have : s._cols * (idx / s._cols + 1) ≤ s._cols * s._rows := Nat.mul_le_mul_left _ hrow
    have h2 : s._cols * (idx / s._cols + 1) = s._cols * (idx / s._cols) + s._cols := by ring
    omega
  have b4 : idx / s._cols + 1 < s._rows → idx + s._cols < s._cols * s._rows := by
    intro h
    have : s._cols * (idx / s._cols + 2) ≤ s._cols * s._rows := Nat.mul_le_mul_left _ h
    have h2 : s._cols * (idx / s._cols + 2) = s._cols * (idx / s._cols) + s._cols + s._cols := by
      ring
    omega
  intro j hj
  unfold pickNeighborIndices at hj
  simp only [List.mem_append, or_assoc] at hj
  rcases hj with hj | hj | hj | hj
  · split at hj
    · rename_i hg
      rw [List.mem_singleton] at hj
      have hg' : 0 < idx % s._cols := hg
      omega
    · exact absurd hj (List.not_mem_nil _)
  · split at hj
    · rename_i hg
      rw [List.mem_singleton] at hj
      have hg' : idx % s._cols + 1 < s._cols := Nat.add_lt_of_lt_sub hg
      have := b2 hg'
      omega
    · exact absurd hj (List.not_mem_nil _)
  · split at hj
    · rename_i hg
      rw [List.mem_singleton] at hj
      have hg' : 0 < idx / s._cols := hg
      rw [e3 hg'] at hj
      omega
    · exact absurd hj (List.not_mem_nil _)
  · split at hj
    · rename_i hg
      rw [List.mem_singleton] at hj
      have hg' : idx / s._cols + 1 < s._rows := Nat.add_lt_of_lt_sub hg
      rw [e4] at hj
      have := b4 hg'
      omega
    · exact absurd hj (List.not_mem_nil _)

/-- Every recolour of the loop of `Draw` writes an index below `total` and a colour of the allowed set. -/
theorem recolourLoop_trace (gfx : Gfx) (total : Nat) (htotal : total ≠ 0) :
    ∀ (changes : Nat) (s : PatternBoxes) (rng : RandomSource) (done : List (Nat × CRGB)),
      s._allowedColors ≠ [] →
      (∀ rc ∈ done, rc.1 < total ∧ rc.2 ∈ s._allowedColors) →
      ∀ rc ∈ (recolourLoop gfx total changes s rng done).2.2,
        rc.1 < total ∧ rc.2 ∈ s._allowedColors := by
  intro changes
  induction changes with
  | zero => intro s rng done _ h; simpa [recolourLoop] using h
  | succ n ih =>
    intro s rng done hA h
    unfold recolourLoop
    simp only []
    apply ih
      { s with _boxColors := (s._boxColors.set (random total rng).1
          (PickNonMatching gfx s (random total rng).1 (random total rng).2).1) }
      _ _ hA
    intro rc hrc
    rw [List.mem_append, List.mem_singleton] at hrc
    rcases hrc with hrc | hrc
    · exact h rc hrc
    · rw [hrc]
      exact ⟨random_fst_lt total rng htotal, PickNonMatching_mem gfx s _ _ hA⟩

/-- Every rectangle painted by `Draw` is the full tile of a row and a column of the grid. -/
theorem paintOps_mem (gfx : Gfx) (s : PatternBoxes)
    (hW : s._cols * BOX_SIZE ≤ gfx.MATRIX_WIDTH) (hH : s._rows * BOX_SIZE ≤ gfx.MATRIX_HEIGHT) :
    ∀ op ∈ paintOps gfx s, ∃ (r c : Nat) (col : PixelColor), r < s._rows ∧ c < s._cols ∧
      op = SinkOp.fillRectangle ((c * 8 : Nat) : Int) ((r * 8 : Nat) : Int)
        ((c * 8 + 8 : Nat) : Int) ((r * 8 + 8 : Nat) : Int) col ∧
      c * 8 + 8 ≤ gfx.MATRIX_WIDTH ∧ r * 8 + 8 ≤ gfx.MATRIX_HEIGHT := by
  intro op hop
  unfold paintOps at hop
  simp only [List.mem_flatMap, List.mem_map, List.mem_range] at hop
  obtain ⟨r, hr, c, hc, rfl⟩ := hop
  have h8 : BOX_SIZE = 8 := rfl
  rw [h8] at hW hH
  have hc8 : c * 8 + 8 ≤ gfx.MATRIX_WIDTH := by omega
  have hr8 : r * 8 + 8 ≤ gfx.MATRIX_HEIGHT := by omega
  refine ⟨r, c, PixelColor.rgb (s._boxColors.getD (r * s._cols + c) CRGB.Black), hr, hc, ?_,
    hc8, hr8⟩
  simp only [h8, Nat.min_eq_left hc8, Nat.min_eq_left hr8]

/-- Reachable states with a non-empty grid have a non-empty allowed set. -/
theorem reachable_allowed (gfx : Gfx) (s : PatternBoxes) (h : BoxesReachable gfx s) :
    (s._cols = 0 ∧ s._rows = 0) ∨ s._allowedColors ≠ [] := by
  induction h with
  | fresh pal0 => exact Or.inl ⟨rfl, rfl⟩
  | start pal now _ _ => exact Or.inr (buildAllowed_ne_nil gfx pal _)
  | next pal _ _ => exact Or.inr (buildAllowed_ne_nil gfx _ _)
  | prev pal _ _ => exact Or.inr (buildAllowed_ne_nil gfx _ _)
  | @draw pal now rng s _ ih =>
    by_cases hz : s._cols = 0 ∨ s._rows = 0
    · rw [Draw_zero_area gfx pal now s rng hz]; exact ih
    · right
      unfold PatternBoxes.Draw
      rw [if_neg hz]
      simp only []
      rw [(recolourLoop_frame gfx _ _ _ rng []).2.2.2.2.2.1]
      by_cases hp : s._cachedPalette ≠ pal
      · simp only [if_pos hp]; exact buildAllowed_ne_nil gfx pal _
      · simp only [if_neg hp]
        rcases ih with ⟨h0, -⟩ | h
        · exact absurd (Or.inl h0) hz
        · exact h

/-- What `Draw` does on a reachable non-empty grid: the geometry stays, every
recolour writes an index of the grid and a colour of the allowed set, and
every operation sent to the sink is the dimming or the full rectangle of a tile. -/
theorem Draw_safe (gfx : Gfx) (pal : CRGBPalette16) (now : Nat) (s : PatternBoxes)
    (rng : RandomSource) (hc0 : s._cols ≠ 0) (hr0 : s._rows ≠ 0)
    (hc : s._cols = gfx.MATRIX_WIDTH / BOX_SIZE) (hr : s._rows = gfx.MATRIX_HEIGHT / BOX_SIZE)
    (hA : s._allowedColors ≠ []) :
    (PatternBoxes.Draw gfx pal now s rng).state._cols = s._cols ∧
    (PatternBoxes.Draw gfx pal now s rng).state._rows = s._rows ∧
    (PatternBoxes.Draw gfx pal now s rng).state._allowedColors ≠ [] ∧
    (∀ rc ∈ (PatternBoxes.Draw gfx pal now s rng).recolours,
      rc.1 < s._cols * s._rows ∧
      rc.2 ∈ (PatternBoxes.Draw gfx pal now s rng).state._allowedColors) ∧
    (∀ op ∈ (PatternBoxes.Draw gfx pal now s rng).ops,
      op = SinkOp.DimAll 240 ∨
      ∃ (r c : Nat) (col : PixelColor), r < s._rows ∧ c < s._cols ∧
        op = SinkOp.fillRectangle ((c * 8 : Nat) : Int) ((r * 8 : Nat) : Int)
          ((c * 8 + 8 : Nat) : Int) ((r * 8 + 8 : Nat) : Int) col ∧
        c * 8 + 8 ≤ gfx.MATRIX_WIDTH ∧ r * 8 + 8 ≤ gfx.MATRIX_HEIGHT) := by
  have hW : s._cols * BOX_SIZE ≤ gfx.MATRIX_WIDTH := by
    rw [hc]; exact Nat.div_mul_le_self _ _
  have hH : s._rows * BOX_SIZE ≤ gfx.MATRIX_HEIGHT := by
    rw [hr]; exact Nat.div_mul_le_self _ _
  have htot : s._cols * s._rows ≠ 0 := Nat.mul_ne_zero hc0 hr0
  -- the state the recolour loop starts from
  obtain ⟨s2, hs2, g1, g2, g3⟩ : ∃ s2 : PatternBoxes,
      (PatternBoxes.Draw gfx pal now s rng
        = { state := (recolourLoop gfx (s2._cols * s2._rows)
              (timerStep (if s._cachedPalette ≠ pal then RecomputeGrid gfx pal s else s) now).2
              s2 rng []).1
            rng := (recolourLoop gfx (s2._cols * s2._rows)
              (timerStep (if s._cachedPalette ≠ pal then RecomputeGrid gfx pal s else s) now).2
              s2 rng []).2.1
            ops := SinkOp.DimAll 240 :: paintOps gfx (recolourLoop gfx (s2._cols * s2._rows)
              (timerStep (if s._cachedPalette ≠ pal then RecomputeGrid gfx pal s else s) now).2
              s2 rng []).1
            recolours := (recolourLoop gfx (s2._cols * s2._rows)
              (timerStep (if s._cachedPalette ≠ pal then RecomputeGrid gfx pal s else s) now).2
              s2 rng []).2.2 }) ∧
      s2._cols = s._cols ∧ s2._rows = s._rows ∧ s2._allowedColors ≠ [] := by
    refine ⟨{ (if s._cachedPalette ≠ pal then RecomputeGrid gfx pal s else s) with
        _lastChangeMs := (timerStep (if s._cachedPalette ≠ pal then RecomputeGrid gfx pal s else s) now).1 },
      ?_, ?_, ?_, ?_⟩
    · unfold PatternBoxes.Draw
      rw [if_neg (by simp [hc0, hr0])]
    · by_cases hp : s._cachedPalette ≠ pal
      · simp only [if_pos hp]; exact hc.symm
      · simp only [if_neg hp]
    · by_cases hp : s._cachedPalette ≠ pal
      · simp only [if_pos hp]; exact hr.symm
      · simp only [if_neg hp]
    · by_cases hp : s._cachedPalette ≠ pal
      · simp only [if_pos hp]; exact buildAllowed_ne_nil gfx pal _
      · simp only [if_neg hp]; exact hA
  rw [hs2]
  simp only []
  obtain ⟨f1, f2, -, -, -, f6, -, -, -⟩ := recolourLoop_frame gfx (s2._cols * s2._rows)
    (timerStep (if s._cachedPalette ≠ pal then RecomputeGrid gfx pal s else s) now).2 s2 rng []
  have htr := recolourLoop_trace gfx (s2._cols * s2._rows) (by rw [g1, g2]; exact htot)
    (timerStep (if s._cachedPalette ≠ pal then RecomputeGrid gfx pal s else s) now).2 s2 rng []
    g3 (by intro rc hrc; exact absurd hrc (List.not_mem_nil _))
  refine ⟨by rw [f1, g1], by rw [f2, g2], by rw [f6]; exact g3, ?_, ?_⟩
  · intro rc hrc
    have := htr rc hrc
    rw [g1, g2] at this
    rw [f6]
    exact this
  · intro op hop
    rw [List.mem_cons] at hop
    rcases hop with hop | hop
    · exact Or.inl hop
    · right
      have := paintOps_mem gfx _ (by rw [f1, g1]; exact hW) (by rw [f2, g2]; exact hH) op hop
      rw [f1, f2, g1, g2] at this
      exact this

/-- C17: in every reachable state with a non-empty grid the allowed-colour
set is not empty; so every random draw of `Draw` has a positive span and
returns a value below it, the divisor `_cols` is not zero, the drawn tile
index and the up to four neighbour indices lie below `_cols * _rows` (the
length of the tile array), neither empty-set fallback is taken, the geometry
and the non-emptiness persist through `Draw`, and every painted rectangle is
`[c*8, c*8+8) x [r*8, r*8+8)` with `c < _cols`, `r < _rows`, inside the matrix
because `_cols * 8 ≤ MATRIX_WIDTH` and `_rows * 8 ≤ MATRIX_HEIGHT`. -/
theorem mosaic_draw_safety (gfx : Gfx) (s : PatternBoxes) (h : BoxesReachable gfx s)
    (hc0 : s._cols ≠ 0) (hr0 : s._rows ≠ 0) :
    s._allowedColors ≠ [] ∧
    0 < s._cols * s._rows ∧ 0 < s._allowedColors.length ∧
    s._cols * 8 ≤ gfx.MATRIX_WIDTH ∧ s._rows * 8 ≤ gfx.MATRIX_HEIGHT ∧
    s._boxColors.length = s._cols * s._rows ∧
    (∀ rng : RandomSource,
      (random (s._cols * s._rows) rng).1 < s._cols * s._rows ∧
      (random s._allowedColors.length rng).1 < s._allowedColors.length) ∧
    (∀ (t : PatternBoxes) (idx : Nat), t._cols = s._cols → t._rows = s._rows →
      idx < s._cols * s._rows →
      (pickNeighbors t idx = (pickNeighborIndices t idx).map fun j => t._boxColors.getD j CRGB.Black) ∧
      ∀ j ∈ pickNeighborIndices t idx, j < s._cols * s._rows) ∧
    (∀ (idx : Nat) (rng : RandomSource),
      PickNonMatching gfx s idx rng
        = pickLoop s._allowedColors (pickNeighbors s idx) s._allowedColors.length rng) ∧
    (∀ src : CRGB, NearestAllowed s._allowedColors src ∈ s._allowedColors) ∧
    (∀ (pal : CRGBPalette16) (now : Nat) (rng : RandomSource),
      BoxesReachable gfx (PatternBoxes.Draw gfx pal now s rng).state ∧
      (PatternBoxes.Draw gfx pal now s rng).state._cols = s._cols ∧
      (PatternBoxes.Draw gfx pal now s rng).state._rows = s._rows ∧
      (PatternBoxes.Draw gfx pal now s rng).state._allowedColors ≠ [] ∧
      (∀ rc ∈ (PatternBoxes.Draw gfx pal now s rng).recolours,
        rc.1 < s._cols * s._rows ∧
        rc.2 ∈ (PatternBoxes.Draw gfx pal now s rng).state._allowedColors) ∧
      (∀ op ∈ (PatternBoxes.Draw gfx pal now s rng).ops,
        op = SinkOp.DimAll 240 ∨
        ∃ (r c : Nat) (col : PixelColor), r < s._rows ∧ c < s._cols ∧
          op = SinkOp.fillRectangle ((c * 8 : Nat) : Int) ((r * 8 : Nat) : Int)
            ((c * 8 + 8 : Nat) : Int) ((r * 8 + 8 : Nat) : Int) col ∧
          c * 8 + 8 ≤ gfx.MATRIX_WIDTH ∧ r * 8 + 8 ≤ gfx.MATRIX_HEIGHT)) := by
  have hA : s._allowedColors ≠ [] := by
    rcases reachable_allowed gfx s h with ⟨h0, -⟩ | hA
    · exact absurd h0 hc0
    · exact hA
  obtain ⟨hc, hr⟩ : s._cols = gfx.MATRIX_WIDTH / BOX_SIZE ∧ s._rows = gfx.MATRIX_HEIGHT / BOX_SIZE := by
    rcases reachable_geometry gfx s h with ⟨h0, -⟩ | hg
    · exact absurd h0 hc0
    · exact hg
  have hlen0 : s._allowedColors.length ≠ 0 := by simpa using hA
  have htot : s._cols * s._rows ≠ 0 := Nat.mul_ne_zero hc0 hr0
  have hW : s._cols * 8 ≤ gfx.MATRIX_WIDTH := by
    rw [hc]; exact Nat.div_mul_le_self _ _
  have hH : s._rows * 8 ≤ gfx.MATRIX_HEIGHT := by
    rw [hr]; exact Nat.div_mul_le_self _ _
  refine ⟨hA, Nat.pos_of_ne_zero htot, Nat.pos_of_ne_zero hlen0, hW, hH,
    reachable_boxColors_length gfx s h, ?_, ?_, ?_, ?_, ?_⟩
  · intro rng
    exact ⟨random_fst_lt _ rng htot, random_fst_lt _ rng hlen0⟩
  · intro t idx ht1 ht2 hidx
    refine ⟨pickNeighbors_eq_map t idx, ?_⟩
    intro j hj
    have := pickNeighborIndices_lt t idx (by rw [ht1, ht2]; exact hidx) j hj
    rw [ht1, ht2] at this
    exact this
  · intro idx rng
    unfold PickNonMatching
    rw [if_neg (by simpa using hA)]
  · intro src
    exact NearestAllowed_mem src _ hA
  · intro pal now rng
    obtain ⟨d1, d2, d3, d4, d5⟩ := Draw_safe gfx pal now s rng hc0 hr0 hc hr hA
    exact ⟨BoxesReachable.draw pal now rng h, d1, d2, d3, d4, d5⟩

/-- Worked example of C17: the 4 by 4 mosaic after `Start`. -/
theorem mosaic_draw_safety_witness :
    BoxesReachable (demoGfx 32 32) sixteenTilesStarted ∧
    sixteenTilesStarted._cols ≠ 0 ∧ sixteenTilesStarted._rows ≠ 0 ∧
    sixteenTilesStarted._allowedColors ≠ [] ∧
    sixteenTilesStarted._cols * 8 ≤ (demoGfx 32 32).MATRIX_WIDTH :=
  ⟨BoxesReachable.start _ _ (BoxesReachable.fresh _), by decide, by decide,
    (mosaic_draw_safety (demoGfx 32 32) sixteenTilesStarted
      (BoxesReachable.start _ _ (BoxesReachable.fresh _)) (by decide) (by decide)).1,
    (mosaic_draw_safety (demoGfx 32 32) sixteenTilesStarted
      (BoxesReachable.start _ _ (BoxesReachable.fresh _)) (by decide) (by decide)).2.2.2.1⟩

/-! ## Theorems: the line of the warp trail -/

theorem roundToInt_intCast (n : Int) : roundToInt (n : ℚ) = n := by
  unfold roundToInt
  split
  · rw [show ((n : ℚ) + 1 / 2) = (1 / 2 : ℚ) + ((n : Int) : ℚ) by ring, Int.floor_add_int]
    norm_num
  · rw [show (-(n : ℚ) + 1 / 2) = (1 / 2 : ℚ) + ((-n : Int) : ℚ) by push_cast; ring,
      Int.floor_add_int]
    norm_num

/-- The C `round` moves a number by at most one half. -/
theorem roundToInt_bounds (q : ℚ) :
    q - 1 / 2 ≤ (roundToInt q : ℚ) ∧ (roundToInt q : ℚ) ≤ q + 1 / 2 := by
  unfold roundToInt
  split
  · have h1 := Int.floor_le (q + 1 / 2)
    have h2 := Int.lt_floor_add_one (q + 1 / 2)
    constructor <;> linarith
  · have h1 := Int.floor_le (-q + 1 / 2)
    have h2 := Int.lt_floor_add_one (-q + 1 / 2)
    push_cast
    constructor <;> linarith

/-- A number less than one half away from an integer rounds to it. -/
theorem roundToInt_near (a : ℚ) (n : Int) (h : |a - (n : ℚ)| < 1 / 2) : roundToInt a = n := by
  obtain ⟨b1, b2⟩ := roundToInt_bounds a
  obtain ⟨h1, h2⟩ := abs_lt.mp h
  have l1 : ((roundToInt a : Int) : ℚ) < ((n + 1 : Int) : ℚ) := by push_cast; linarith
  have l2 : ((n - 1 : Int) : ℚ) < ((roundToInt a : Int) : ℚ) := by push_cast; linarith
  have l1' : roundToInt a < n + 1 := by exact_mod_cast l1
  have l2' : n - 1 < roundToInt a := by exact_mod_cast l2
  omega

/-- Two numbers less than 1 apart round to integers at most 1 apart. -/
theorem roundToInt_close (a b : ℚ) (h : |a - b| < 1) : |roundToInt b - roundToInt a| ≤ 1 := by
  obtain ⟨a1, a2⟩ := roundToInt_bounds a
  obtain ⟨b1, b2⟩ := roundToInt_bounds b
  obtain ⟨h1, h2⟩ := abs_lt.mp h
  have l1 : ((roundToInt b - roundToInt a : Int) : ℚ) < ((2 : Int) : ℚ) := by push_cast; linarith
  have l2 : ((-2 : Int) : ℚ) < ((roundToInt b - roundToInt a : Int) : ℚ) := by push_cast; linarith
  have l1' : roundToInt b - roundToInt a < 2 := by exact_mod_cast l1
  have l2' : -2 < roundToInt b - roundToInt a := by exact_mod_cast l2
  rw [abs_le]
  constructor <;> omega

theorem two_zpow_neg126_le : (2 : ℚ) ^ (-126 : Int) ≤ 1 / 2048 := by
  have h : (2 : ℚ) ^ (-126 : Int) ≤ (2 : ℚ) ^ (-11 : Int) :=
    zpow_le_zpow_right₀ (by norm_num) (by norm_num)
  have h2 : (2 : ℚ) ^ (-11 : Int) = 1 / 2048 := by
    rw [zpow_neg, show ((11 : Int)) = ((11 : Nat) : Int) by rfl, zpow_natCast]
    norm_num
  rw [h2] at h
  exact h

/-- On a line of at most 1024 steps the interpolated coordinate computed in
binary32 is within `2 ^ -12` of the exact one. -/
theorem line_err (D s : Int) (i : Nat) (hs1 : 1 ≤ s) (hs : s ≤ 1024) (hi : (i : Int) ≤ s)
    (hD : |D| ≤ s) :
    |f32 (f32 (D : ℚ) * f32 (f32 (i : ℚ) / f32 (s : ℚ))) - (D : ℚ) * (i : ℚ) / (s : ℚ)|
      ≤ 1 / 4096 := by
  have hsabs : |s| ≤ 16777216 := by rw [abs_of_nonneg (by omega)]; omega
  have hDabs : |D| ≤ 16777216 := by omega
  have hin : i ≤ 16777216 := by omega
  rw [f32_intCast D hDabs, f32_intCast s hsabs, f32_natCast i hin]
  have hsq : (1 : ℚ) ≤ (s : ℚ) := by exact_mod_cast hs1
  have hsq2 : (s : ℚ) ≤ 1024 := by exact_mod_cast hs
  have hspos : (0 : ℚ) < (s : ℚ) := by linarith
  by_cases hi0 : i = 0
  · subst hi0
    simp [f32_zero]
  by_cases hD0 : D = 0
  · subst hD0
    simp [f32_zero]
  have hi1 : (1 : ℚ) ≤ (i : ℚ) := by
    have : 1 ≤ i := Nat.one_le_iff_ne_zero.mpr hi0
    exact_mod_cast this
  have his : (i : ℚ) ≤ (s : ℚ) := by exact_mod_cast hi
  have hx0 : (1 : ℚ) / 1024 ≤ (i : ℚ) / (s : ℚ) := by
    rw [div_le_div_iff₀ (by norm_num) hspos]
    nlinarith
  have hx1 : (i : ℚ) / (s : ℚ) ≤ 1 := by
    rw [div_le_one hspos]; exact his
  have hxpos : (0 : ℚ) < (i : ℚ) / (s : ℚ) := by linarith
  have eT := f32_err ((i : ℚ) / (s : ℚ))
    (by rw [abs_of_pos hxpos]; have := two_zpow_neg126_le; linarith)
  rw [abs_of_pos hxpos] at eT
  obtain ⟨eT1, eT2⟩ := abs_le.mp eT
  have hTlow : (1 : ℚ) / 2048 ≤ f32 ((i : ℚ) / (s : ℚ)) := by linarith
  have hThigh : f32 ((i : ℚ) / (s : ℚ)) ≤ 1 + 1 / 16777216 := by linarith
  have hTpos : (0 : ℚ) < f32 ((i : ℚ) / (s : ℚ)) := by linarith
  have hDq : |(D : ℚ)| ≤ 1024 := by
    have : ((|D| : Int) : ℚ) ≤ ((1024 : Int) : ℚ) := by exact_mod_cast (le_trans hD hs)
    simpa using this
  have hDq1 : (1 : ℚ) ≤ |(D : ℚ)| := by
    have h1 : 1 ≤ |D| := Int.one_le_abs hD0
    have : ((1 : Int) : ℚ) ≤ ((|D| : Int) : ℚ) := by exact_mod_cast h1
    simpa using this
  have hy : |(D : ℚ) * f32 ((i : ℚ) / (s : ℚ))| = |(D : ℚ)| * f32 ((i : ℚ) / (s : ℚ)) := by
    rw [abs_mul, abs_of_pos hTpos]
  have hylow : (2 : ℚ) ^ (-126 : Int) ≤ |(D : ℚ) * f32 ((i : ℚ) / (s : ℚ))| := by
    rw [hy]
    have := two_zpow_neg126_le
    nlinarith
  have hyhigh : |(D : ℚ) * f32 ((i : ℚ) / (s : ℚ))| ≤ 1025 := by
    rw [hy]
    nlinarith [abs_nonneg (D : ℚ)]
  have eA := f32_err _ hylow
  have e1 : |f32 ((D : ℚ) * f32 ((i : ℚ) / (s : ℚ))) - (D : ℚ) * f32 ((i : ℚ) / (s : ℚ))|
      ≤ 1025 / 16777216 := by
    refine le_trans eA ?_
    rw [div_le_div_iff₀ (by norm_num) (by norm_num)]
    linarith
  have e2 : |(D : ℚ) * f32 ((i : ℚ) / (s : ℚ)) - (D : ℚ) * (i : ℚ) / (s : ℚ)|
      ≤ 1024 / 16777216 := by
    rw [show (D : ℚ) * f32 ((i : ℚ) / (s : ℚ)) - (D : ℚ) * (i : ℚ) / (s : ℚ)
        = (D : ℚ) * (f32 ((i : ℚ) / (s : ℚ)) - (i : ℚ) / (s : ℚ)) by ring, abs_mul]
    have h3 : |f32 ((i : ℚ) / (s : ℚ)) - (i : ℚ) / (s : ℚ)| ≤ 1 / 16777216 := by
      refine le_trans eT ?_
      rw [div_le_div_iff₀ (by norm_num) (by norm_num)]
      linarith
    have := mul_le_mul hDq h3 (abs_nonneg _) (by norm_num)
    linarith
  have tri := abs_sub_le (f32 ((D : ℚ) * f32 ((i : ℚ) / (s : ℚ))))
    ((D : ℚ) * f32 ((i : ℚ) / (s : ℚ))) ((D : ℚ) * (i : ℚ) / (s : ℚ))
  have : (1025 : ℚ) / 16777216 + 1024 / 16777216 ≤ 1 / 4096 := by norm_num
  linarith

/-- Along a line of at most 1024 steps, two successive coordinates computed
in binary32 round to integers at most 1 apart. -/
theorem line_coordinate_step32 (D s : Int) (i : Nat) (hs1 : 1 ≤ s) (hs : s ≤ 1024)
    (hi : (i : Int) + 1 ≤ s) (hD : |D| ≤ s) :
    |roundToInt (f32 (f32 (D : ℚ) * f32 (f32 ((i + 1 : Nat) : ℚ) / f32 (s : ℚ))))
      - roundToInt (f32 (f32 (D : ℚ) * f32 (f32 (i : ℚ) / f32 (s : ℚ))))| ≤ 1 := by
  have e0 := line_err D s i hs1 hs (by omega) hD
  have e1 := line_err D s (i + 1) hs1 hs (by push_cast; omega) hD
  have hsq : (1 : ℚ) ≤ (s : ℚ) := by exact_mod_cast hs1
  have hsq2 : (s : ℚ) ≤ 1024 := by exact_mod_cast hs
  have hspos : (0 : ℚ) < (s : ℚ) := by linarith
  have hsne : (s : ℚ) ≠ 0 := ne_of_gt hspos
  rcases lt_or_eq_of_le hD with hlt | heq
  · -- a slope below 1: the exact coordinates are at most 1 - 1 / s apart
    apply roundToInt_close
    have hDq : |(D : ℚ)| ≤ (s : ℚ) - 1 := by
      have h1 : |D| ≤ s - 1 := by omega
      have : ((|D| : Int) : ℚ) ≤ ((s - 1 : Int) : ℚ) := by exact_mod_cast h1
      simpa using this
    have hexact : |(D : ℚ) * ((i + 1 : Nat) : ℚ) / (s : ℚ) - (D : ℚ) * (i : ℚ) / (s : ℚ)|
        ≤ 1 - 1 / 1024 := by
      rw [show (D : ℚ) * ((i + 1 : Nat) : ℚ) / (s : ℚ) - (D : ℚ) * (i : ℚ) / (s : ℚ)
          = (D : ℚ) / (s : ℚ) by push_cast; field_simp; ring, abs_div, abs_of_pos hspos]
      rw [div_le_iff₀ hspos]
      nlinarith
    obtain ⟨a1, a2⟩ := abs_le.mp e0
    obtain ⟨b1, b2⟩ := abs_le.mp e1
    obtain ⟨c1, c2⟩ := abs_le.mp hexact
    rw [abs_lt]
    constructor <;> linarith
  · -- a slope of 1 in magnitude: the exact coordinates are the integers
    rcases abs_eq (by omega : (0 : Int) ≤ s) |>.mp heq with hD1 | hD1
    · have x0 : (D : ℚ) * (i : ℚ) / (s : ℚ) = ((i : Int) : ℚ) := by
        rw [hD1]; push_cast; field_simp
      have x1 : (D : ℚ) * ((i + 1 : Nat) : ℚ) / (s : ℚ) = (((i : Int) + 1 : Int) : ℚ) := by
        rw [hD1]; push_cast; field_simp
      rw [x0] at e0
      rw [x1] at e1
      rw [roundToInt_near _ _ (lt_of_le_of_lt e0 (by norm_num)),
        roundToInt_near _ _ (lt_of_le_of_lt e1 (by norm_num))]
      norm_num
    · have x0 : (D : ℚ) * (i : ℚ) / (s : ℚ) = ((-(i : Int) : Int) : ℚ) := by
        rw [hD1]; push_cast; field_simp; ring
      have x1 : (D : ℚ) * ((i + 1 : Nat) : ℚ) / (s : ℚ) = ((-((i : Int) + 1) : Int) : ℚ) := by
        rw [hD1]; push_cast; field_simp; ring
      rw [x0] at e0
      rw [x1] at e1
      rw [roundToInt_near _ _ (lt_of_le_of_lt e0 (by norm_num)),
        roundToInt_near _ _ (lt_of_le_of_lt e1 (by norm_num))]
      norm_num

theorem linePoints_pos (x0 y0 x1 y1 : Int) (h : 0 < max (abs (x1 - x0)) (abs (y1 - y0))) :
    PatternWarp.linePoints x0 y0 x1 y1
      = (List.range ((max (abs (x1 - x0)) (abs (y1 - y0))).toNat + 1)).map fun (i : Nat) =>
          (x0 + roundToInt (f32 (f32 ((x1 - x0 : Int) : ℚ)
              * f32 (f32 (i : ℚ) / f32 ((max (abs (x1 - x0)) (abs (y1 - y0)) : Int) : ℚ)))),
            y0 + roundToInt (f32 (f32 ((y1 - y0 : Int) : ℚ)
              * f32 (f32 (i : ℚ) / f32 ((max (abs (x1 - x0)) (abs (y1 - y0)) : Int) : ℚ))))) := by
  unfold PatternWarp.linePoints
  simp only []
  rw [if_neg (not_le.mpr h)]

theorem linePoints_get (x0 y0 x1 y1 : Int) (h : 0 < max (abs (x1 - x0)) (abs (y1 - y0)))
    (i : Nat) (hi : i ≤ (max (abs (x1 - x0)) (abs (y1 - y0))).toNat) :
    (PatternWarp.linePoints x0 y0 x1 y1)[i]?
      = some (x0 + roundToInt (f32 (f32 ((x1 - x0 : Int) : ℚ)
              * f32 (f32 (i : ℚ) / f32 ((max (abs (x1 - x0)) (abs (y1 - y0)) : Int) : ℚ)))),
            y0 + roundToInt (f32 (f32 ((y1 - y0 : Int) : ℚ)
              * f32 (f32 (i : ℚ) / f32 ((max (abs (x1 - x0)) (abs (y1 - y0)) : Int) : ℚ))))) := by
  rw [linePoints_pos x0 y0 x1 y1 h, List.getElem?_map, List.getElem?_range (by omega)]
  rfl

/-- C18, as the code has it: before clipping, `drawLineSafe` visits the single
point `(x0, y0)` when `steps = max(|dx|, |dy|)` is 0, and otherwise the
`steps + 1` points `p_i = (x0 + round(dx * t_i), y0 + round(dy * t_i))`,
`i = 0 .. steps`, where `t_i` is the binary32 quotient of `i` by `steps` and
the two products are binary32 products; `p_0 = (x0, y0)`; `p_steps = (x1, y1)`
when `steps ≤ 2^24`; successive points are at most 1 apart in each coordinate
when `steps ≤ 1024`; each point is handed to `drawPixelSafe`. -/
theorem drawLineSafe_points_binary32 (x0 y0 x1 y1 : Int) :
    (max (abs (x1 - x0)) (abs (y1 - y0)) = 0 →
      PatternWarp.linePoints x0 y0 x1 y1 = [(x0, y0)]) ∧
    (0 < max (abs (x1 - x0)) (abs (y1 - y0)) →
      (PatternWarp.linePoints x0 y0 x1 y1).length
        = (max (abs (x1 - x0)) (abs (y1 - y0))).toNat + 1 ∧
      (∀ i : Nat, i ≤ (max (abs (x1 - x0)) (abs (y1 - y0))).toNat →
        (PatternWarp.linePoints x0 y0 x1 y1)[i]?
          = some (x0 + roundToInt (f32 (f32 ((x1 - x0 : Int) : ℚ)
                * f32 (f32 (i : ℚ) / f32 ((max (abs (x1 - x0)) (abs (y1 - y0)) : Int) : ℚ)))),
              y0 + roundToInt (f32 (f32 ((y1 - y0 : Int) : ℚ)
                * f32 (f32 (i : ℚ) / f32 ((max (abs (x1 - x0)) (abs (y1 - y0)) : Int) : ℚ)))))) ∧
      (PatternWarp.linePoints x0 y0 x1 y1)[0]? = some (x0, y0) ∧
      (max (abs (x1 - x0)) (abs (y1 - y0)) ≤ 16777216 →
        (PatternWarp.linePoints x0 y0 x1 y1)[(max (abs (x1 - x0)) (abs (y1 - y0))).toNat]?
          = some (x1, y1)) ∧
      (max (abs (x1 - x0)) (abs (y1 - y0)) ≤ 1024 →
        ∀ (i : Nat) (p q : Int × Int),
          (PatternWarp.linePoints x0 y0 x1 y1)[i]? = some p →
          (PatternWarp.linePoints x0 y0 x1 y1)[i + 1]? = some q →
          abs (q.1 - p.1) ≤ 1 ∧ abs (q.2 - p.2) ≤ 1)) ∧
    (∀ (gfx : Gfx) (c : PixelColor),
      PatternWarp.drawLineSafe gfx x0 y0 x1 y1 c
        = (PatternWarp.linePoints x0 y0 x1 y1).flatMap fun p =>
            PatternWarp.drawPixelSafe gfx p.1 p.2 c) := by
  refine ⟨?_, ?_, fun _ _ => rfl⟩
  · intro h0
    unfold PatternWarp.linePoints
    simp only []
    rw [if_pos (le_of_eq h0)]
  · intro hpos
    have hlen : (PatternWarp.linePoints x0 y0 x1 y1).length
        = (max (abs (x1 - x0)) (abs (y1 - y0))).toNat + 1 := by
      rw [linePoints_pos x0 y0 x1 y1 hpos]
      simp
    have hcastI : (((max (abs (x1 - x0)) (abs (y1 - y0))).toNat : Nat) : Int)
        = max (abs (x1 - x0)) (abs (y1 - y0)) := Int.toNat_of_nonneg (le_of_lt hpos)
    refine ⟨hlen, fun i hi => linePoints_get x0 y0 x1 y1 hpos i hi, ?_, ?_, ?_⟩
    · rw [linePoints_get x0 y0 x1 y1 hpos 0 (by omega)]
      norm_num [f32_zero, roundToInt]
    · intro hbig
      have hsq : ((max (abs (x1 - x0)) (abs (y1 - y0)) : Int) : ℚ) ≠ 0 := by
        have : (0 : ℚ) < ((max (abs (x1 - x0)) (abs (y1 - y0)) : Int) : ℚ) := by exact_mod_cast hpos
        exact ne_of_gt this
      have hcast : (((max (abs (x1 - x0)) (abs (y1 - y0))).toNat : Nat) : ℚ)
          = ((max (abs (x1 - x0)) (abs (y1 - y0)) : Int) : ℚ) := by exact_mod_cast hcastI
      have hs32 : f32 ((max (abs (x1 - x0)) (abs (y1 - y0)) : Int) : ℚ)
          = ((max (abs (x1 - x0)) (abs (y1 - y0)) : Int) : ℚ) :=
        f32_intCast _ (by rw [abs_of_pos hpos]; exact hbig)
      have hdx : f32 ((x1 - x0 : Int) : ℚ) = ((x1 - x0 : Int) : ℚ) :=
        f32_intCast _ (le_trans (le_max_left _ _) hbig)
      have hdy : f32 ((y1 - y0 : Int) : ℚ) = ((y1 - y0 : Int) : ℚ) :=
        f32_intCast _ (le_trans (le_max_right _ _) hbig)
      have hone : f32 (1 : ℚ) = 1 := by
        have := f32_intCast 1 (by norm_num)
        simpa using this
      rw [linePoints_get x0 y0 x1 y1 hpos _ (le_refl _), hcast, hs32, div_self hsq, hone, hdx, hdy,
        mul_one, mul_one, hdx, hdy, roundToInt_intCast, roundToInt_intCast]
      simp
    · intro hsmall i p q hp hq
      have hi1 : i + 1 < (PatternWarp.linePoints x0 y0 x1 y1).length := by
        by_contra hcon
        rw [List.getElem?_eq_none (by omega)] at hq
        exact Option.noConfusion hq
      rw [hlen] at hi1
      rw [linePoints_get x0 y0 x1 y1 hpos i (by omega)] at hp
      rw [linePoints_get x0 y0 x1 y1 hpos (i + 1) (by omega)] at hq
      have hp' := Option.some.inj hp
      have hq' := Option.some.inj hq
      rw [← hp', ← hq']
      have hx := line_coordinate_step32 (x1 - x0) (max (abs (x1 - x0)) (abs (y1 - y0))) i
        (by omega) hsmall (by omega) (le_max_left _ _)
      have hy := line_coordinate_step32 (y1 - y0) (max (abs (x1 - x0)) (abs (y1 - y0))) i
        (by omega) hsmall (by omega) (le_max_right _ _)
      constructor
      · simpa using hx
      · simpa using hy

/-- Worked example of C18 as the code has it: the line from `(0, 0)` to
`(3, 1)` has 4 points and ends at `(3, 1)`. -/
theorem drawLineSafe_points_binary32_witness :
    (0 : Int) < max (abs (3 - 0)) (abs (1 - 0)) ∧
    (PatternWarp.linePoints 0 0 3 1).length = (max (abs ((3 : Int) - 0)) (abs (1 - 0))).toNat + 1 ∧
    (PatternWarp.linePoints 0 0 3 1)[(max (abs ((3 : Int) - 0)) (abs (1 - 0))).toNat]? = some (3, 1) :=
  ⟨by decide, ((drawLineSafe_points_binary32 0 0 3 1).2.1 (by decide)).1,
    ((drawLineSafe_points_binary32 0 0 3 1).2.1 (by decide)).2.2.2.1 (by decide)⟩

/-- C18 as stated fails: on the line from `(0, 0)` to `(22, 11)` the point of
index 13 is `(13, 6)`, because the binary32 product `11 * (13 / 22)` is
`6.4999995`, while `(x0 + round(dx * 13 / steps), y0 + round(dy * 13 / steps))`
is `(13, 7)`. -/
theorem line_point_off_exact :
    (PatternWarp.linePoints 0 0 22 11)[13]? = some (13, 6) ∧
    f32 (f32 (((11 - 0 : Int) : Int) : ℚ) * f32 (f32 (13 : ℚ) / f32 (22 : ℚ))) = 13631487 / 2097152 ∧
    (0 + roundToInt ((((22 - 0 : Int) : Int) : ℚ) * (13 : ℚ)
        / ((max (abs ((22 : Int) - 0)) (abs ((11 : Int) - 0)) : Int) : ℚ)),
      0 + roundToInt ((((11 - 0 : Int) : Int) : ℚ) * (13 : ℚ)
        / ((max (abs ((22 : Int) - 0)) (abs ((11 : Int) - 0)) : Int) : ℚ))) = ((13 : Int), (7 : Int)) := by
  decide!

/-! ## Theorems: off-grid writes -/

theorem fireworks_drawPixelSafe_eq (gfx : Gfx) (x y : Int) (c : PixelColor) :
    PatternFireworks.drawPixelSafe gfx x y c
      = if 0 ≤ x ∧ x < gfx.MATRIX_WIDTH ∧ 0 ≤ y ∧ y < gfx.MATRIX_HEIGHT
        then [SinkOp.fillRectangle x y (x + 1) (y + 1) c] else [] := by
  unfold PatternFireworks.drawPixelSafe
  by_cases h : 0 ≤ x ∧ x < gfx.MATRIX_WIDTH ∧ 0 ≤ y ∧ y < gfx.MATRIX_HEIGHT
  · rw [if_pos h, if_neg]
    omega
  · rw [if_neg h, if_pos]
    omega

theorem warp_drawPixelSafe_eq (gfx : Gfx) (x y : Int) (c : PixelColor) :
    PatternWarp.drawPixelSafe gfx x y c
      = if 0 ≤ x ∧ x < gfx.MATRIX_WIDTH ∧ 0 ≤ y ∧ y < gfx.MATRIX_HEIGHT
        then [SinkOp.fillRectangle x y (x + 1) (y + 1) c] else [] := by
  unfold PatternWarp.drawPixelSafe
  by_cases h : 0 ≤ x ∧ x < gfx.MATRIX_WIDTH ∧ 0 ≤ y ∧ y < gfx.MATRIX_HEIGHT
  · rw [if_pos h, if_neg]
    omega
  · rw [if_neg h, if_pos]
    omega

/-- An operation that fills one pixel of the matrix. -/
theorem fireworks_drawPixelSafe_mem (gfx : Gfx) (x y : Int) (c : PixelColor) :
    ∀ op ∈ PatternFireworks.drawPixelSafe gfx x y c,
      op = SinkOp.fillRectangle x y (x + 1) (y + 1) c ∧
      0 ≤ x ∧ x < gfx.MATRIX_WIDTH ∧ 0 ≤ y ∧ y < gfx.MATRIX_HEIGHT := by
  intro op hop
  rw [fireworks_drawPixelSafe_eq] at hop
  split at hop
  · rename_i h
    exact ⟨List.mem_singleton.mp hop, h⟩
  · exact absurd hop (List.not_mem_nil _)

theorem warp_drawPixelSafe_mem (gfx : Gfx) (x y : Int) (c : PixelColor) :
    ∀ op ∈ PatternWarp.drawPixelSafe gfx x y c,
      op = SinkOp.fillRectangle x y (x + 1) (y + 1) c ∧
      0 ≤ x ∧ x < gfx.MATRIX_WIDTH ∧ 0 ≤ y ∧ y < gfx.MATRIX_HEIGHT := by
  intro op hop
  rw [warp_drawPixelSafe_eq] at hop
  split at hop
  · rename_i h
    exact ⟨List.mem_singleton.mp hop, h⟩
  · exact absurd hop (List.not_mem_nil _)

theorem stepParticle_ops (gfx : Gfx) (fm : FloatMath) (E : Int) (p : Particle) (rng : RandomSource) :
    ∃ (x y : Int) (c : PixelColor),
      (PatternFireworks.stepParticle gfx fm E p rng).ops = [] ∨
      (PatternFireworks.stepParticle gfx fm E p rng).ops = PatternFireworks.drawPixelSafe gfx x y c := by
  cases hex : p.exploded
  · simp only [PatternFireworks.stepParticle, hex, Bool.not_false, if_true]
    split_ifs <;> exact ⟨_, _, _, Or.inr rfl⟩
  · simp only [PatternFireworks.stepParticle, hex, Bool.not_true, Bool.false_eq_true, if_false]
    split_ifs
    · exact ⟨_, _, _, Or.inr rfl⟩
    · exact ⟨_, _, _, Or.inr rfl⟩
    · exact ⟨_, _, _, Or.inr rfl⟩
    · exact ⟨0, 0, PixelColor.hsv 0 0 0, Or.inl rfl⟩

theorem physics_ops (gfx : Gfx) (fm : FloatMath) (E : Int) :
    ∀ (l : List Particle) (rng : RandomSource),
      ∀ op ∈ (PatternFireworks.physics gfx fm E l rng).ops,
        ∃ (x y : Int) (c : PixelColor), op = SinkOp.fillRectangle x y (x + 1) (y + 1) c ∧
          0 ≤ x ∧ x < gfx.MATRIX_WIDTH ∧ 0 ≤ y ∧ y < gfx.MATRIX_HEIGHT := by
  intro l
  induction l with
  | nil => intro rng op hop; simp [PatternFireworks.physics] at hop
  | cons p rest ih =>
    intro rng op hop
    rw [physics_cons] at hop
    simp only [List.mem_append] at hop
    rcases hop with hop | hop
    · obtain ⟨x, y, c, h | h⟩ := stepParticle_ops gfx fm E p rng
      · rw [h] at hop; exact absurd hop (List.not_mem_nil _)
      · rw [h] at hop
        exact ⟨x, y, c, fireworks_drawPixelSafe_mem gfx x y c op hop⟩
    · exact ih _ op hop

theorem drawLineSafe_ops (gfx : Gfx) (x0 y0 x1 y1 : Int) (c : PixelColor) :
    ∀ op ∈ PatternWarp.drawLineSafe gfx x0 y0 x1 y1 c,
      ∃ (x y : Int), op = SinkOp.fillRectangle x y (x + 1) (y + 1) c ∧
        0 ≤ x ∧ x < gfx.MATRIX_WIDTH ∧ 0 ≤ y ∧ y < gfx.MATRIX_HEIGHT := by
  intro op hop
  unfold PatternWarp.drawLineSafe at hop
  rw [List.mem_flatMap] at hop
  obtain ⟨p, -, hp⟩ := hop
  exact ⟨p.1, p.2, warp_drawPixelSafe_mem gfx p.1 p.2 c op hp⟩

theorem starLoop_ops (gfx : Gfx) (wm : WarpMath) (s : PatternWarp) :
    ∀ (l : List Star) (rng : RandomSource),
      ∀ op ∈ (PatternWarp.starLoop gfx wm s l rng).ops,
        ∃ (x y : Int) (c : PixelColor), op = SinkOp.fillRectangle x y (x + 1) (y + 1) c ∧
          0 ≤ x ∧ x < gfx.MATRIX_WIDTH ∧ 0 ≤ y ∧ y < gfx.MATRIX_HEIGHT := by
  intro l
  induction l with
  | nil => intro rng op hop; simp [PatternWarp.starLoop] at hop
  | cons st rest ih =>
    intro rng op hop
    unfold PatternWarp.starLoop at hop
    simp only [List.mem_append] at hop
    rcases hop with hop | hop
    · unfold PatternWarp.stepStar at hop
      obtain ⟨x, y, h⟩ := drawLineSafe_ops gfx _ _ _ _ _ op hop
      exact ⟨x, y, _, h⟩
    · exact ih _ op hop

/-- C16: for every integer pair `(x, y)`, `drawPixelSafe` of the fireworks and
of the warp effect sends a write to the sink if and only if `0 ≤ x < MATRIX_WIDTH`
and `0 ≤ y < MATRIX_HEIGHT`, and the write is the one-pixel rectangle
`[x, x+1) x [y, y+1)`; hence every fill either effect sends in any `Draw`, for
any particles, stars and random source, is a one-pixel rectangle inside the matrix. -/
theorem off_grid_writes_discarded (gfx : Gfx) :
    (∀ (x y : Int) (c : PixelColor),
      PatternFireworks.drawPixelSafe gfx x y c
        = if 0 ≤ x ∧ x < gfx.MATRIX_WIDTH ∧ 0 ≤ y ∧ y < gfx.MATRIX_HEIGHT
          then [SinkOp.fillRectangle x y (x + 1) (y + 1) c] else []) ∧
    (∀ (x y : Int) (c : PixelColor),
      PatternWarp.drawPixelSafe gfx x y c
        = if 0 ≤ x ∧ x < gfx.MATRIX_WIDTH ∧ 0 ≤ y ∧ y < gfx.MATRIX_HEIGHT
          then [SinkOp.fillRectangle x y (x + 1) (y + 1) c] else []) ∧
    (∀ (fm : FloatMath) (s : PatternFireworks) (rng : RandomSource),
      ∀ op ∈ (PatternFireworks.Draw gfx fm s rng).ops,
        op = SinkOp.DimAll 200 ∨
        ∃ (x y : Int) (c : PixelColor), op = SinkOp.fillRectangle x y (x + 1) (y + 1) c ∧
          0 ≤ x ∧ x < gfx.MATRIX_WIDTH ∧ 0 ≤ y ∧ y < gfx.MATRIX_HEIGHT) ∧
    (∀ (wm : WarpMath) (s : PatternWarp) (rng : RandomSource),
      ∀ op ∈ (PatternWarp.Draw gfx wm s rng).ops,
        op = SinkOp.DimAll 180 ∨
        ∃ (x y : Int) (c : PixelColor), op = SinkOp.fillRectangle x y (x + 1) (y + 1) c ∧
          0 ≤ x ∧ x < gfx.MATRIX_WIDTH ∧ 0 ≤ y ∧ y < gfx.MATRIX_HEIGHT) := by
  refine ⟨fireworks_drawPixelSafe_eq gfx, warp_drawPixelSafe_eq gfx, ?_, ?_⟩
  · intro fm s rng op hop
    unfold PatternFireworks.Draw at hop
    simp only [List.mem_cons] at hop
    rcases hop with hop | hop
    · exact Or.inl hop
    · exact Or.inr (physics_ops gfx fm _ _ _ op hop)
  · intro wm s rng op hop
    unfold PatternWarp.Draw at hop
    simp only [List.mem_cons] at hop
    rcases hop with hop | hop
    · exact Or.inl hop
    · exact Or.inr (starLoop_ops gfx wm s _ _ op hop)

/-! ## Theorems: the warp stars -/

theorem startLoop_length (wm : WarpMath) (s : PatternWarp) :
    ∀ (n : Nat) (stars : List Star) (rng : RandomSource),
      (PatternWarp.startLoop wm s n stars rng).1.length = stars.length + n := by
  intro n
  induction n with
  | zero => intro stars rng; rfl
  | succ n ih =>
    intro stars rng
    unfold PatternWarp.startLoop
    rw [ih]
    simp
    omega

theorem warp_Start_length (wm : WarpMath) (s : PatternWarp) (rng : RandomSource) :
    (PatternWarp.Start wm s rng).1._stars.length = s._starCount.toNat := by
  unfold PatternWarp.Start
  simp [startLoop_length]

/-- C15: for each effect and every prior state, `Start` applied once and
applied twice in a row give states of the same shape, which depends on the
prior state through no field that `Start` or `Draw` write: the mosaic has
`_cols = MATRIX_WIDTH / 8`, `_rows = MATRIX_HEIGHT / 8`, `_cols * _rows` tiles
and `max(1, _colorBuckets)` allowed colours; the fireworks have no particle;
the warp has `_starCount` stars. -/
theorem Start_shape_idempotent (gfx : Gfx) (wm : WarpMath) :
    (∀ (s : PatternBoxes) (pal1 pal2 : CRGBPalette16) (now1 now2 : Nat),
      ((PatternBoxes.Start gfx pal1 now1 s)._cols = gfx.MATRIX_WIDTH / 8 ∧
        (PatternBoxes.Start gfx pal1 now1 s)._rows = gfx.MATRIX_HEIGHT / 8 ∧
        (PatternBoxes.Start gfx pal1 now1 s)._boxColors.length
          = gfx.MATRIX_WIDTH / 8 * (gfx.MATRIX_HEIGHT / 8) ∧
        ((PatternBoxes.Start gfx pal1 now1 s)._allowedColors.length : Int) = max 1 s._colorBuckets) ∧
      ((PatternBoxes.Start gfx pal2 now2 (PatternBoxes.Start gfx pal1 now1 s))._cols
          = gfx.MATRIX_WIDTH / 8 ∧
        (PatternBoxes.Start gfx pal2 now2 (PatternBoxes.Start gfx pal1 now1 s))._rows
          = gfx.MATRIX_HEIGHT / 8 ∧
        (PatternBoxes.Start gfx pal2 now2 (PatternBoxes.Start gfx pal1 now1 s))._boxColors.length
          = gfx.MATRIX_WIDTH / 8 * (gfx.MATRIX_HEIGHT / 8) ∧
        ((PatternBoxes.Start gfx pal2 now2
          (PatternBoxes.Start gfx pal1 now1 s))._allowedColors.length : Int)
          = max 1 s._colorBuckets)) ∧
    (∀ s : PatternFireworks,
      (PatternFireworks.Start s)._particles = [] ∧
      (PatternFireworks.Start (PatternFireworks.Start s))._particles = []) ∧
    (∀ (s : PatternWarp) (rng1 rng2 : RandomSource), 0 ≤ s._starCount →
      ((PatternWarp.Start wm s rng1).1._stars.length : Int) = s._starCount ∧
      ((PatternWarp.Start wm (PatternWarp.Start wm s rng1).1 rng2).1._stars.length : Int)
        = s._starCount) := by
  have hmax : ∀ cb : Int, (((max 1 cb).toNat : Nat) : Int) = max 1 cb := by
    intro cb
    exact Int.toNat_of_nonneg (le_trans (by norm_num) (le_max_left 1 cb))
  refine ⟨?_, ?_, ?_⟩
  · intro s pal1 pal2 now1 now2
    refine ⟨⟨rfl, rfl, ?_, ?_⟩, rfl, rfl, ?_, ?_⟩
    · exact RecomputeGrid_boxColors_length gfx pal1 _
    · rw [← hmax]
      exact congrArg Nat.cast (buildAllowed_length gfx pal1 _)
    · exact RecomputeGrid_boxColors_length gfx pal2 _
    · rw [← hmax]
      exact congrArg Nat.cast (buildAllowed_length gfx pal2 _)
  · intro s
    exact ⟨rfl, rfl⟩
  · intro s rng1 rng2 h0
    rw [warp_Start_length, warp_Start_length]
    exact ⟨Int.toNat_of_nonneg h0, Int.toNat_of_nonneg h0⟩

/-- Worked example of C15: `Start` of the warp effect, once and twice, leaves 1200 stars. -/
theorem Start_shape_idempotent_witness :
    (0 : Int) ≤ PatternWarp.new._starCount ∧
    ((PatternWarp.Start demoWarpMath PatternWarp.new (fun k => k)).1._stars.length : Int)
      = PatternWarp.new._starCount ∧
    ((PatternWarp.Start demoWarpMath (PatternWarp.Start demoWarpMath PatternWarp.new (fun k => k)).1
      (fun k => 7 * k)).1._stars.length : Int) = PatternWarp.new._starCount :=
  ⟨by decide,
    ((Start_shape_idempotent (demoGfx 32 32) demoWarpMath).2.2 PatternWarp.new (fun k => k)
      (fun k => 7 * k) (by decide)).1,
    ((Start_shape_idempotent (demoGfx 32 32) demoWarpMath).2.2 PatternWarp.new (fun k => k)
      (fun k => 7 * k) (by decide)).2⟩

theorem randomRange_bounds (lo hi : Int) (rng : RandomSource) (h : lo < hi) :
    lo ≤ (randomRange lo hi rng).1 ∧ (randomRange lo hi rng).1 < hi := by
  unfold randomRange
  rw [if_neg (not_le.mpr h)]
  simp only [random]
  have hpos : (hi - lo).toNat ≠ 0 := by omega
  rw [if_neg hpos]
  have hlt : rng 0 % (hi - lo).toNat < (hi - lo).toNat := Nat.mod_lt _ (Nat.pos_of_ne_zero hpos)
  constructor <;> omega

/-- A fresh star: its depth is `minZ + pow(r / 1000, 0.5) * (maxZ - minZ)` for a
draw `r` in `[0, 1000)`, its speed lies in `[0.02, 0.20)`, its hue is 160. -/
theorem makeStar_fields (wm : WarpMath) (s : PatternWarp) (rng : RandomSource) :
    (∃ r : Nat, r < 1000 ∧
      (PatternWarp.makeStar wm s rng).1.z
        = s._minZ + wm.powHalf ((r : ℚ) / 1000) * (s._maxZ - s._minZ)) ∧
    (2 : ℚ) / 100 ≤ (PatternWarp.makeStar wm s rng).1.speed ∧
    (PatternWarp.makeStar wm s rng).1.speed < 20 / 100 ∧
    (PatternWarp.makeStar wm s rng).1.hue = 160 ∧
    (PatternWarp.makeStar wm s rng).1.cosA = wm.cosDeg (PatternWarp.makeStar wm s rng).1.angle ∧
    (PatternWarp.makeStar wm s rng).1.sinA = wm.sinDeg (PatternWarp.makeStar wm s rng).1.angle := by
  obtain ⟨r1, r2⟩ := randomRange_bounds 0 1000 (randomRange 0 360 rng).2 (by norm_num)
  obtain ⟨q1, q2⟩ := randomRange_bounds 0 1000
    (randomRange 0 1000 (randomRange 0 360 rng).2).2 (by norm_num)
  refine ⟨⟨((randomRange 0 1000 (randomRange 0 360 rng).2).1).toNat, by omega, ?_⟩, ?_, ?_,
    rfl, rfl, rfl⟩
  · have hcast : ((((randomRange 0 1000 (randomRange 0 360 rng).2).1).toNat : Nat) : ℚ)
        = (((randomRange 0 1000 (randomRange 0 360 rng).2).1 : Int) : ℚ) := by
      have : ((((randomRange 0 1000 (randomRange 0 360 rng).2).1).toNat : Nat) : Int)
          = (randomRange 0 1000 (randomRange 0 360 rng).2).1 := Int.toNat_of_nonneg r1
      exact_mod_cast this
    rw [hcast]
    rfl
  · have h0 : (0 : ℚ) ≤ (((randomRange 0 1000
        (randomRange 0 1000 (randomRange 0 360 rng).2).2).1 : Int) : ℚ) := by exact_mod_cast q1
    show (2 : ℚ) / 100 ≤ 2 / 100 + (((randomRange 0 1000
        (randomRange 0 1000 (randomRange 0 360 rng).2).2).1 : Int) : ℚ) / 1000 * (18 / 100)
    have : (0 : ℚ) ≤ (((randomRange 0 1000
        (randomRange 0 1000 (randomRange 0 360 rng).2).2).1 : Int) : ℚ) / 1000 * (18 / 100) := by
      positivity
    linarith
  · have h1 : (((randomRange 0 1000
        (randomRange 0 1000 (randomRange 0 360 rng).2).2).1 : Int) : ℚ) < 1000 := by
      exact_mod_cast q2
    show (2 : ℚ) / 100 + (((randomRange 0 1000
        (randomRange 0 1000 (randomRange 0 360 rng).2).2).1 : Int) : ℚ) / 1000 * (18 / 100)
      < 20 / 100
    linarith

theorem makeStar_depth (wm : WarpMath) (s : PatternWarp) (rng : RandomSource)
    (hpow : ∀ u : ℚ, 0 ≤ u → u < 1 → 0 ≤ wm.powHalf u ∧ wm.powHalf u ≤ 1)
    (hz : s._minZ ≤ s._maxZ) :
    s._minZ ≤ (PatternWarp.makeStar wm s rng).1.z ∧ (PatternWarp.makeStar wm s rng).1.z ≤ s._maxZ := by
  obtain ⟨⟨r, hr, hzr⟩, -⟩ := makeStar_fields wm s rng
  have hr0 : (0 : ℚ) ≤ (r : ℚ) / 1000 := by positivity
  have hr1 : (r : ℚ) / 1000 < 1 := by
    rw [div_lt_one (by norm_num)]
    exact_mod_cast hr
  obtain ⟨p0, p1⟩ := hpow _ hr0 hr1
  rw [hzr]
  have hd : 0 ≤ s._maxZ - s._minZ := by linarith
  constructor
  · have := mul_nonneg p0 hd
    linarith
  · have := mul_le_mul_of_nonneg_right p1 hd
    linarith

/-- The update of one star in `Draw`: replaced by a fresh star when its
decremented depth is at most `_minZ`, otherwise moved closer by its speed. -/
theorem stepStar_star (gfx : Gfx) (wm : WarpMath) (s : PatternWarp) (st : Star) (rng : RandomSource) :
    (st.z - st.speed ≤ s._minZ →
      (PatternWarp.stepStar gfx wm s st rng).star = (PatternWarp.makeStar wm s rng).1 ∧
      (PatternWarp.stepStar gfx wm s st rng).rng = (PatternWarp.makeStar wm s rng).2) ∧
    (s._minZ < st.z - st.speed →
      (PatternWarp.stepStar gfx wm s st rng).star = { st with z := st.z - st.speed } ∧
      (PatternWarp.stepStar gfx wm s st rng).rng = rng) := by
  constructor
  · intro h
    unfold PatternWarp.stepStar
    simp only [if_pos h]
    exact ⟨trivial, trivial⟩
  · intro h
    unfold PatternWarp.stepStar
    simp only [if_neg (not_le.mpr h)]
    exact ⟨trivial, trivial⟩

/-- The depth and the speed of a star stay in range through its update. -/
theorem stepStar_depth (gfx : Gfx) (wm : WarpMath) (s : PatternWarp) (st : Star) (rng : RandomSource)
    (hpow : ∀ u : ℚ, 0 ≤ u → u < 1 → 0 ≤ wm.powHalf u ∧ wm.powHalf u ≤ 1)
    (hz : s._minZ ≤ s._maxZ) (hst : st.z ≤ s._maxZ) (hsp : 0 < st.speed) :
    s._minZ ≤ (PatternWarp.stepStar gfx wm s st rng).star.z ∧
    (PatternWarp.stepStar gfx wm s st rng).star.z ≤ s._maxZ ∧
    0 < (PatternWarp.stepStar gfx wm s st rng).star.speed := by
  rcases le_or_lt (st.z - st.speed) s._minZ with h | h
  · rw [((stepStar_star gfx wm s st rng).1 h).1]
    obtain ⟨d1, d2⟩ := makeStar_depth wm s rng hpow hz
    have := (makeStar_fields wm s rng).2.1
    exact ⟨d1, d2, by linarith⟩
  · rw [((stepStar_star gfx wm s st rng).2 h).1]
    exact ⟨le_of_lt h, by show st.z - st.speed ≤ s._maxZ; linarith, hsp⟩

theorem starLoop_stars (gfx : Gfx) (wm : WarpMath) (s : PatternWarp)
    (hpow : ∀ u : ℚ, 0 ≤ u → u < 1 → 0 ≤ wm.powHalf u ∧ wm.powHalf u ≤ 1)
    (hz : s._minZ ≤ s._maxZ) :
    ∀ (l : List Star) (rng : RandomSource),
      (PatternWarp.starLoop gfx wm s l rng).stars.length = l.length ∧
      ((∀ st ∈ l, st.z ≤ s._maxZ ∧ 0 < st.speed) →
        ∀ st ∈ (PatternWarp.starLoop gfx wm s l rng).stars,
          s._minZ ≤ st.z ∧ st.z ≤ s._maxZ ∧ 0 < st.speed) := by
  intro l
  induction l with
  | nil => intro rng; simp [PatternWarp.starLoop]
  | cons st rest ih =>
    intro rng
    obtain ⟨i1, i2⟩ := ih (PatternWarp.stepStar gfx wm s st rng).rng
    unfold PatternWarp.starLoop
    simp only [List.length_cons, List.mem_cons, i1]
    refine ⟨trivial, ?_⟩
    intro h q hq
    rcases hq with hq | hq
    · rw [hq]
      exact stepStar_depth gfx wm s st rng hpow hz (h st (Or.inl rfl)).1 (h st (Or.inl rfl)).2
    · exact i2 (fun x hx => h x (Or.inr hx)) q hq

theorem startLoop_stars (wm : WarpMath) (s : PatternWarp)
    (hpow : ∀ u : ℚ, 0 ≤ u → u < 1 → 0 ≤ wm.powHalf u ∧ wm.powHalf u ≤ 1)
    (hz : s._minZ ≤ s._maxZ) :
    ∀ (n : Nat) (stars : List Star) (rng : RandomSource),
      (∀ st ∈ stars, s._minZ ≤ st.z ∧ st.z ≤ s._maxZ ∧ 0 < st.speed) →
      ∀ st ∈ (PatternWarp.startLoop wm s n stars rng).1,
        s._minZ ≤ st.z ∧ st.z ≤ s._maxZ ∧ 0 < st.speed := by
  intro n
  induction n with
  | zero => intro stars rng h; exact h
  | succ n ih =>
    intro stars rng h
    unfold PatternWarp.startLoop
    apply ih
    intro st hst
    rw [List.mem_append, List.mem_singleton] at hst
    rcases hst with hst | hst
    · exact h st hst
    · rw [hst]
      obtain ⟨d1, d2⟩ := makeStar_depth wm s rng hpow hz
      have := (makeStar_fields wm s rng).2.1
      exact ⟨d1, d2, by linarith⟩

theorem warp_Start_stars (wm : WarpMath) (s : PatternWarp) (rng : RandomSource)
    (hpow : ∀ u : ℚ, 0 ≤ u → u < 1 → 0 ≤ wm.powHalf u ∧ wm.powHalf u ≤ 1)
    (hz : s._minZ ≤ s._maxZ) :
    ∀ st ∈ (PatternWarp.Start wm s rng).1._stars,
      (PatternWarp.Start wm s rng).1._minZ ≤ st.z ∧ st.z ≤ (PatternWarp.Start wm s rng).1._maxZ ∧
      0 < st.speed :=
  startLoop_stars wm s hpow hz s._starCount.toNat [] rng
    (fun _ hst => absurd hst (List.not_mem_nil _))

/-- Reachable states of the warp effect keep the fields of the constructor,
1200 stars, and every star in `[_minZ, _maxZ]` with a positive speed. -/
theorem warp_reachable_inv (gfx : Gfx) (wm : WarpMath)
    (hpow : ∀ u : ℚ, 0 ≤ u → u < 1 → 0 ≤ wm.powHalf u ∧ wm.powHalf u ≤ 1)
    (s : PatternWarp) (h : WarpReachable gfx wm s) :
    s._starCount = 1200 ∧ s._minZ = f32 (1 / 10) ∧ s._maxZ = 8 ∧ s._focal = 10 ∧
    s._stars.length = 1200 ∧
    ∀ st ∈ s._stars, s._minZ ≤ st.z ∧ st.z ≤ s._maxZ ∧ 0 < st.speed := by
  have hnew : PatternWarp.new._minZ ≤ PatternWarp.new._maxZ := by
    show f32 (1 / 10 : ℚ) ≤ 8
    rw [f32_tenth]
    norm_num
  induction h with
  | start rng =>
    have h5 : (PatternWarp.Start wm PatternWarp.new rng).1._stars.length = 1200 := by
      rw [warp_Start_length]
      decide
    exact ⟨rfl, rfl, rfl, rfl, h5, warp_Start_stars wm PatternWarp.new rng hpow hnew⟩
  | @restart rng s _ ih =>
    obtain ⟨a, b, c, d, -, -⟩ := ih
    refine ⟨a, b, c, d, ?_, ?_⟩
    · rw [warp_Start_length, a]; decide
    · exact warp_Start_stars wm s rng hpow (by rw [b, c, f32_tenth]; norm_num)
  | @draw rng s _ ih =>
    obtain ⟨a, b, c, d, e, f⟩ := ih
    have hz : s._minZ ≤ s._maxZ := by rw [b, c, f32_tenth]; norm_num
    obtain ⟨l1, l2⟩ := starLoop_stars gfx wm s hpow hz s._stars rng
    refine ⟨a, b, c, d, ?_, ?_⟩
    · show (PatternWarp.starLoop gfx wm s s._stars rng).stars.length = 1200
      rw [l1, e]
    · exact l2 (fun st hst => ⟨(f st hst).2.1, (f st hst).2.2⟩)

/-- C13: with `pow(u, 0.5)` between 0 and 1 for `u` in `[0, 1)` (as the
square root is): in every state reachable from `Start` the star collection
has exactly `_starCount` elements and every star has `_minZ ≤ z ≤ _maxZ`, in
particular right after its own update in `Draw`; a star whose decremented
depth is at most `_minZ` is overwritten by a fresh star with
`z = _minZ + pow(r / 1000, 0.5) * (_maxZ - _minZ)`, `r` in `[0, 1000)`, and
otherwise its depth stays above `_minZ` and, its speed being positive, drops
below its previous value. -/
theorem warp_star_invariant (gfx : Gfx) (wm : WarpMath)
    (hpow : ∀ u : ℚ, 0 ≤ u → u < 1 → 0 ≤ wm.powHalf u ∧ wm.powHalf u ≤ 1) :
    (∀ s : PatternWarp, WarpReachable gfx wm s →
      (s._stars.length : Int) = s._starCount ∧
      ∀ st ∈ s._stars, s._minZ ≤ st.z ∧ st.z ≤ s._maxZ ∧ 0 < st.speed) ∧
    (∀ (s : PatternWarp) (rng : RandomSource), WarpReachable gfx wm s →
      (PatternWarp.Draw gfx wm s rng).state._stars.length = s._stars.length ∧
      ∀ st ∈ (PatternWarp.Draw gfx wm s rng).state._stars, s._minZ ≤ st.z ∧ st.z ≤ s._maxZ) ∧
    (∀ (s : PatternWarp) (st : Star) (rng : RandomSource), s._minZ ≤ s._maxZ →
      (st.z - st.speed ≤ s._minZ →
        (PatternWarp.stepStar gfx wm s st rng).star = (PatternWarp.makeStar wm s rng).1 ∧
        (∃ r : Nat, r < 1000 ∧
          (PatternWarp.stepStar gfx wm s st rng).star.z
            = s._minZ + wm.powHalf ((r : ℚ) / 1000) * (s._maxZ - s._minZ)) ∧
        s._minZ ≤ (PatternWarp.stepStar gfx wm s st rng).star.z ∧
        (PatternWarp.stepStar gfx wm s st rng).star.z ≤ s._maxZ) ∧
      (s._minZ < st.z - st.speed →
        (PatternWarp.stepStar gfx wm s st rng).star.z = st.z - st.speed ∧
        s._minZ < (PatternWarp.stepStar gfx wm s st rng).star.z ∧
        (0 < st.speed → (PatternWarp.stepStar gfx wm s st rng).star.z < st.z) ∧
        (0 < st.speed → st.z ≤ s._maxZ → (PatternWarp.stepStar gfx wm s st rng).star.z ≤ s._maxZ))) := by
  refine ⟨?_, ?_, ?_⟩
  · intro s h
    obtain ⟨a, -, -, -, e, f⟩ := warp_reachable_inv gfx wm hpow s h
    refine ⟨by rw [e, a]; norm_num, f⟩
  · intro s rng h
    obtain ⟨-, b, c, -, -, f⟩ := warp_reachable_inv gfx wm hpow s h
    have hz : s._minZ ≤ s._maxZ := by rw [b, c, f32_tenth]; norm_num
    obtain ⟨l1, l2⟩ := starLoop_stars gfx wm s hpow hz s._stars rng
    refine ⟨l1, ?_⟩
    intro st hst
    have := l2 (fun x hx => ⟨(f x hx).2.1, (f x hx).2.2⟩) st hst
    exact ⟨this.1, this.2.1⟩
  · intro s st rng hz
    constructor
    · intro h
      rw [((stepStar_star gfx wm s st rng).1 h).1]
      obtain ⟨d1, d2⟩ := makeStar_depth wm s rng hpow hz
      exact ⟨rfl, (makeStar_fields wm s rng).1, d1, d2⟩
    · intro h
      rw [((stepStar_star gfx wm s st rng).2 h).1]
      refine ⟨rfl, h, ?_, ?_⟩
      · intro hsp
        show st.z - st.speed < st.z
        linarith
      · intro hsp hmax
        show st.z - st.speed ≤ s._maxZ
        linarith

theorem demoWarpMath_powHalf :
    ∀ u : ℚ, 0 ≤ u → u < 1 → 0 ≤ demoWarpMath.powHalf u ∧ demoWarpMath.powHalf u ≤ 1 := by
  intro u h0 h1
  show 0 ≤ sqrtApprox u ∧ sqrtApprox u ≤ 1
  unfold sqrtApprox
  constructor
  · positivity
  · have hfl : Int.floor (u * 1000000) < 1000000 := by
      rw [Int.floor_lt]
      push_cast
      linarith
    have hnat : Int.toNat (Int.floor (u * 1000000)) < 1000 * 1000 := by omega
    have hsq : Nat.sqrt (Int.toNat (Int.floor (u * 1000000))) < 1000 := Nat.sqrt_lt.mpr hnat
    rw [div_le_one (by norm_num)]
    exact_mod_cast le_of_lt hsq

/-- Worked example of C13: the star with `z = 0.15` and `speed = 0.10`, with
`_minZ = 0.10`, is replaced and its new depth lies in `[_minZ, _maxZ]`. -/
theorem warp_star_invariant_witness :
    ((15 : ℚ) / 100 - 10 / 100 ≤ PatternWarp.new._minZ) ∧
    PatternWarp.new._minZ
      ≤ (PatternWarp.stepStar (demoGfx 32 32) demoWarpMath PatternWarp.new
          { angle := 0, cosA := 1, sinA := 0, z := 15 / 100, speed := 10 / 100, hue := 160 }
          (fun k => k)).star.z ∧
    (PatternWarp.stepStar (demoGfx 32 32) demoWarpMath PatternWarp.new
        { angle := 0, cosA := 1, sinA := 0, z := 15 / 100, speed := 10 / 100, hue := 160 }
        (fun k => k)).star.z ≤ PatternWarp.new._maxZ :=
  ⟨by norm_num [PatternWarp.new, f32_tenth],
    ((((warp_star_invariant (demoGfx 32 32) demoWarpMath demoWarpMath_powHalf).2.2 PatternWarp.new
      { angle := 0, cosA := 1, sinA := 0, z := 15 / 100, speed := 10 / 100, hue := 160 }
      (fun k => k) (by norm_num [PatternWarp.new, f32_tenth])).1
        (by norm_num [PatternWarp.new, f32_tenth])).2.2).1,
    ((((warp_star_invariant (demoGfx 32 32) demoWarpMath demoWarpMath_powHalf).2.2 PatternWarp.new
      { angle := 0, cosA := 1, sinA := 0, z := 15 / 100, speed := 10 / 100, hue := 160 }
      (fun k => k) (by norm_num [PatternWarp.new, f32_tenth])).1
        (by norm_num [PatternWarp.new, f32_tenth])).2.2).2⟩

/-! ## Theorems: the colour of the warp trail -/

theorem truncToU8_of_range (q : ℚ) (h0 : 0 ≤ q) (h1 : q ≤ 255) :
    truncToU8 q = Int.toNat (Int.floor q) ∧ Int.toNat (Int.floor q) ≤ 255 := by
  have hf0 : 0 ≤ Int.floor q := Int.floor_nonneg.mpr h0
  have hf1 : Int.floor q ≤ 255 := by
    have : Int.floor q ≤ Int.floor (255 : ℚ) := Int.floor_mono h1
    simpa using this
  unfold truncToU8
  rw [if_pos h0]
  constructor <;> omega

theorem truncToU8_zero : truncToU8 0 = 0 := by
  simp [truncToU8]

theorem truncToU8_255 : truncToU8 255 = 255 := by
  have h := (truncToU8_of_range 255 (by norm_num) (le_refl _)).1
  rw [h]
  simp

theorem makeStar_zero_depth :
    (PatternWarp.makeStar demoWarpMath PatternWarp.new (fun _ => 0)).1.z
      = PatternWarp.new._minZ := by
  unfold PatternWarp.makeStar
  simp only [randomRange_zero 0 360 (by norm_num), randomRange_zero 0 1000 (by norm_num)]
  simp [demoWarpMath, sqrtApprox]

/-- At the near plane `z = _minZ` the colour is `blend(White, trail, 0)`, the
trail colour having brightness 255. -/
theorem trailColor_near (wm : WarpMath) (s : PatternWarp) (hue : Nat) (hp1 : wm.powTwo 1 = 1) :
    PatternWarp.trailColor wm s hue s._minZ
      = PixelColor.blend (PixelColor.rgb CRGB.White) (PixelColor.hsv hue 255 255) 0 := by
  unfold PatternWarp.trailColor
  simp only [sub_self, f32_zero, zero_div, sub_zero, f32_one, mul_one, f32_255, truncToU8_255, hp1,
    zero_mul, truncToU8_zero]

/-- At the far plane `z = _maxZ` the colour is `blend(White, trail, 255)`, the
trail colour having brightness 0. -/
theorem trailColor_far (wm : WarpMath) (s : PatternWarp) (hue : Nat) (hp0 : wm.powTwo 0 = 0)
    (hd : 0 < f32 (s._maxZ - s._minZ)) :
    PatternWarp.trailColor wm s hue s._maxZ
      = PixelColor.blend (PixelColor.rgb CRGB.White) (PixelColor.hsv hue 255 0) 255 := by
  unfold PatternWarp.trailColor
  simp only [div_self (ne_of_gt hd), sub_self, f32_zero, f32_one, mul_zero, truncToU8_zero, hp0,
    sub_zero, one_mul, f32_255, truncToU8_255]

theorem demoWarpMath_powTwo :
    (∀ u : ℚ, 0 ≤ u → u ≤ 1 → 0 ≤ demoWarpMath.powTwo u ∧ demoWarpMath.powTwo u ≤ 1) ∧
    demoWarpMath.powTwo 0 = 0 ∧ demoWarpMath.powTwo 1 = 1 := by
  refine ⟨?_, ?_, ?_⟩
  · intro u h0 h1
    show 0 ≤ f32 (u * u) ∧ f32 (u * u) ≤ 1
    constructor
    · exact f32_nonneg _ (mul_nonneg h0 h0)
    · have := f32_mono (u * u) 1 (by nlinarith)
      rwa [f32_one] at this
  · show f32 (0 * 0) = 0
    rw [zero_mul, f32_zero]
  · show f32 (1 * 1) = 1
    rw [one_mul, f32_one]

/-- C14 as stated fails: a fresh star whose draw `r` is 0 has depth `_minZ`,
so `t = 0`; the colour `Draw` computes is `blend(White, trail, 0)`, which is
white, while a blend toward white by the factor `1 - (1 - t)^2 = 0` is the
trail colour (hue 160, saturation 255, brightness 255). -/
theorem trail_blend_direction :
    (PatternWarp.makeStar demoWarpMath PatternWarp.new (fun _ => 0)).1.z = PatternWarp.new._minZ ∧
    PatternWarp.trailColor demoWarpMath PatternWarp.new 160 PatternWarp.new._minZ
      = PixelColor.blend (PixelColor.rgb CRGB.White) (PixelColor.hsv 160 255 255) 0 ∧
    blendEndpoint (PatternWarp.trailColor demoWarpMath PatternWarp.new 160 PatternWarp.new._minZ)
      = some (PixelColor.rgb CRGB.White) ∧
    specTrailColor PatternWarp.new._minZ PatternWarp.new._maxZ 160 PatternWarp.new._minZ
      = PixelColor.blend (PixelColor.hsv 160 255 255) (PixelColor.rgb CRGB.White) 0 ∧
    blendEndpoint
        (specTrailColor PatternWarp.new._minZ PatternWarp.new._maxZ 160 PatternWarp.new._minZ)
      = some (PixelColor.hsv 160 255 255) ∧
    PatternWarp.trailColor demoWarpMath PatternWarp.new 160 PatternWarp.new._minZ
      ≠ specTrailColor PatternWarp.new._minZ PatternWarp.new._maxZ 160 PatternWarp.new._minZ := by
  have hcode := trailColor_near demoWarpMath PatternWarp.new 160 demoWarpMath_powTwo.2.2
  have hspec : specTrailColor PatternWarp.new._minZ PatternWarp.new._maxZ 160 PatternWarp.new._minZ
      = PixelColor.blend (PixelColor.hsv 160 255 255) (PixelColor.rgb CRGB.White) 0 := by
    unfold specTrailColor
    norm_num [truncToU8_zero, truncToU8_255]
  refine ⟨makeStar_zero_depth, hcode, ?_, hspec, ?_, ?_⟩
  · rw [hcode]; rfl
  · rw [hspec]; rfl
  · rw [hcode, hspec]
    decide

theorem startLoop_hue (wm : WarpMath) (s : PatternWarp) :
    ∀ (n : Nat) (stars : List Star) (rng : RandomSource), (∀ st ∈ stars, st.hue = 160) →
      ∀ st ∈ (PatternWarp.startLoop wm s n stars rng).1, st.hue = 160 := by
  intro n
  induction n with
  | zero => intro stars rng h; exact h
  | succ n ih =>
    intro stars rng h
    unfold PatternWarp.startLoop
    apply ih
    intro st hst
    rw [List.mem_append, List.mem_singleton] at hst
    rcases hst with hst | hst
    · exact h st hst
    · rw [hst]; rfl

theorem stepStar_hue (gfx : Gfx) (wm : WarpMath) (s : PatternWarp) (st : Star) (rng : RandomSource)
    (h : st.hue = 160) : (PatternWarp.stepStar gfx wm s st rng).star.hue = 160 := by
  rcases le_or_lt (st.z - st.speed) s._minZ with hz | hz
  · rw [((stepStar_star gfx wm s st rng).1 hz).1]; rfl
  · rw [((stepStar_star gfx wm s st rng).2 hz).1]; exact h

theorem starLoop_hue (gfx : Gfx) (wm : WarpMath) (s : PatternWarp) :
    ∀ (l : List Star) (rng : RandomSource), (∀ st ∈ l, st.hue = 160) →
      ∀ st ∈ (PatternWarp.starLoop gfx wm s l rng).stars, st.hue = 160 := by
  intro l
  induction l with
  | nil => intro rng _ st hst; simp [PatternWarp.starLoop] at hst
  | cons st rest ih =>
    intro rng h q hq
    unfold PatternWarp.starLoop at hq
    simp only [List.mem_cons] at hq
    rcases hq with hq | hq
    · rw [hq]; exact stepStar_hue gfx wm s st rng (h st (List.mem_cons_self _ _))
    · exact ih _ (fun x hx => h x (List.mem_cons_of_mem _ hx)) q hq

theorem warp_Start_hue (wm : WarpMath) (s : PatternWarp) (rng : RandomSource) :
    ∀ st ∈ (PatternWarp.Start wm s rng).1._stars, st.hue = 160 :=
  startLoop_hue wm s s._starCount.toNat [] rng (fun _ hst => absurd hst (List.not_mem_nil _))

theorem warp_reachable_hue (gfx : Gfx) (wm : WarpMath) (s : PatternWarp)
    (h : WarpReachable gfx wm s) : ∀ st ∈ s._stars, st.hue = 160 := by
  induction h with
  | start rng => exact warp_Start_hue wm PatternWarp.new rng
  | @restart rng s _ _ => exact warp_Start_hue wm s rng
  | @draw rng s _ ih => exact starLoop_hue gfx wm s s._stars rng ih

/-- Reachable states of the warp effect keep the depth range of the
constructor, whose binary32 width `8.0f - 0.10f` is positive. -/
theorem warp_reachable_range (gfx : Gfx) (wm : WarpMath) (s : PatternWarp)
    (h : WarpReachable gfx wm s) :
    s._minZ = PatternWarp.new._minZ ∧ s._maxZ = PatternWarp.new._maxZ ∧
    0 < f32 (s._maxZ - s._minZ) := by
  have hnew : 0 < f32 (PatternWarp.new._maxZ - PatternWarp.new._minZ) := by decide!
  have hfields : s._minZ = PatternWarp.new._minZ ∧ s._maxZ = PatternWarp.new._maxZ := by
    induction h with
    | start rng => exact ⟨rfl, rfl⟩
    | @restart rng s _ ih => exact ih
    | @draw rng s _ ih => exact ih
  refine ⟨hfields.1, hfields.2, ?_⟩
  rw [hfields.1, hfields.2]
  exact hnew

/-- C14, as the code has it: for a star of post-update depth `z` in
`[_minZ, _maxZ]`, with `t` the binary32 value of `(z - _minZ) / (_maxZ - _minZ)`
(which lies in `[0, 1]`), every pixel of its trail is drawn in the colour
`blend(White, trail, amount)` where the trail colour has the hue of the star
(160 in every reachable state), saturation 255 and as brightness the binary32
value of `255 * (1 - t)` truncated to an integer, and `amount` is the binary32
value of `(1 - pow(1 - t, 2)) * 255` truncated to an integer, both at most
255: the blend factor `1 - (1 - t)^2` is toward the trail colour (toward white
it is `(1 - t)^2`), `blend(a, b, amount)` being `a` at amount 0 and `b` at
amount 255; so the colour is white at `z = _minZ` and the (black) trail colour
at `z = _maxZ`.  The library `pow(u, 2.0f)` is taken to map `[0, 1]` into
`[0, 1]`, 0 to 0 and 1 to 1. -/
theorem trail_colour_binary32 (gfx : Gfx) (wm : WarpMath) (s : PatternWarp) (hue : Nat) (z t : ℚ)
    (hpow : ∀ u : ℚ, 0 ≤ u → u ≤ 1 → 0 ≤ wm.powTwo u ∧ wm.powTwo u ≤ 1)
    (hp0 : wm.powTwo 0 = 0) (hp1 : wm.powTwo 1 = 1)
    (hd : 0 < f32 (s._maxZ - s._minZ)) (h1 : s._minZ ≤ z) (h2 : z ≤ s._maxZ)
    (ht : t = f32 (f32 (z - s._minZ) / f32 (s._maxZ - s._minZ))) :
    0 ≤ t ∧ t ≤ 1 ∧
    PatternWarp.trailColor wm s hue z
      = PixelColor.blend (PixelColor.rgb CRGB.White)
          (PixelColor.hsv hue 255 (Int.toNat (Int.floor (f32 (255 * f32 (1 - t))))))
          (Int.toNat (Int.floor (f32 (f32 (1 - wm.powTwo (f32 (1 - t))) * 255)))) ∧
    Int.toNat (Int.floor (f32 (255 * f32 (1 - t)))) ≤ 255 ∧
    Int.toNat (Int.floor (f32 (f32 (1 - wm.powTwo (f32 (1 - t))) * 255))) ≤ 255 ∧
    (z = s._minZ →
      blendEndpoint (PatternWarp.trailColor wm s hue z) = some (PixelColor.rgb CRGB.White)) ∧
    (z = s._maxZ →
      blendEndpoint (PatternWarp.trailColor wm s hue z) = some (PixelColor.hsv hue 255 0)) ∧
    (∀ (st : Star) (rng : RandomSource), ∀ op ∈ (PatternWarp.stepStar gfx wm s st rng).ops,
      ∃ (x y : Int), op = SinkOp.fillRectangle x y (x + 1) (y + 1)
        (PatternWarp.trailColor wm s (PatternWarp.stepStar gfx wm s st rng).star.hue
          (PatternWarp.stepStar gfx wm s st rng).star.z)) ∧
    (WarpReachable gfx wm s →
      (∀ st ∈ s._stars, st.hue = 160) ∧ 0 < f32 (s._maxZ - s._minZ)) := by
  have ha0 : 0 ≤ f32 (z - s._minZ) := f32_nonneg _ (by linarith)
  have had : f32 (z - s._minZ) ≤ f32 (s._maxZ - s._minZ) := f32_mono _ _ (by linarith)
  have ht0 : 0 ≤ t := by
    rw [ht]; exact f32_nonneg _ (div_nonneg ha0 (le_of_lt hd))
  have ht1 : t ≤ 1 := by
    rw [ht]
    have := f32_mono (f32 (z - s._minZ) / f32 (s._maxZ - s._minZ)) 1 ((div_le_one hd).mpr had)
    rwa [f32_one] at this
  have hu0 : 0 ≤ f32 (1 - t) := f32_nonneg _ (by linarith)
  have hu1 : f32 (1 - t) ≤ 1 := by
    have := f32_mono (1 - t) 1 (by linarith)
    rwa [f32_one] at this
  have hb0 : 0 ≤ f32 (255 * f32 (1 - t)) := f32_nonneg _ (by positivity)
  have hb1 : f32 (255 * f32 (1 - t)) ≤ 255 := by
    have := f32_mono (255 * f32 (1 - t)) 255 (by linarith)
    rwa [f32_255] at this
  obtain ⟨hc0, hc1⟩ := hpow _ hu0 hu1
  have hw0 : 0 ≤ f32 (1 - wm.powTwo (f32 (1 - t))) := f32_nonneg _ (by linarith)
  have hw1 : f32 (1 - wm.powTwo (f32 (1 - t))) ≤ 1 := by
    have := f32_mono (1 - wm.powTwo (f32 (1 - t))) 1 (by linarith)
    rwa [f32_one] at this
  have hm0 : 0 ≤ f32 (f32 (1 - wm.powTwo (f32 (1 - t))) * 255) := f32_nonneg _ (by positivity)
  have hm1 : f32 (f32 (1 - wm.powTwo (f32 (1 - t))) * 255) ≤ 255 := by
    have := f32_mono (f32 (1 - wm.powTwo (f32 (1 - t))) * 255) 255 (by linarith)
    rwa [f32_255] at this
  obtain ⟨tb, tb255⟩ := truncToU8_of_range _ hb0 hb1
  obtain ⟨ta, ta255⟩ := truncToU8_of_range _ hm0 hm1
  have hcol : PatternWarp.trailColor wm s hue z
      = PixelColor.blend (PixelColor.rgb CRGB.White)
          (PixelColor.hsv hue 255 (Int.toNat (Int.floor (f32 (255 * f32 (1 - t))))))
          (Int.toNat (Int.floor (f32 (f32 (1 - wm.powTwo (f32 (1 - t))) * 255)))) := by
    unfold PatternWarp.trailColor
    simp only []
    rw [← ht, tb, ta]
  refine ⟨ht0, ht1, hcol, tb255, ta255, ?_, ?_, ?_, ?_⟩
  · intro hz
    rw [hz, trailColor_near wm s hue hp1]
    rfl
  · intro hz
    rw [hz, trailColor_far wm s hue hp0 hd]
    rfl
  · intro st rng op hop
    unfold PatternWarp.stepStar at hop
    exact drawLineSafe_ops gfx _ _ _ _ _ op hop |>.imp fun x hx => hx.imp fun y hy => hy.1
  · intro hr
    exact ⟨warp_reachable_hue gfx wm s hr, (warp_reachable_range gfx wm s hr).2.2⟩

/-- Worked example of C14 as the code has it: the colour at the far plane `z = _maxZ`. -/
theorem trail_colour_binary32_witness :
    PatternWarp.new._minZ ≤ PatternWarp.new._maxZ ∧
    blendEndpoint (PatternWarp.trailColor demoWarpMath PatternWarp.new 160 PatternWarp.new._maxZ)
      = some (PixelColor.hsv 160 255 0) :=
  ⟨by norm_num [PatternWarp.new, f32_tenth],
    (trail_colour_binary32 (demoGfx 32 32) demoWarpMath PatternWarp.new 160 PatternWarp.new._maxZ
      (f32 (f32 (PatternWarp.new._maxZ - PatternWarp.new._minZ)
        / f32 (PatternWarp.new._maxZ - PatternWarp.new._minZ)))
      demoWarpMath_powTwo.1 demoWarpMath_powTwo.2.1 demoWarpMath_powTwo.2.2 (by decide!)
      (by norm_num [PatternWarp.new, f32_tenth]) (le_refl _) rfl).2.2.2.2.2.2.1 rfl⟩

end NightDriver
